import Mathlib

/-!
# Posts-Comments-Service: in-memory store, domain services, subscription broadcaster

A shallow embedding of the Go sources under `internal/` and the properties of the
specification proved (or refuted) over it.

Conventions of the embedding

* Go `int` is `Int`; the only arithmetic the embedded code performs on an `int` is the
  increment of an id counter, which wraps at 64 bits (`wrapInt64`).
* A Go `map[int]V` is an association list (`GoMap V`); the order of the list is the order in
  which `range` visits the map, which Go leaves unspecified, so statements quantify over
  every list.
* A pointer result `(*T, error)` is a pair `Option T × Option GoError`.
* An operation that can stop with a run-time panic returns an `Option`, `none` being the panic.
* `time.Time` is an `Int` instant; `time.Now()` is an argument of the operation.
-/

namespace PostCommentService

/-! # Part I: the embedding (definitions) -/

/-! ## Go runtime pieces -/

/-- Instants of `time.Time`, totally ordered; `a.After(b)` is `a > b`. -/
abbrev Time := Int

/-- Two's-complement wrap-around of a 64-bit Go `int`. -/
def wrapInt64 (n : Int) : Int := (n + 2 ^ 63) % 2 ^ 64 - 2 ^ 63

/-- Go `map[int]V` as an association list; the first binding of a key is the live one. -/
abbrev GoMap (V : Type) := List (Int × V)

namespace GoMap

/-- Comma-ok lookup `v, ok := m[k]`. -/
def get? {V : Type} (m : GoMap V) (k : Int) : Option V :=
  match m with
  | [] => none
  | (k', v) :: rest => if k' = k then some v else get? rest k

/-- Assignment `m[k] = v`: overwrite the binding of `k`, or add one. -/
def set {V : Type} (m : GoMap V) (k : Int) (v : V) : GoMap V :=
  match m with
  | [] => [(k, v)]
  | (k', v') :: rest => if k' = k then (k, v) :: rest else (k', v') :: set rest k v

/-- Builtin `delete(m, k)`. -/
def delete {V : Type} (m : GoMap V) (k : Int) : GoMap V :=
  m.filter (fun e => decide (e.1 ≠ k))

/-- Values in the order a `range` loop visits them. -/
def values {V : Type} (m : GoMap V) : List V := m.map Prod.snd

end GoMap

/-- Slice expression `s[lo:]`; out of range (a run-time panic) is `none`. -/
def sliceFrom {α : Type} (s : List α) (lo : Int) : Option (List α) :=
  if 0 ≤ lo ∧ lo ≤ (s.length : Int) then some (s.drop lo.toNat) else none

/-- Slice expression `s[:hi]`; out of range (a run-time panic) is `none`. The bound used
is `len(s)`: every caller clamps `hi` to `len(s)` first, so `cap(s)` never matters. -/
def sliceTo {α : Type} (s : List α) (hi : Int) : Option (List α) :=
  if 0 ≤ hi ∧ hi ≤ (s.length : Int) then some (s.take hi.toNat) else none

/-- Contract of the standard library's `sort.Slice(x, less)`: the result is a rearrangement
of `x`, and when `less` is a strict weak ordering no element is `less` than one placed
before it. The sort is not stable, so nothing else is known about it. -/
structure SliceSorter where
  sort : {α : Type} → (α → α → Bool) → List α → List α
  perm : ∀ {α : Type} (less : α → α → Bool) (x : List α), (sort less x).Perm x
  sorted : ∀ {α : Type} (less : α → α → Bool) (x : List α),
    (∀ a b, less a b = true → less b a = false) →
    (∀ a b c, less a b = false → less b c = false → less a c = false) →
    List.Pairwise (fun a b => less b a = false) (sort less x)

/-- Insertion of one element, as in an insertion sort driven by `less`. -/
def insertByLess {α : Type} (less : α → α → Bool) (x : α) : List α → List α
  | [] => [x]
  | y :: ys => if less y x then y :: insertByLess less x ys else x :: y :: ys

/-- Insertion sort driven by `less`. -/
def insertionSortBy {α : Type} (less : α → α → Bool) : List α → List α
  | [] => []
  | x :: xs => insertByLess less x (insertionSortBy less xs)

/-! ## Models (`internal/models/models_gen.go`)

`Post.Comments` and `Comment.Replies` are left out: they are filled in by the GraphQL field
resolvers and no function embedded here reads or writes them. -/

structure User where
  ID : Int
  Username : String
deriving DecidableEq, Repr

structure Comment where
  ID : Int
  Payload : String
  PostID : Int
  Author : Option User
  ReplyTo : Option Int
  CreatedAt : Time
deriving DecidableEq, Repr

structure NewComment where
  Payload : String
  PostID : Int
  AuthorID : Int
  ReplyTo : Option Int
deriving DecidableEq, Repr

structure NewPost where
  Title : String
  Payload : String
  AuthorID : Int
  IsCommentsAllowed : Bool
deriving DecidableEq, Repr

structure Post where
  ID : Int
  Title : String
  Payload : String
  Author : Option User
  IsCommentsAllowed : Bool
  CreatedAt : Time
deriving DecidableEq, Repr

/-! ## Errors (`internal/errdefs`) -/

/-- Domain error `errdefs.AppError`; `Extensions` lists the entries of the Go map in the
order of the source literal (a nil map is the empty list). -/
structure AppError where
  Message : String
  Code : String
  Extensions : List (String × Int)
deriving DecidableEq, Repr

/-- Go `error` values met by the services: the sentinel `pgx.ErrNoRows`, an `*AppError`,
any other error, and an error wrapping another one. -/
inductive GoError where
  | ErrNoRows : GoError
  | app (e : AppError) : GoError
  | other (text : String) : GoError
  | wrap (text : String) (inner : GoError) : GoError
deriving DecidableEq, Repr

/-- The test `errors.Is(err, pgx.ErrNoRows)`. -/
def GoError.isErrNoRows : GoError → Bool
  | .ErrNoRows => true
  | .app _ => false
  | .other _ => false
  | .wrap _ inner => inner.isErrNoRows

def InternalServerError : AppError :=
  { Code := "INTERNAL_SERVER_ERROR", Message := "Internal Server Error", Extensions := [] }

def CommentTooLongError (maxLength currentLength : Int) : AppError :=
  { Code := "COMMENT_TOO_LONG", Message := "Comment exceeds maximum allowed length",
    Extensions := [("maxLength", maxLength), ("currentLength", currentLength)] }

def UserDoesNotExistError (userID : Int) : AppError :=
  { Code := "USER_DOES_NOT_EXIST", Message := "User does not exist",
    Extensions := [("userID", userID)] }

def PostDoesNotExistError (userID : Int) : AppError :=
  { Code := "POST_DOES_NOT_EXIST", Message := "POST does not exist",
    Extensions := [("postID", userID)] }

def CommentsNotAllowed (postID : Int) : AppError :=
  { Code := "COMMENTS_NOT_ALLOWED", Message := "comments not allowed",
    Extensions := [("postID", postID)] }

/-! ## In-memory store (`internal/storage/in-memory`) -/

structure InMemoryStorage where
  posts : GoMap Post
  comments : GoMap Comment
  users : GoMap User
  nextPostID : Int
  nextCommentID : Int
  nextUserID : Int
deriving DecidableEq, Repr

def NewInMemoryStorage : InMemoryStorage :=
  let storage : InMemoryStorage :=
    { posts := [], comments := [], users := [],
      nextPostID := 1, nextCommentID := 1, nextUserID := 4 }
  let user1 : User := { ID := 1, Username := "Alice" }
  let user2 : User := { ID := 2, Username := "Quizert" }
  let user3 : User := { ID := 3, Username := "Alen" }
  let storage := { storage with users := storage.users.set user1.ID user1 }
  let storage := { storage with users := storage.users.set user2.ID user2 }
  let storage := { storage with users := storage.users.set user3.ID user3 }
  storage

/-- `PostMemoryStorage.CreatePost`; `now` is the value of `time.Now()`. The id counter is
advanced before the author is looked up, as in the source. -/
def PostMemoryStorage.CreatePost (now : Time) (input : NewPost) (st : InMemoryStorage) :
    (Option Post × Option GoError) × InMemoryStorage :=
  let newID := st.nextPostID
  let st := { st with nextPostID := wrapInt64 (st.nextPostID + 1) }
  match st.users.get? input.AuthorID with
  | none => ((none, some (GoError.app (UserDoesNotExistError input.AuthorID))), st)
  | some author =>
    let post : Post :=
      { ID := newID, Title := input.Title, Payload := input.Payload, Author := some author,
        IsCommentsAllowed := input.IsCommentsAllowed, CreatedAt := now }
    ((some post, none), { st with posts := st.posts.set newID post })

/-- `PostMemoryStorage.GetPostByID`. -/
def PostMemoryStorage.GetPostByID (id : Int) (st : InMemoryStorage) : Option Post × Option GoError :=
  match st.posts.get? id with
  | none => (none, some GoError.ErrNoRows)
  | some post => (some post, none)

/-- `PostMemoryStorage.GetAllPosts`; `none` is the panic of an out-of-range slice
expression, otherwise the returned slice and error. -/
def PostMemoryStorage.GetAllPosts (srt : SliceSorter) (st : InMemoryStorage) (limit offset : Int) :
    Option (List Post × Option GoError) :=
  let postsSlice := st.posts.values
  if offset ≥ (postsSlice.length : Int) then some ([], none)
  else
    let postsSlice := srt.sort (fun a b => decide (a.CreatedAt > b.CreatedAt)) postsSlice
    match sliceFrom postsSlice offset with
    | none => none
    | some postsSlice =>
      let limit := if limit > (postsSlice.length : Int) then (postsSlice.length : Int) else limit
      match sliceTo postsSlice limit with
      | none => none
      | some postsSlice => some (postsSlice, none)

/-- `CommentMemoryStorage.CreateComment`; `now` is the value of `time.Now()`. -/
def CommentMemoryStorage.CreateComment (now : Time) (input : NewComment) (st : InMemoryStorage) :
    (Option Comment × Option GoError) × InMemoryStorage :=
  let newID := st.nextCommentID
  let st := { st with nextCommentID := wrapInt64 (st.nextCommentID + 1) }
  let comment : Comment :=
    { ID := newID, Payload := input.Payload, PostID := input.PostID, Author := none,
      ReplyTo := input.ReplyTo, CreatedAt := now }
  ((some comment, none), { st with comments := st.comments.set newID comment })

/-- `CommentMemoryStorage.GetCommentsByPostID`. -/
def CommentMemoryStorage.GetCommentsByPostID (srt : SliceSorter) (st : InMemoryStorage) (limit offset postID : Int) :
    Option (List Comment × Option GoError) :=
  let filtered := st.comments.values.filter
    (fun comment => decide (comment.PostID = postID) && comment.ReplyTo.isNone)
  if offset ≥ (filtered.length : Int) then some ([], none)
  else
    let filtered := srt.sort (fun a b => decide (a.CreatedAt > b.CreatedAt)) filtered
    match sliceFrom filtered offset with
    | none => none
    | some filtered =>
      let limit := if limit > (filtered.length : Int) then (filtered.length : Int) else limit
      match sliceTo filtered limit with
      | none => none
      | some result => some (result, none)

/-- `CommentMemoryStorage.Replies`. -/
def CommentMemoryStorage.Replies (srt : SliceSorter) (st : InMemoryStorage) (commentID limit offset : Int) :
    Option (List Comment × Option GoError) :=
  let filtered := st.comments.values.filter
    (fun comment => match comment.ReplyTo with
      | none => false
      | some r => decide (r = commentID))
  if offset ≥ (filtered.length : Int) then some ([], none)
  else
    let filtered := srt.sort (fun a b => decide (a.CreatedAt > b.CreatedAt)) filtered
    match sliceFrom filtered offset with
    | none => none
    | some filtered =>
      let limit := if limit > (filtered.length : Int) then (filtered.length : Int) else limit
      match sliceTo filtered limit with
      | none => none
      | some result => some (result, none)

/-- `UserMemoryStorage.GetUserByID`. -/
def UserMemoryStorage.GetUserByID (userID : Int) (st : InMemoryStorage) : Option User × Option GoError :=
  match st.users.get? userID with
  | none => (none, some GoError.ErrNoRows)
  | some user => (some user, none)

/-- The part shared by the three list operations once the candidates are collected:
sort newest first, drop `offset`, keep at most `limit`. Used to state lemmas once. -/
def page {α : Type} (srt : SliceSorter) (createdAt : α → Time) (items : List α)
    (limit offset : Int) : Option (List α × Option GoError) :=
  if offset ≥ (items.length : Int) then some ([], none)
  else
    let sorted := srt.sort (fun a b => decide (createdAt a > createdAt b)) items
    match sliceFrom sorted offset with
    | none => none
    | some rest =>
      let limit := if limit > (rest.length : Int) then (rest.length : Int) else limit
      match sliceTo rest limit with
      | none => none
      | some result => some (result, none)

/-- Stored comments selected by `GetCommentsByPostID`, in map order. -/
def topLevelOf (st : InMemoryStorage) (postID : Int) : List Comment :=
  st.comments.values.filter
    (fun comment => decide (comment.PostID = postID) && comment.ReplyTo.isNone)

/-- Stored comments selected by `Replies`, in map order. -/
def repliesTo (st : InMemoryStorage) (commentID : Int) : List Comment :=
  st.comments.values.filter
    (fun comment => match comment.ReplyTo with
      | none => false
      | some r => decide (r = commentID))

/-! ## Domain services (`internal/service`) -/

/-- The storage providers behind a service (`PostProvider`, `CommentProvider`,
`UserProvider`): each method takes the provider state `σ` and returns its Go result pair and
the next state, so a provider may answer in any way and may remember anything. -/
structure Storage (σ : Type) where
  CreatePost : NewPost → σ → (Option Post × Option GoError) × σ
  GetAllPosts : Int → Int → σ → (List Post × Option GoError) × σ
  GetPostByID : Int → σ → (Option Post × Option GoError) × σ
  CreateComment : NewComment → σ → (Option Comment × Option GoError) × σ
  GetCommentsByPostID : Int → Int → Int → σ → (List Comment × Option GoError) × σ
  Replies : Int → Int → Int → σ → (List Comment × Option GoError) × σ
  GetUserByID : Int → σ → (Option User × Option GoError) × σ

/-- A call made on the storage providers, with its arguments. -/
inductive StorageCall where
  | CreatePost (input : NewPost) : StorageCall
  | GetAllPosts (limit offset : Int) : StorageCall
  | GetPostByID (id : Int) : StorageCall
  | CreateComment (input : NewComment) : StorageCall
  | GetCommentsByPostID (limit offset postID : Int) : StorageCall
  | Replies (commentID limit offset : Int) : StorageCall
  | GetUserByID (userID : Int) : StorageCall
deriving DecidableEq, Repr

/-- Outcome of one service call: the storage calls it made, in order, the provider state
it left, and the returned Go pair; `result = none` is a nil-pointer panic. -/
structure ServiceRun (σ α : Type) where
  calls : List StorageCall
  state : σ
  result : Option (Option α × Option GoError)

/-- Go `len(s)` of a string: its length in bytes. -/
def len (s : String) : Int := (s.utf8ByteSize : Int)

/-- `CommentService.CreateComment`; `MaxPayloadSize` is `consts.MaxPayloadSize`. -/
def CommentService.CreateComment {σ : Type} (storage : Storage σ) (MaxPayloadSize : Int)
    (input : NewComment) (s : σ) : ServiceRun σ Comment :=
  match storage.GetUserByID input.AuthorID s with
  | ((_, some err), s) =>
    if err.isErrNoRows then
      { calls := [.GetUserByID input.AuthorID], state := s,
        result := some (none, some (.app (UserDoesNotExistError input.AuthorID))) }
    else
      { calls := [.GetUserByID input.AuthorID], state := s,
        result := some (none, some (.app InternalServerError)) }
  | ((author, none), s) =>
    if len input.Payload > MaxPayloadSize then
      { calls := [.GetUserByID input.AuthorID], state := s,
        result := some (none,
          some (.app (CommentTooLongError MaxPayloadSize (len input.Payload)))) }
    else
      match storage.GetPostByID input.PostID s with
      | ((_, some err), s) =>
        if err.isErrNoRows then
          { calls := [.GetUserByID input.AuthorID, .GetPostByID input.PostID], state := s,
            result := some (none, some (.app (PostDoesNotExistError input.PostID))) }
        else
          { calls := [.GetUserByID input.AuthorID, .GetPostByID input.PostID], state := s,
            result := some (none, some (.app InternalServerError)) }
      | ((none, none), s) =>
        { calls := [.GetUserByID input.AuthorID, .GetPostByID input.PostID], state := s,
          result := none }
      | ((some post, none), s) =>
        if !post.IsCommentsAllowed then
          { calls := [.GetUserByID input.AuthorID, .GetPostByID input.PostID], state := s,
            result := some (none, some (.app (CommentsNotAllowed post.ID))) }
        else
          match storage.CreateComment input s with
          | ((_, some _), s) =>
            { calls := [.GetUserByID input.AuthorID, .GetPostByID input.PostID,
                        .CreateComment input], state := s,
              result := some (none, some (.app InternalServerError)) }
          | ((none, none), s) =>
            { calls := [.GetUserByID input.AuthorID, .GetPostByID input.PostID,
                        .CreateComment input], state := s,
              result := none }
          | ((some comment, none), s) =>
            { calls := [.GetUserByID input.AuthorID, .GetPostByID input.PostID,
                        .CreateComment input], state := s,
              result := some (some { comment with Author := author }, none) }

/-- `PostService.CreatePost`; `MaxPayloadSize` is `consts.MaxPayloadSize`. -/
def PostService.CreatePost {σ : Type} (storage : Storage σ) (MaxPayloadSize : Int)
    (input : NewPost) (s : σ) : ServiceRun σ Post :=
  match storage.GetUserByID input.AuthorID s with
  | ((_, some err), s) =>
    if err.isErrNoRows then
      { calls := [.GetUserByID input.AuthorID], state := s,
        result := some (none, some (.app (UserDoesNotExistError input.AuthorID))) }
    else
      { calls := [.GetUserByID input.AuthorID], state := s,
        result := some (none, some (.app InternalServerError)) }
  | ((author, none), s) =>
    if len input.Payload > MaxPayloadSize then
      { calls := [.GetUserByID input.AuthorID], state := s,
        result := some (none,
          some (.app (CommentTooLongError MaxPayloadSize (len input.Payload)))) }
    else
      match storage.CreatePost input s with
      | ((_, some _), s) =>
        { calls := [.GetUserByID input.AuthorID, .CreatePost input], state := s,
          result := some (none, some (.app InternalServerError)) }
      | ((none, none), s) =>
        { calls := [.GetUserByID input.AuthorID, .CreatePost input], state := s,
          result := none }
      | ((some post, none), s) =>
        { calls := [.GetUserByID input.AuthorID, .CreatePost input], state := s,
          result := some (some { post with Author := author }, none) }

/-- `PostService.GetPostByID`. -/
def PostService.GetPostByID {σ : Type} (storage : Storage σ) (id : Int) (s : σ) :
    ServiceRun σ Post :=
  match storage.GetPostByID id s with
  | ((_, some err), s) =>
    if err.isErrNoRows then
      { calls := [.GetPostByID id], state := s,
        result := some (none, some (.app (PostDoesNotExistError id))) }
    else
      { calls := [.GetPostByID id], state := s,
        result := some (none, some (.app InternalServerError)) }
  | ((post, none), s) =>
    { calls := [.GetPostByID id], state := s, result := some (post, none) }

/-- `utils.ParseLimitOffset`; a nil pointer argument is `none`. `DefaultLimit`, `MaxLimit`
and `DefaultOffset` are the constants of package `consts`. -/
def ParseLimitOffset (DefaultLimit MaxLimit DefaultOffset : Int) (limit offset : Option Int) :
    Int × Int :=
  let limitValue :=
    match limit with
    | none => DefaultLimit
    | some l => if l ≤ 0 then DefaultLimit else if l > MaxLimit then MaxLimit else l
  let offsetValue :=
    match offset with
    | none => DefaultOffset
    | some o => o
  (limitValue, offsetValue)

/-- The normalisation of an optional limit as the specification words it: an absent or
non-positive limit becomes the default, a limit above the maximum is clamped to the maximum,
any other limit is kept. -/
def normalisedLimit (DefaultLimit MaxLimit : Int) (limit : Option Int) : Int :=
  if limit.isNone || limit.any (fun l => decide (l ≤ 0)) then DefaultLimit
  else if limit.any (fun l => decide (l > MaxLimit)) then MaxLimit
  else limit.getD DefaultLimit

/-- The normalisation of an optional offset as the specification words it: an absent offset
becomes the default, a given offset is passed through unmodified, negative or not. -/
def normalisedOffset (DefaultOffset : Int) (offset : Option Int) : Int :=
  offset.getD DefaultOffset

/-- `PostService.GetAllPosts`; a nil slice result is `none`. -/
def PostService.GetAllPosts {σ : Type} (storage : Storage σ)
    (DefaultLimit MaxLimit DefaultOffset : Int) (limit offset : Option Int) (s : σ) :
    ServiceRun σ (List Post) :=
  let limitValue := (ParseLimitOffset DefaultLimit MaxLimit DefaultOffset limit offset).1
  let offsetValue := (ParseLimitOffset DefaultLimit MaxLimit DefaultOffset limit offset).2
  match storage.GetAllPosts limitValue offsetValue s with
  | ((_, some _), s) =>
    { calls := [.GetAllPosts limitValue offsetValue], state := s,
      result := some (none, some (.app InternalServerError)) }
  | ((posts, none), s) =>
    { calls := [.GetAllPosts limitValue offsetValue], state := s,
      result := some (some posts, none) }

/-- `CommentService.GetCommentsByPostID`; a nil slice result is `none`. -/
def CommentService.GetCommentsByPostID {σ : Type} (storage : Storage σ)
    (DefaultLimit MaxLimit DefaultOffset : Int) (limit offset : Option Int) (postID : Int)
    (s : σ) : ServiceRun σ (List Comment) :=
  let limitValue := (ParseLimitOffset DefaultLimit MaxLimit DefaultOffset limit offset).1
  let offsetValue := (ParseLimitOffset DefaultLimit MaxLimit DefaultOffset limit offset).2
  match storage.GetCommentsByPostID limitValue offsetValue postID s with
  | ((_, some _), s) =>
    { calls := [.GetCommentsByPostID limitValue offsetValue postID], state := s,
      result := some (none, some (.app InternalServerError)) }
  | ((comments, none), s) =>
    { calls := [.GetCommentsByPostID limitValue offsetValue postID], state := s,
      result := some (some comments, none) }

/-- `CommentService.Replies`; a nil slice result is `none`. -/
def CommentService.Replies {σ : Type} (storage : Storage σ)
    (DefaultLimit MaxLimit DefaultOffset : Int) (commentID : Int) (limit offset : Option Int)
    (s : σ) : ServiceRun σ (List Comment) :=
  let limitValue := (ParseLimitOffset DefaultLimit MaxLimit DefaultOffset limit offset).1
  let offsetValue := (ParseLimitOffset DefaultLimit MaxLimit DefaultOffset limit offset).2
  match storage.Replies commentID limitValue offsetValue s with
  | ((_, some _), s) =>
    { calls := [.Replies commentID limitValue offsetValue], state := s,
      result := some (none, some (.app InternalServerError)) }
  | ((comments, none), s) =>
    { calls := [.Replies commentID limitValue offsetValue], state := s,
      result := some (some comments, none) }

/-- The codes of the domain errors a service may surface. -/
def domainCodes : List String :=
  ["USER_DOES_NOT_EXIST", "POST_DOES_NOT_EXIST", "COMMENT_TOO_LONG", "COMMENTS_NOT_ALLOWED",
   "INTERNAL_SERVER_ERROR"]

/-- An error value that is an `*AppError` carrying one of the domain codes. -/
def IsDomainError (err : GoError) : Prop :=
  ∃ e : AppError, err = GoError.app e ∧ e.Code ∈ domainCodes

/-- Both slice expressions of a list operation, taken on the candidates `items` once they
are sorted, are within bounds: `sorted[offset:]` and then `rest[:limit]` with `limit` clamped
to `len(rest)`. -/
def SlicesInBounds {α : Type} (srt : SliceSorter) (createdAt : α → Time) (items : List α)
    (limit offset : Int) : Prop :=
  ∃ rest result,
    sliceFrom (srt.sort (fun a b => decide (createdAt a > createdAt b)) items) offset
      = some rest ∧
    sliceTo rest (if limit > (rest.length : Int) then (rest.length : Int) else limit)
      = some result

/-! ## States of the in-memory store -/

/-- Store states reached from `NewInMemoryStorage` by the store's create operations (the
read operations leave the store as it is). -/
inductive StoreReachable : InMemoryStorage → Prop where
  | init : StoreReachable NewInMemoryStorage
  | createPost (now : Time) (input : NewPost) (st : InMemoryStorage) :
      StoreReachable st → StoreReachable (PostMemoryStorage.CreatePost now input st).2
  | createComment (now : Time) (input : NewComment) (st : InMemoryStorage) :
      StoreReachable st → StoreReachable (CommentMemoryStorage.CreateComment now input st).2

/-- Every stored post is kept under its own id. -/
def PostsKeyedByID (st : InMemoryStorage) : Prop :=
  ∀ k p, st.posts.get? k = some p → p.ID = k

/-- Store states reached from `NewInMemoryStorage` by the store's `CreatePost` and
`CreateComment` while the 64-bit post id counter has not wrapped (every `CreatePost` starts
below `2^63 - 1`, which takes more than `2^63` calls to break). -/
inductive StoreReachableNoWrap : InMemoryStorage → Prop where
  | init : StoreReachableNoWrap NewInMemoryStorage
  | createPost (now : Time) (input : NewPost) (st : InMemoryStorage) :
      StoreReachableNoWrap st → st.nextPostID < 2 ^ 63 - 1 →
      StoreReachableNoWrap (PostMemoryStorage.CreatePost now input st).2
  | createComment (now : Time) (input : NewComment) (st : InMemoryStorage) :
      StoreReachableNoWrap st →
      StoreReachableNoWrap (CommentMemoryStorage.CreateComment now input st).2

/-- The ids issued so far: both counters are at least 1 and every stored record sits under
its own id, below the counter of its kind. -/
structure IdsIssued (st : InMemoryStorage) : Prop where
  nextPost : 1 ≤ st.nextPostID
  nextComment : 1 ≤ st.nextCommentID
  posts : ∀ k p, st.posts.get? k = some p → k < st.nextPostID ∧ p.ID = k
  comments : ∀ k c, st.comments.get? k = some c → k < st.nextCommentID ∧ c.ID = k

/-! ## Services over the in-memory store (`internal/app/app.go`, storage mode `memory`) -/

/-- The providers wired by `InitApp` in storage mode `memory`: the three in-memory providers
over one `InMemoryStorage`; `now` is what `time.Now()` returns during the call. A provider
result has no place for a run-time panic, so a panic of a list operation (negative offset or
limit) is rendered as the error `runtime panic`; the statements made over these providers
use the results of the create and lookup methods only, and of a list method only the store
it leaves, which is the store it was given whether it returns or panics. -/
def memoryStorage (srt : SliceSorter) (now : Time) : Storage InMemoryStorage where
  CreatePost := fun input st => PostMemoryStorage.CreatePost now input st
  GetAllPosts := fun limit offset st =>
    ((PostMemoryStorage.GetAllPosts srt st limit offset).getD
      ([], some (.other "runtime panic")), st)
  GetPostByID := fun id st => (PostMemoryStorage.GetPostByID id st, st)
  CreateComment := fun input st => CommentMemoryStorage.CreateComment now input st
  GetCommentsByPostID := fun limit offset postID st =>
    ((CommentMemoryStorage.GetCommentsByPostID srt st limit offset postID).getD
      ([], some (.other "runtime panic")), st)
  Replies := fun commentID limit offset st =>
    ((CommentMemoryStorage.Replies srt st commentID limit offset).getD
      ([], some (.other "runtime panic")), st)
  GetUserByID := fun userID st => (UserMemoryStorage.GetUserByID userID st, st)

/-- `PostService.CreatePost` over the in-memory providers. The `*Post` the store returns is
the record it keeps in its map, so the service's assignment `post.Author = author` is also a
write to the stored record. -/
def memoryCreatePost (srt : SliceSorter) (MaxPayloadSize : Int) (now : Time)
    (input : NewPost) (st : InMemoryStorage) : ServiceRun InMemoryStorage Post :=
  let run := PostService.CreatePost (memoryStorage srt now) MaxPayloadSize input st
  match run.result with
  | some (some post, none) =>
    { run with state := { run.state with posts := run.state.posts.set post.ID post } }
  | _ => run

/-- `CommentService.CreateComment` over the in-memory providers. The `*Comment` the store
returns is the record it keeps in its map, so the service's assignment
`comment.Author = author` is also a write to the stored record. -/
def memoryCreateComment (srt : SliceSorter) (MaxPayloadSize : Int) (now : Time)
    (input : NewComment) (st : InMemoryStorage) : ServiceRun InMemoryStorage Comment :=
  let run := CommentService.CreateComment (memoryStorage srt now) MaxPayloadSize input st
  match run.result with
  | some (some comment, none) =>
    { run with
      state := { run.state with comments := run.state.comments.set comment.ID comment } }
  | _ => run

/-- Store states reached from `NewInMemoryStorage` using only `PostService.CreatePost` and
`CommentService.CreateComment`, one call after the other, while the 64-bit id counters have
not wrapped. `admits` says which comment inputs the caller sends in which state; `fun _ _ =>
True` puts no restriction on the caller. -/
inductive ServiceReachable (srt : SliceSorter) (MaxPayloadSize : Int)
    (admits : InMemoryStorage → NewComment → Prop) : InMemoryStorage → Prop where
  | init : ServiceReachable srt MaxPayloadSize admits NewInMemoryStorage
  | createPost (now : Time) (input : NewPost) (st : InMemoryStorage) :
      ServiceReachable srt MaxPayloadSize admits st → st.nextPostID < 2 ^ 63 - 1 →
      ServiceReachable srt MaxPayloadSize admits
        (memoryCreatePost srt MaxPayloadSize now input st).state
  | createComment (now : Time) (input : NewComment) (st : InMemoryStorage) :
      ServiceReachable srt MaxPayloadSize admits st → st.nextCommentID < 2 ^ 63 - 1 →
      admits st input →
      ServiceReachable srt MaxPayloadSize admits
        (memoryCreateComment srt MaxPayloadSize now input st).state

/-- A caller that sends a reply-to only when it names a comment stored at that moment. -/
def ReplyToStored (st : InMemoryStorage) (input : NewComment) : Prop :=
  ∀ r, input.ReplyTo = some r → ∃ c, st.comments.get? r = some c

/-! ## Runs of create calls on the in-memory store -/

/-- A create call on the store, with the instant `time.Now()` returns during it. -/
inductive CreateCall where
  | post (now : Time) (input : NewPost) : CreateCall
  | comment (now : Time) (input : NewComment) : CreateCall
deriving DecidableEq, Repr

/-- What a create call returned. -/
inductive CreateReply where
  | post (r : Option Post × Option GoError) : CreateReply
  | comment (r : Option Comment × Option GoError) : CreateReply
deriving DecidableEq, Repr

/-- Run create calls one after the other on a store; the replies, in call order. -/
def runCreates (st : InMemoryStorage) : List CreateCall → List CreateReply
  | [] => []
  | .post now input :: rest =>
    CreateReply.post (PostMemoryStorage.CreatePost now input st).1
      :: runCreates (PostMemoryStorage.CreatePost now input st).2 rest
  | .comment now input :: rest =>
    CreateReply.comment (CommentMemoryStorage.CreateComment now input st).1
      :: runCreates (CommentMemoryStorage.CreateComment now input st).2 rest

/-- Ids of the posts returned by the successful `CreatePost` calls, in call order. -/
def issuedPostIDs (replies : List CreateReply) : List Int :=
  replies.filterMap fun r =>
    match r with
    | .post (some p, _) => some p.ID
    | _ => none

/-- Ids of the comments returned by the `CreateComment` calls, in call order. -/
def issuedCommentIDs (replies : List CreateReply) : List Int :=
  replies.filterMap fun r =>
    match r with
    | .comment (some c, _) => some c.ID
    | _ => none

/-- Number of `CreatePost` calls in a list of create calls. -/
def postCalls (calls : List CreateCall) : Nat :=
  calls.countP fun c =>
    match c with
    | .post _ _ => true
    | .comment _ _ => false

/-- A `CreatePost` call that passes the two checks `PostService.CreatePost` makes before it
asks the store to create the post: the author is among `users` and the payload fits. -/
def CreateCall.passesPostChecks (MaxPayloadSize : Int) (users : GoMap User) :
    CreateCall → Bool
  | .post _ input =>
    (users.get? input.AuthorID).isSome && decide (len input.Payload ≤ MaxPayloadSize)
  | .comment _ _ => false

/-- Run the calls through `PostService.CreatePost` and `CommentService.CreateComment` over
the in-memory providers, one after the other; the ids of the posts returned by the
successful `PostService.CreatePost` calls, in call order. -/
def servicePostIDs (srt : SliceSorter) (MaxPayloadSize : Int) (st : InMemoryStorage) :
    List CreateCall → List Int
  | [] => []
  | .post now input :: rest =>
    match (memoryCreatePost srt MaxPayloadSize now input st).result with
    | some (some post, none) =>
      post.ID :: servicePostIDs srt MaxPayloadSize
        (memoryCreatePost srt MaxPayloadSize now input st).state rest
    | _ =>
      servicePostIDs srt MaxPayloadSize
        (memoryCreatePost srt MaxPayloadSize now input st).state rest
  | .comment now input :: rest =>
    servicePostIDs srt MaxPayloadSize
      (memoryCreateComment srt MaxPayloadSize now input st).state rest

/-! ## Subscription broadcaster (`internal/service/subscription.go`)

Channels are unbuffered Go channels of `*models.Comment`. A channel is known by its identity
(`Chan`); the runtime facts the service depends on are which channels have been closed and
which sends have completed. The embedding is sequential: a send on an open channel
completes (a receiver is assumed ready) and is appended to the log `sent`; how long a send
blocks is outside the embedding. A send on a closed channel and a second `close` panic. -/

/-- Identity of a channel; `make` returns identities never returned before. -/
abbrev Chan := Nat

/-- `SubscriptionService` (field `commentChannels`) together with the state of the channels:
`made` channels have been made so far (the next `make` returns channel `made`), `closed`
lists the channels `close` was executed on, `sent` logs the completed sends, oldest
first. -/
structure SubscriptionService where
  commentChannels : GoMap (List Chan)
  made : Nat
  closed : List Chan
  sent : List (Chan × Comment)
deriving DecidableEq, Repr

def NewSubscriptionService : SubscriptionService :=
  { commentChannels := [], made := 0, closed := [], sent := [] }

/-- Index expression `s.commentChannels[postID]`: the nil slice when the key is absent. -/
def SubscriptionService.chansOf (s : SubscriptionService) (postID : Int) : List Chan :=
  (s.commentChannels.get? postID).getD []

/-- `SubscriptionService.CreateSubscription`. -/
def SubscriptionService.CreateSubscription (s : SubscriptionService) (postID : Int) :
    (Chan × Option GoError) × SubscriptionService :=
  let ch := s.made
  let s := { s with made := s.made + 1 }
  let s := { s with commentChannels := s.commentChannels.set postID (s.chansOf postID ++ [ch]) }
  ((ch, none), s)

/-- `SubscriptionService.DeleteSubscription`; `none` is a panic (`close` of a closed
channel, index out of range). The `range` loop stops at the first index holding `ch`. -/
def SubscriptionService.DeleteSubscription (s : SubscriptionService) (postID : Int) (ch : Chan) :
    Option (Option GoError × SubscriptionService) :=
  match s.commentChannels.get? postID with
  | none => some (none, s)
  | some chans =>
    let i := chans.indexOf ch
    if i < chans.length then
      if ch ∈ s.closed then none
      else
        let s := { s with closed := ch :: s.closed }
        let n := chans.length - 1
        match chans[n]? with
        | none => none
        | some last =>
          let s := { s with commentChannels := s.commentChannels.set postID (chans.set i last) }
          let s := { s with
            commentChannels := s.commentChannels.set postID ((s.chansOf postID).take n) }
          let s :=
            if (s.chansOf postID).length = 0 then
              { s with commentChannels := s.commentChannels.delete postID }
            else s
          some (none, s)
    else some (none, s)

/-- The send statement `ch <- comment`. -/
def SubscriptionService.send (s : SubscriptionService) (ch : Chan) (comment : Comment) :
    Option SubscriptionService :=
  if ch ∈ s.closed then none else some { s with sent := s.sent ++ [(ch, comment)] }

/-- The loop `for _, ch := range chans { ch <- comment }`. -/
def SubscriptionService.sendAll (comment : Comment) :
    List Chan → SubscriptionService → Option SubscriptionService
  | [], s => some s
  | ch :: rest, s =>
    match s.send ch comment with
    | none => none
    | some s => SubscriptionService.sendAll comment rest s

/-- `SubscriptionService.Notify`; `none` is a panic (send on a closed channel). -/
def SubscriptionService.Notify (s : SubscriptionService) (comment : Comment) :
    Option (Option GoError × SubscriptionService) :=
  match s.commentChannels.get? comment.PostID with
  | none => some (none, s)
  | some chans =>
    match SubscriptionService.sendAll comment chans s with
    | none => none
    | some s => some (none, s)

/-- States the service can be in: those reached from `NewSubscriptionService` by calls of
`CreateSubscription`, `DeleteSubscription` and `Notify` that return. -/
inductive Reachable : SubscriptionService → Prop where
  | init : Reachable NewSubscriptionService
  | create (s : SubscriptionService) (postID : Int) :
      Reachable s → Reachable (s.CreateSubscription postID).2
  | delete (s s' : SubscriptionService) (postID : Int) (ch : Chan) (r : Option GoError) :
      Reachable s → s.DeleteSubscription postID ch = some (r, s') → Reachable s'
  | notify (s s' : SubscriptionService) (comment : Comment) (r : Option GoError) :
      Reachable s → s.Notify comment = some (r, s') → Reachable s'

/-- Well-formedness of a registry: every topic entry is a non-empty list of distinct
channels, each made earlier and still open; no channel is registered under two topics;
every closed channel was made earlier. -/
structure WellFormed (s : SubscriptionService) : Prop where
  entry : ∀ postID chans, s.commentChannels.get? postID = some chans →
    chans ≠ [] ∧ chans.Nodup ∧ ∀ ch ∈ chans, ch < s.made ∧ ch ∉ s.closed
  disjoint : ∀ p₁ p₂ c₁ c₂ ch, s.commentChannels.get? p₁ = some c₁ →
    s.commentChannels.get? p₂ = some c₂ → ch ∈ c₁ → ch ∈ c₂ → p₁ = p₂
  closedMade : ∀ ch ∈ s.closed, ch < s.made

/-- Reachable registry states together with the bookkeeping the specification speaks of:
`live postID` lists the subscriptions created for `postID` that have not been deleted yet. A
`CreateSubscription(postID)` adds the channel it returns to `live postID`; a returning
`DeleteSubscription(postID, ch)` takes `ch` out of `live postID` (if it is there); `Notify`
leaves the bookkeeping alone. -/
inductive ReachableLive : SubscriptionService → (Int → List Chan) → Prop where
  | init : ReachableLive NewSubscriptionService (fun _ => [])
  | create (s : SubscriptionService) (live : Int → List Chan) (postID : Int) :
      ReachableLive s live →
      ReachableLive (s.CreateSubscription postID).2
        (Function.update live postID (live postID ++ [(s.CreateSubscription postID).1.1]))
  | delete (s s' : SubscriptionService) (live : Int → List Chan) (postID : Int) (ch : Chan)
      (r : Option GoError) :
      ReachableLive s live → s.DeleteSubscription postID ch = some (r, s') →
      ReachableLive s' (Function.update live postID ((live postID).erase ch))
  | notify (s s' : SubscriptionService) (live : Int → List Chan) (comment : Comment)
      (r : Option GoError) :
      ReachableLive s live → s.Notify comment = some (r, s') → ReachableLive s' live

/-- All channels held by the registry, topic after topic. -/
def SubscriptionService.registered (s : SubscriptionService) : List Chan :=
  s.commentChannels.values.flatten

/-- A map representation in which no key occurs twice. -/
def GoMap.KeysNodup {V : Type} (m : GoMap V) : Prop := (m.map Prod.fst).Nodup

/-! ## Error rendering (`internal/errdefs/app-error.go`) -/

/-- A value stored in the `Extensions` of a `gqlerror.Error`: the code string, or the
extensions map of an `AppError`. -/
inductive ExtensionValue where
  | text (s : String) : ExtensionValue
  | details (entries : List (String × Int)) : ExtensionValue
deriving DecidableEq, Repr

/-- The fields of `gqlerror.Error` that `HandleError` sets; the others stay zero. -/
structure GqlError where
  Message : String
  Extensions : List (String × ExtensionValue)
deriving DecidableEq, Repr

/-- The test `errors.As(err, &appErr)` with `appErr` an `*AppError`: the first `AppError`
met when unwrapping `err`. -/
def GoError.asAppError : GoError → Option AppError
  | .ErrNoRows => none
  | .app e => some e
  | .other _ => none
  | .wrap _ inner => inner.asAppError

/-- `errdefs.HandleError`; a nil `err` is `none` (`errors.As` is false on nil). -/
def HandleError (err : Option GoError) : GqlError :=
  match err.bind GoError.asAppError with
  | some appErr =>
    { Message := appErr.Message,
      Extensions := [("code", .text appErr.Code), ("details", .details appErr.Extensions)] }
  | none =>
    { Message := "Unexpected error occurred",
      Extensions := [("code", .text "INTERNAL_SERVER_ERROR")] }

/-! ## Concrete stores, providers and registries used to evaluate the operations -/

/-- A post that carries only an id and a creation instant. -/
def samplePost (id : Int) (createdAt : Time) : Post :=
  { ID := id, Title := "PostTitle", Payload := "Some", Author := none,
    IsCommentsAllowed := false, CreatedAt := createdAt }

/-- Five posts, post `i` created `i` hours before instant 100, visited in the order
3, 1, 5, 2, 4. -/
def fivePosts : InMemoryStorage :=
  { NewInMemoryStorage with
    posts := [(3, samplePost 3 97), (1, samplePost 1 99), (5, samplePost 5 95),
              (2, samplePost 2 98), (4, samplePost 4 96)] }

/-- One stored post. -/
def onePost : InMemoryStorage :=
  { NewInMemoryStorage with posts := [(1, samplePost 1 99)] }

/-- Stateless providers over a store that holds user 1 and post 1 (comments allowed) and
assigns id 100 to a created comment; every other lookup reports `pgx.ErrNoRows`. -/
def sampleStorage : Storage Unit where
  CreatePost := fun _ s => ((none, some (.other "not used")), s)
  GetAllPosts := fun _ _ s => (([], none), s)
  GetPostByID := fun id s =>
    if id = 1 then
      ((some { samplePost 1 99 with IsCommentsAllowed := true }, none), s)
    else ((none, some .ErrNoRows), s)
  CreateComment := fun input s =>
    ((some { ID := 100, Payload := input.Payload, PostID := input.PostID, Author := none,
             ReplyTo := input.ReplyTo, CreatedAt := 100 }, none), s)
  GetCommentsByPostID := fun _ _ _ s => (([], none), s)
  Replies := fun _ _ _ s => (([], none), s)
  GetUserByID := fun id s =>
    if id = 1 then ((some { ID := 1, Username := "testuser" }, none), s)
    else ((none, some .ErrNoRows), s)

/-- A comment for post 1 by user 1 whose payload is 5000 bytes long. -/
def longComment : NewComment :=
  { Payload := String.mk (List.replicate 5000 'a'), PostID := 1, AuthorID := 1, ReplyTo := none }

/-- A comment for post 1 by the unknown user 999. -/
def strangerComment : NewComment :=
  { Payload := "Any payload", PostID := 1, AuthorID := 999, ReplyTo := none }

/-- A post by the stored user 1. -/
def alicePost : NewPost :=
  { Title := "Hello World", Payload := "Some content", AuthorID := 1, IsCommentsAllowed := true }

/-- A post by the unknown user 999. -/
def strangerPost : NewPost :=
  { Title := "No user", Payload := "No user payload", AuthorID := 999,
    IsCommentsAllowed := false }

/-- A run of create calls on a fresh store, with one failing `CreatePost` in it. -/
def sampleCreates : List CreateCall :=
  [.post 10 alicePost, .post 11 strangerPost, .comment 12 longComment, .post 13 alicePost,
   .comment 14 strangerComment]

/-- A comment `{id: 10, postID: 1}`. -/
def sampleComment : Comment :=
  { ID := 10, Payload := "Broadcast", PostID := 1, Author := none, ReplyTo := none,
    CreatedAt := 100 }

/-- Channels 0 (A) and 1 (B) subscribed to post 1 and channel 2 subscribed to post 2. -/
def threeSubscribers : SubscriptionService :=
  (((NewSubscriptionService.CreateSubscription 1).2.CreateSubscription 1).2.CreateSubscription
    2).2

/-- A fresh store after one successful `CreatePost` by user 1 at instant 10. -/
def storeWithOnePost : InMemoryStorage :=
  (PostMemoryStorage.CreatePost 10 alicePost NewInMemoryStorage).2

/-- The post that `storeWithOnePost` holds under id 1. -/
def firstPost : Post :=
  { ID := 1, Title := "Hello World", Payload := "Some content",
    Author := some { ID := 1, Username := "Alice" }, IsCommentsAllowed := true,
    CreatedAt := 10 }

/-- A fresh store after four `CreateComment` calls: comments 1 and 3 are top-level comments
of post 1, comment 2 is a reply to comment 1, comment 4 is a top-level comment of post 2. -/
def storeWithComments : InMemoryStorage :=
  (CommentMemoryStorage.CreateComment 13
      { Payload := "d", PostID := 2, AuthorID := 1, ReplyTo := none }
    (CommentMemoryStorage.CreateComment 12
        { Payload := "c", PostID := 1, AuthorID := 1, ReplyTo := none }
      (CommentMemoryStorage.CreateComment 11
          { Payload := "b", PostID := 1, AuthorID := 1, ReplyTo := some 1 }
        (CommentMemoryStorage.CreateComment 10
            { Payload := "a", PostID := 1, AuthorID := 1, ReplyTo := none }
          NewInMemoryStorage).2).2).2).2

/-- Providers whose every call fails with the error "some db error" (not the not-found
sentinel). -/
def dbErrorStorage : Storage Unit where
  CreatePost := fun _ s => ((none, some (.other "some db error")), s)
  GetAllPosts := fun _ _ s => (([], some (.other "some db error")), s)
  GetPostByID := fun _ s => ((none, some (.other "some db error")), s)
  CreateComment := fun _ s => ((none, some (.other "some db error")), s)
  GetCommentsByPostID := fun _ _ _ s => (([], some (.other "some db error")), s)
  Replies := fun _ _ _ s => (([], some (.other "some db error")), s)
  GetUserByID := fun _ s => ((none, some (.other "some db error")), s)

/-- Providers that know user 1 and store a created post under id 1 at instant 50. -/
def postingStorage : Storage Unit where
  CreatePost := fun input s =>
    ((some { ID := 1, Title := input.Title, Payload := input.Payload, Author := none,
             IsCommentsAllowed := input.IsCommentsAllowed, CreatedAt := 50 }, none), s)
  GetAllPosts := fun _ _ s => (([], none), s)
  GetPostByID := fun _ s => ((none, some .ErrNoRows), s)
  CreateComment := fun _ s => ((none, some (.other "not used")), s)
  GetCommentsByPostID := fun _ _ _ s => (([], none), s)
  Replies := fun _ _ _ s => (([], none), s)
  GetUserByID := fun id s =>
    if id = 1 then ((some { ID := 1, Username := "testuser" }, none), s)
    else ((none, some .ErrNoRows), s)

/-- A comment for post 42, which no store used here holds. -/
def orphanComment : NewComment :=
  { Payload := "Nobody home", PostID := 42, AuthorID := 1, ReplyTo := none }

/-- Two posts by the stored user 1 with a post by the unknown user 999 and a comment in
between. -/
def postsWithFailure : List CreateCall :=
  [.post 10 alicePost, .post 11 strangerPost,
   .comment 12 { Payload := "First", PostID := 1, AuthorID := 2, ReplyTo := none },
   .post 13 alicePost]

/-- A comment on post 1 by the stored user 1 whose reply-to is 999. -/
def danglingReply : NewComment :=
  { Payload := "Reply to nothing", PostID := 1, AuthorID := 1, ReplyTo := some 999 }

/-- A top-level comment on post 1 by the stored user 2. -/
def topComment : NewComment :=
  { Payload := "First", PostID := 1, AuthorID := 2, ReplyTo := none }

/-- A comment on post 1 by the stored user 1 replying to comment 1. -/
def replyToFirst : NewComment :=
  { Payload := "Second", PostID := 1, AuthorID := 1, ReplyTo := some 1 }

/-! # Part II: lemmas and claims (theorems) -/

/-! ## Insertion sort meets the `sort.Slice` contract -/

theorem insertByLess_perm {α : Type} (less : α → α → Bool) (x : α) (l : List α) :
    (insertByLess less x l).Perm (x :: l) := by
  induction l with
  | nil => simp [insertByLess]
  | cons y ys ih =>
    simp only [insertByLess]
    split
    · exact (List.Perm.cons y ih).trans (List.Perm.swap x y ys)
    · exact List.Perm.refl _

theorem insertionSortBy_perm {α : Type} (less : α → α → Bool) (l : List α) :
    (insertionSortBy less l).Perm l := by
  induction l with
  | nil => simp [insertionSortBy]
  | cons x xs ih =>
    simp only [insertionSortBy]
    exact (insertByLess_perm less x _).trans (List.Perm.cons x ih)

theorem insertByLess_sorted {α : Type} (less : α → α → Bool)
    (hasym : ∀ a b, less a b = true → less b a = false)
    (hneg : ∀ a b c, less a b = false → less b c = false → less a c = false)
    (x : α) (l : List α) (hl : List.Pairwise (fun a b => less b a = false) l) :
    List.Pairwise (fun a b => less b a = false) (insertByLess less x l) := by
  induction l with
  | nil => simp [insertByLess]
  | cons y ys ih =>
    rw [List.pairwise_cons] at hl
    simp only [insertByLess]
    split
    · rename_i hyx
      rw [List.pairwise_cons]
      refine ⟨?_, ih hl.2⟩
      intro z hz
      have hz' : z ∈ x :: ys := (insertByLess_perm less x ys).subset hz
      rcases List.mem_cons.1 hz' with rfl | hz''
      · exact hasym _ _ hyx
      · exact hl.1 z hz''
    · rename_i hyx
      have hyx' : less y x = false := by simpa using hyx
      rw [List.pairwise_cons]
      refine ⟨?_, List.pairwise_cons.2 hl⟩
      intro z hz
      rcases List.mem_cons.1 hz with rfl | hz'
      · exact hyx'
      · exact hneg _ _ _ (hl.1 z hz') hyx'

theorem insertionSortBy_sorted {α : Type} (less : α → α → Bool)
    (hasym : ∀ a b, less a b = true → less b a = false)
    (hneg : ∀ a b c, less a b = false → less b c = false → less a c = false)
    (l : List α) :
    List.Pairwise (fun a b => less b a = false) (insertionSortBy less l) := by
  induction l with
  | nil => simp [insertionSortBy]
  | cons x xs ih =>
    simp only [insertionSortBy]
    exact insertByLess_sorted less hasym hneg x _ ih

/-- One implementation meeting the `sort.Slice` contract, used to evaluate the list
operations on concrete stores. -/
def insertionSorter : SliceSorter where
  sort := fun less x => insertionSortBy less x
  perm := fun less x => insertionSortBy_perm less x
  sorted := fun less x hasym hneg => insertionSortBy_sorted less hasym hneg x

/-- A fresh store after `PostService.CreatePost` of `alicePost` at instant 10 and
`CommentService.CreateComment` of `danglingReply` at instant 20, with payload limit 2000. -/
def storeWithDanglingReply : InMemoryStorage :=
  (memoryCreateComment insertionSorter 2000 20 danglingReply
    (memoryCreatePost insertionSorter 2000 10 alicePost NewInMemoryStorage).state).state

/-- A fresh store after `PostService.CreatePost` of `alicePost` at instant 10 and
`CommentService.CreateComment` of `topComment` at 20 and of `replyToFirst` at 30, with
payload limit 2000. -/
def storeWithReply : InMemoryStorage :=
  (memoryCreateComment insertionSorter 2000 30 replyToFirst
    (memoryCreateComment insertionSorter 2000 20 topComment
      (memoryCreatePost insertionSorter 2000 10 alicePost NewInMemoryStorage).state).state).state

/-! ## Pagination lemmas -/

theorem GetAllPosts_eq_page (srt : SliceSorter) (st : InMemoryStorage) (limit offset : Int) :
    PostMemoryStorage.GetAllPosts srt st limit offset = page srt Post.CreatedAt st.posts.values limit offset := by
  simp only [PostMemoryStorage.GetAllPosts, page]
  split
  · rfl
  · split
    · rename_i h
      rw [h]
    · rename_i h
      rw [h]
      split <;> (rename_i h2; simp only [h2])

theorem GetCommentsByPostID_eq_page (srt : SliceSorter) (st : InMemoryStorage)
    (limit offset postID : Int) :
    CommentMemoryStorage.GetCommentsByPostID srt st limit offset postID
      = page srt Comment.CreatedAt (topLevelOf st postID) limit offset := by
  simp only [CommentMemoryStorage.GetCommentsByPostID, page, topLevelOf]
  split
  · rfl
  · split
    · rename_i h
      rw [h]
    · rename_i h
      rw [h]
      split <;> (rename_i h2; simp only [h2])

theorem Replies_eq_page (srt : SliceSorter) (st : InMemoryStorage) (commentID limit offset : Int) :
    CommentMemoryStorage.Replies srt st commentID limit offset
      = page srt Comment.CreatedAt (repliesTo st commentID) limit offset := by
  simp only [CommentMemoryStorage.Replies, page, repliesTo]
  split
  · rfl
  · split
    · rename_i h
      rw [h]
    · rename_i h
      rw [h]
      split <;> (rename_i h2; simp only [h2])

theorem sort_length {α : Type} (srt : SliceSorter) (less : α → α → Bool) (items : List α) :
    (srt.sort less items).length = items.length :=
  (srt.perm less items).length_eq

theorem sort_newestFirst {α : Type} (srt : SliceSorter) (f : α → Time) (items : List α) :
    List.Pairwise (fun a b => f a ≥ f b) (srt.sort (fun a b => decide (f a > f b)) items) := by
  have h := srt.sorted (fun a b => decide (f a > f b)) items
    (by
      intro a b h
      simp only [decide_eq_true_eq, decide_eq_false_iff_not] at h ⊢
      exact lt_asymm h)
    (by
      intro a b c h1 h2
      simp only [decide_eq_false_iff_not] at h1 h2 ⊢
      exact not_lt.2 (le_trans (not_lt.1 h1) (not_lt.1 h2)))
  refine h.imp ?_
  intro a b hab
  simp only [decide_eq_false_iff_not] at hab
  exact not_lt.1 hab

theorem sliceFrom_some {α : Type} (s r : List α) (lo : Int) (h : sliceFrom s lo = some r) :
    r = s.drop lo.toNat := by
  unfold sliceFrom at h
  split at h
  · exact (Option.some.inj h).symm
  · exact absurd h (by simp)

theorem sliceTo_some {α : Type} (s r : List α) (hi : Int) (h : sliceTo s hi = some r) :
    r = s.take hi.toNat := by
  unfold sliceTo at h
  split at h
  · exact (Option.some.inj h).symm
  · exact absurd h (by simp)

theorem page_of_nonneg {α : Type} (srt : SliceSorter) (f : α → Time) (items : List α)
    (limit offset : Int) (hl : 0 ≤ limit) (ho : 0 ≤ offset) :
    page srt f items limit offset
      = some (((srt.sort (fun a b => decide (f a > f b)) items).drop offset.toNat).take
          limit.toNat, none) := by
  have hlen := sort_length srt (fun a b => decide (f a > f b)) items
  obtain ⟨o, rfl⟩ := Int.eq_ofNat_of_zero_le ho
  obtain ⟨k, rfl⟩ := Int.eq_ofNat_of_zero_le hl
  simp only [page, Int.toNat_ofNat]
  split
  · rename_i h
    have h' : items.length ≤ o := by omega
    rw [List.drop_eq_nil_of_le (by omega)]
    simp
  · rename_i h
    have h' : o < items.length := by omega
    have hsf : sliceFrom (srt.sort (fun a b => decide (f a > f b)) items) (o : Int)
        = some ((srt.sort (fun a b => decide (f a > f b)) items).drop o) := by
      simp only [sliceFrom, Int.toNat_ofNat]
      rw [if_pos]
      constructor <;> omega
    rw [hsf]
    dsimp only
    have hdl : ((srt.sort (fun a b => decide (f a > f b)) items).drop o).length
        = items.length - o := by
      rw [List.length_drop, hlen]
    by_cases hgt : (k : Int) > (((srt.sort (fun a b => decide (f a > f b)) items).drop o).length : Int)
    · rw [if_pos hgt]
      simp only [sliceTo, Int.toNat_ofNat]
      rw [if_pos (by constructor <;> omega)]
      dsimp only
      rw [List.take_of_length_le (le_refl _), List.take_of_length_le (by omega)]
    · rw [if_neg hgt]
      simp only [sliceTo, Int.toNat_ofNat]
      rw [if_pos (by constructor <;> omega)]

theorem page_of_offset_ge {α : Type} (srt : SliceSorter) (f : α → Time) (items : List α)
    (limit offset : Int) (ho : offset ≥ (items.length : Int)) :
    page srt f items limit offset = some ([], none) := by
  simp only [page]
  rw [if_pos ho]

theorem page_sublist {α : Type} (srt : SliceSorter) (f : α → Time) (items : List α)
    (limit offset : Int) (l : List α) (e : Option GoError)
    (h : page srt f items limit offset = some (l, e)) :
    e = none ∧ l.Sublist (srt.sort (fun a b => decide (f a > f b)) items) := by
  simp only [page] at h
  split at h
  · simp only [Option.some.injEq, Prod.mk.injEq] at h
    obtain ⟨rfl, rfl⟩ := h
    exact ⟨rfl, List.nil_sublist _⟩
  · split at h
    · exact absurd h (by simp)
    · rename_i rest hsf
      split at h
      · exact absurd h (by simp)
      · rename_i result hst
        simp only [Option.some.injEq, Prod.mk.injEq] at h
        obtain ⟨rfl, rfl⟩ := h
        refine ⟨rfl, ?_⟩
        rw [sliceTo_some _ _ _ hst, sliceFrom_some _ _ _ hsf]
        exact (List.take_sublist _ _).trans (List.drop_sublist _ _)

theorem page_length {α : Type} (srt : SliceSorter) (f : α → Time) (items : List α)
    (limit offset : Int) (hl : 0 ≤ limit) (ho : 0 ≤ offset)
    (hlt : offset < (items.length : Int)) :
    ∃ l, page srt f items limit offset = some (l, none)
      ∧ (l.length : Int) = min limit ((items.length : Int) - offset) := by
  refine ⟨_, page_of_nonneg srt f items limit offset hl ho, ?_⟩
  have hlen := sort_length srt (fun a b => decide (f a > f b)) items
  obtain ⟨o, rfl⟩ := Int.eq_ofNat_of_zero_le ho
  obtain ⟨k, rfl⟩ := Int.eq_ofNat_of_zero_le hl
  simp only [Int.toNat_ofNat, List.length_take, List.length_drop, hlen]
  omega

theorem page_sorted {α : Type} (srt : SliceSorter) (f : α → Time) (items : List α)
    (limit offset : Int) (l : List α) (e : Option GoError)
    (h : page srt f items limit offset = some (l, e)) :
    List.Chain' (fun a b => f a ≥ f b) l :=
  ((sort_newestFirst srt f items).sublist (page_sublist srt f items limit offset l e h).2).chain'

theorem sorted_perm_unique {α : Type} (f : α → Time) (l₁ l₂ : List α) (hp : l₁.Perm l₂)
    (hd : l₂.Pairwise (fun a b => f a ≠ f b))
    (h₁ : l₁.Pairwise (fun a b => f a ≥ f b)) (h₂ : l₂.Pairwise (fun a b => f a ≥ f b)) :
    l₁ = l₂ := by
  have hsymm : ∀ {x y : α}, f x ≠ f y → f y ≠ f x := fun h => Ne.symm h
  have hd₁ : l₁.Pairwise (fun a b => f a ≠ f b) := (hp.pairwise_iff hsymm).2 hd
  have hstrict : ∀ a b : α, f a ≥ f b ∧ f a ≠ f b → f a > f b := by
    intro a b h
    exact lt_of_le_of_ne h.1 (Ne.symm h.2)
  have s₁ : l₁.Pairwise (fun a b => f a > f b) := (h₁.and hd₁).imp (hstrict _ _)
  have s₂ : l₂.Pairwise (fun a b => f a > f b) := (h₂.and hd).imp (hstrict _ _)
  haveI : IsAntisymm α (fun a b => f a > f b) :=
    ⟨fun a b h1 h2 => absurd h1 (lt_asymm h2)⟩
  exact List.eq_of_perm_of_sorted hp s₁ s₂

/-! ## Claims on the in-memory list operations -/

/-- C1 (as amended): for every store state and every integer limit and offset, each of
`GetAllPosts`, `GetCommentsByPostID` and `Replies` returns the empty sequence when
`offset ≥ total`, and when `0 ≤ offset < total` and `0 ≤ limit` it returns a sequence of
length exactly `min(limit, total - offset)`; `total` is the number of stored posts, resp. of
stored comments matching the operation's filter. -/
theorem list_operations_length (srt : SliceSorter) (st : InMemoryStorage)
    (limit offset postID commentID : Int) :
    ((offset ≥ (st.posts.values.length : Int) →
        PostMemoryStorage.GetAllPosts srt st limit offset = some ([], none)) ∧
      (0 ≤ limit → 0 ≤ offset → offset < (st.posts.values.length : Int) →
        ∃ l, PostMemoryStorage.GetAllPosts srt st limit offset = some (l, none)
          ∧ (l.length : Int) = min limit ((st.posts.values.length : Int) - offset))) ∧
    ((offset ≥ ((topLevelOf st postID).length : Int) →
        CommentMemoryStorage.GetCommentsByPostID srt st limit offset postID = some ([], none)) ∧
      (0 ≤ limit → 0 ≤ offset → offset < ((topLevelOf st postID).length : Int) →
        ∃ l, CommentMemoryStorage.GetCommentsByPostID srt st limit offset postID = some (l, none)
          ∧ (l.length : Int) = min limit (((topLevelOf st postID).length : Int) - offset))) ∧
    ((offset ≥ ((repliesTo st commentID).length : Int) →
        CommentMemoryStorage.Replies srt st commentID limit offset = some ([], none)) ∧
      (0 ≤ limit → 0 ≤ offset → offset < ((repliesTo st commentID).length : Int) →
        ∃ l, CommentMemoryStorage.Replies srt st commentID limit offset = some (l, none)
          ∧ (l.length : Int) = min limit (((repliesTo st commentID).length : Int) - offset))) := by
  rw [GetAllPosts_eq_page, GetCommentsByPostID_eq_page, Replies_eq_page]
  exact ⟨⟨page_of_offset_ge srt _ _ limit offset, page_length srt _ _ limit offset⟩,
    ⟨page_of_offset_ge srt _ _ limit offset, page_length srt _ _ limit offset⟩,
    ⟨page_of_offset_ge srt _ _ limit offset, page_length srt _ _ limit offset⟩⟩

/-- C1 witness: five stored posts, limit 2, offset 1 give a result of length 2. -/
theorem list_operations_length_witness :
    ∃ l, PostMemoryStorage.GetAllPosts insertionSorter fivePosts 2 1 = some (l, none)
      ∧ (l.length : Int) = min 2 ((fivePosts.posts.values.length : Int) - 1) :=
  (list_operations_length insertionSorter fivePosts 2 1 0 0).1.2
    (by decide) (by decide) (by decide)

/-- C1 counterexample: with one stored post, limit 5 and offset -1 the claim asks for a
sequence of length `min(5, 1 - (-1)) = 2`; `GetAllPosts` panics on the slice expression
`postsSlice[offset:]` and returns nothing. -/
theorem list_operations_length_fails_negative_offset :
    PostMemoryStorage.GetAllPosts insertionSorter onePost 5 (-1) = none ∧
    ¬ ∃ l e, PostMemoryStorage.GetAllPosts insertionSorter onePost 5 (-1) = some (l, e)
        ∧ (l.length : Int) = min 5 ((onePost.posts.values.length : Int) - (-1)) := by
  have h : PostMemoryStorage.GetAllPosts insertionSorter onePost 5 (-1) = none := by decide
  refine ⟨h, ?_⟩
  rintro ⟨l, e, hl, -⟩
  rw [h] at hl
  exact absurd hl (by simp)

/-- C2: when the stored posts have pairwise distinct creation times and `limit ≥ 0`,
`offset ≥ 0`, `GetAllPosts` returns exactly the posts ranked `offset+1 .. offset+limit` (as
many as exist) of `ranked`, the stored posts listed by creation time descending, in that
order; the result does not depend on the order in which the map is visited nor on the
sorting procedure. -/
theorem GetAllPosts_returns_ranked_window (srt : SliceSorter) (st : InMemoryStorage)
    (limit offset : Int) (ranked : List Post)
    (hdistinct : st.posts.values.Pairwise (fun a b => a.CreatedAt ≠ b.CreatedAt))
    (hl : 0 ≤ limit) (ho : 0 ≤ offset)
    (hperm : ranked.Perm st.posts.values)
    (hranked : ranked.Pairwise (fun a b => a.CreatedAt ≥ b.CreatedAt)) :
    PostMemoryStorage.GetAllPosts srt st limit offset
      = some ((ranked.drop offset.toNat).take limit.toNat, none) := by
  rw [GetAllPosts_eq_page, page_of_nonneg srt _ _ limit offset hl ho]
  have hsp := srt.perm (fun a b : Post => decide (a.CreatedAt > b.CreatedAt)) st.posts.values
  have hd' : ranked.Pairwise (fun a b => a.CreatedAt ≠ b.CreatedAt) :=
    (hperm.pairwise_iff (fun h => Ne.symm h)).2 hdistinct
  rw [sorted_perm_unique Post.CreatedAt _ ranked (hsp.trans hperm.symm) hd'
    (sort_newestFirst srt Post.CreatedAt st.posts.values) hranked]

/-- C2 witness: with 5 posts, limit 2 and offset 1 the 2nd and 3rd newest are returned. -/
theorem GetAllPosts_returns_ranked_window_witness :
    PostMemoryStorage.GetAllPosts insertionSorter fivePosts 2 1
      = some ([samplePost 2 98, samplePost 3 97], none) :=
  GetAllPosts_returns_ranked_window insertionSorter fivePosts 2 1
    [samplePost 1 99, samplePost 2 98, samplePost 3 97, samplePost 4 96, samplePost 5 95]
    (by decide) (by decide) (by decide) (by decide) (by decide)

/-- C3: in every sequence returned by `GetAllPosts`, `GetCommentsByPostID` or `Replies`, for
any limit and offset, each element's creation time is at least that of the element that
follows it; and for `limit ≥ 0`, `offset ≥ 0` each operation does return a sequence. -/
theorem list_operations_descending (srt : SliceSorter) (st : InMemoryStorage)
    (limit offset postID commentID : Int) :
    ((∀ l e, PostMemoryStorage.GetAllPosts srt st limit offset = some (l, e) →
        List.Chain' (fun a b : Post => a.CreatedAt ≥ b.CreatedAt) l) ∧
      (∀ l e, CommentMemoryStorage.GetCommentsByPostID srt st limit offset postID = some (l, e) →
        List.Chain' (fun a b : Comment => a.CreatedAt ≥ b.CreatedAt) l) ∧
      (∀ l e, CommentMemoryStorage.Replies srt st commentID limit offset = some (l, e) →
        List.Chain' (fun a b : Comment => a.CreatedAt ≥ b.CreatedAt) l)) ∧
    (0 ≤ limit → 0 ≤ offset →
      (∃ l, PostMemoryStorage.GetAllPosts srt st limit offset = some (l, none)) ∧
      (∃ l, CommentMemoryStorage.GetCommentsByPostID srt st limit offset postID = some (l, none)) ∧
      (∃ l, CommentMemoryStorage.Replies srt st commentID limit offset = some (l, none))) := by
  rw [GetAllPosts_eq_page, GetCommentsByPostID_eq_page, Replies_eq_page]
  refine ⟨⟨fun l e h => page_sorted srt _ _ limit offset l e h,
    fun l e h => page_sorted srt _ _ limit offset l e h,
    fun l e h => page_sorted srt _ _ limit offset l e h⟩, ?_⟩
  intro hl ho
  exact ⟨⟨_, page_of_nonneg srt _ _ limit offset hl ho⟩,
    ⟨_, page_of_nonneg srt _ _ limit offset hl ho⟩,
    ⟨_, page_of_nonneg srt _ _ limit offset hl ho⟩⟩

/-- C3 witness: the page returned for five posts, limit 2, offset 1 is in descending order. -/
theorem list_operations_descending_witness :
    List.Chain' (fun a b : Post => a.CreatedAt ≥ b.CreatedAt)
      [samplePost 2 98, samplePost 3 97] :=
  (list_operations_descending insertionSorter fivePosts 2 1 0 0).1.1
    [samplePost 2 98, samplePost 3 97] none (by decide)

/-! ## Claims on `CommentService.CreateComment` -/

/-- C4: `CommentService.CreateComment` returns the outcome of the first failing check, in
the order (1) author lookup reports not-found: `USER_DOES_NOT_EXIST` with details
`userID = input.AuthorID`; (2) `len(payload) > MaxPayloadSize`: `COMMENT_TOO_LONG` with
details `maxLength`, `currentLength`; (3) post lookup reports not-found:
`POST_DOES_NOT_EXIST` with details `postID = input.PostID`; (4) the post has comments
disabled: `COMMENTS_NOT_ALLOWED` with details `postID`; and when all pass and the store
insert succeeds, the store's comment with `Author` set to the looked-up user. A check
passes when its lookup returns no error. -/
theorem CreateComment_first_failing_check {σ : Type} (storage : Storage σ)
    (MaxPayloadSize : Int) (input : NewComment) (s : σ) :
    (∀ u err s1, storage.GetUserByID input.AuthorID s = ((u, some err), s1) →
      err.isErrNoRows = true →
      (CommentService.CreateComment storage MaxPayloadSize input s).result
        = some (none, some (.app
            { Code := "USER_DOES_NOT_EXIST", Message := "User does not exist",
              Extensions := [("userID", input.AuthorID)] }))) ∧
    (∀ u s1, storage.GetUserByID input.AuthorID s = ((u, none), s1) →
      len input.Payload > MaxPayloadSize →
      (CommentService.CreateComment storage MaxPayloadSize input s).result
        = some (none, some (.app
            { Code := "COMMENT_TOO_LONG", Message := "Comment exceeds maximum allowed length",
              Extensions := [("maxLength", MaxPayloadSize),
                             ("currentLength", len input.Payload)] }))) ∧
    (∀ u s1 p err s2, storage.GetUserByID input.AuthorID s = ((u, none), s1) →
      len input.Payload ≤ MaxPayloadSize →
      storage.GetPostByID input.PostID s1 = ((p, some err), s2) →
      err.isErrNoRows = true →
      (CommentService.CreateComment storage MaxPayloadSize input s).result
        = some (none, some (.app
            { Code := "POST_DOES_NOT_EXIST", Message := "POST does not exist",
              Extensions := [("postID", input.PostID)] }))) ∧
    (∀ u s1 post s2, storage.GetUserByID input.AuthorID s = ((u, none), s1) →
      len input.Payload ≤ MaxPayloadSize →
      storage.GetPostByID input.PostID s1 = ((some post, none), s2) →
      post.IsCommentsAllowed = false →
      (CommentService.CreateComment storage MaxPayloadSize input s).result
        = some (none, some (.app
            { Code := "COMMENTS_NOT_ALLOWED", Message := "comments not allowed",
              Extensions := [("postID", post.ID)] }))) ∧
    (∀ u s1 post s2 comment s3, storage.GetUserByID input.AuthorID s = ((u, none), s1) →
      len input.Payload ≤ MaxPayloadSize →
      storage.GetPostByID input.PostID s1 = ((some post, none), s2) →
      post.IsCommentsAllowed = true →
      storage.CreateComment input s2 = ((some comment, none), s3) →
      (CommentService.CreateComment storage MaxPayloadSize input s).result
        = some (some { comment with Author := u }, none)) := by
  refine ⟨?_, ?_, ?_, ?_, ?_⟩
  · intro u err s1 hu he
    simp only [CommentService.CreateComment, hu, he, if_true, UserDoesNotExistError]
  · intro u s1 hu hlen
    simp only [CommentService.CreateComment, hu, hlen, if_true, CommentTooLongError]
  · intro u s1 p err s2 hu hlen hp he
    simp only [CommentService.CreateComment, hu, not_lt.2 hlen, if_false, hp, he, if_true,
      PostDoesNotExistError]
  · intro u s1 post s2 hu hlen hp hallow
    simp only [CommentService.CreateComment, hu, not_lt.2 hlen, if_false, hp, hallow,
      Bool.not_false, if_true, CommentsNotAllowed]
  · intro u s1 post s2 comment s3 hu hlen hp hallow hc
    simp only [CommentService.CreateComment, hu, not_lt.2 hlen, if_false, hp, hallow,
      Bool.not_true, Bool.false_eq_true, hc]

theorem utf8ByteSize_go_replicate (n : Nat) :
    String.utf8ByteSize.go (List.replicate n 'a') = n := by
  induction n with
  | zero => rfl
  | succ k ih =>
    rw [List.replicate_succ]
    show String.utf8ByteSize.go (List.replicate k 'a') + Char.utf8Size 'a' = k + 1
    rw [ih]
    rfl

theorem len_longComment : len longComment.Payload = 5000 := by
  show ((String.utf8ByteSize.go (List.replicate 5000 'a') : Nat) : Int) = 5000
  rw [utf8ByteSize_go_replicate]
  rfl

/-- C4 witness: with a maximum of 4096 and a payload of length 5000 the author exists, so
the second check fails with `COMMENT_TOO_LONG` and details `maxLength = 4096`,
`currentLength = 5000`. -/
theorem CreateComment_first_failing_check_witness :
    (CommentService.CreateComment sampleStorage 4096 longComment ()).result
      = some (none, some (.app
          { Code := "COMMENT_TOO_LONG", Message := "Comment exceeds maximum allowed length",
            Extensions := [("maxLength", 4096), ("currentLength", 5000)] })) := by
  have h := (CreateComment_first_failing_check sampleStorage 4096 longComment ()).2.1
    (some { ID := 1, Username := "testuser" }) () rfl (by rw [len_longComment]; decide)
  rw [len_longComment] at h
  exact h

/-- C5: when the author lookup reports not-found, `CommentService.CreateComment` fails with
`USER_DOES_NOT_EXIST` and its only storage call is that lookup (no post lookup, no insert).
In general a storage `CreateComment` call is made only with the given input, at most once,
and exactly when the author lookup and the post lookup succeeded, the payload is within
the maximum and the post allows comments; a post lookup is made only for `input.PostID`, at
most once, and only if the author lookup succeeded and the payload is within the maximum. -/
theorem CreateComment_short_circuit {σ : Type} (storage : Storage σ)
    (MaxPayloadSize : Int) (input : NewComment) (s : σ) :
    (∀ u err s1, storage.GetUserByID input.AuthorID s = ((u, some err), s1) →
      err.isErrNoRows = true →
      (CommentService.CreateComment storage MaxPayloadSize input s).result
          = some (none, some (.app (UserDoesNotExistError input.AuthorID))) ∧
      (CommentService.CreateComment storage MaxPayloadSize input s).calls
          = [.GetUserByID input.AuthorID]) ∧
    (∀ x, StorageCall.CreateComment x
        ∈ (CommentService.CreateComment storage MaxPayloadSize input s).calls →
      x = input ∧
      (CommentService.CreateComment storage MaxPayloadSize input s).calls.count
          (.CreateComment input) = 1 ∧
      ∃ u s1 post s2, storage.GetUserByID input.AuthorID s = ((u, none), s1) ∧
        len input.Payload ≤ MaxPayloadSize ∧
        storage.GetPostByID input.PostID s1 = ((some post, none), s2) ∧
        post.IsCommentsAllowed = true) ∧
    (∀ u s1 post s2, storage.GetUserByID input.AuthorID s = ((u, none), s1) →
      len input.Payload ≤ MaxPayloadSize →
      storage.GetPostByID input.PostID s1 = ((some post, none), s2) →
      post.IsCommentsAllowed = true →
      (CommentService.CreateComment storage MaxPayloadSize input s).calls.count
          (.CreateComment input) = 1) ∧
    (∀ id, StorageCall.GetPostByID id
        ∈ (CommentService.CreateComment storage MaxPayloadSize input s).calls →
      id = input.PostID ∧
      (CommentService.CreateComment storage MaxPayloadSize input s).calls.count
          (.GetPostByID input.PostID) = 1 ∧
      ∃ u s1, storage.GetUserByID input.AuthorID s = ((u, none), s1) ∧
        len input.Payload ≤ MaxPayloadSize) := by
  rcases hu : storage.GetUserByID input.AuthorID s with ⟨⟨u, uerr⟩, s1⟩
  cases uerr with
  | some err =>
    cases he : err.isErrNoRows <;>
      simp [CommentService.CreateComment, hu, he]
  | none =>
    by_cases hlen : len input.Payload > MaxPayloadSize
    · simp [CommentService.CreateComment, hu, hlen]
    · rcases hp : storage.GetPostByID input.PostID s1 with ⟨⟨p, perr⟩, s2⟩
      have hcond : ∀ (u' : Option User) (s1' : σ) (post' : Post) (s2' : σ),
          u = u' → s1 = s1' →
          storage.GetPostByID input.PostID s1' = ((some post', none), s2') →
          p = some post' ∧ perr = none := by
        intro u' s1' post' s2' _ hs hp'
        subst hs
        rw [hp] at hp'
        simp only [Prod.mk.injEq] at hp'
        exact ⟨hp'.1.1, hp'.1.2⟩
      cases perr with
      | some err =>
        have hno : ∀ (u' : Option User) (s1' : σ) (post' : Post) (s2' : σ),
            u = u' → s1 = s1' →
            storage.GetPostByID input.PostID s1' = ((some post', none), s2') →
            post'.IsCommentsAllowed = false :=
          fun u' s1' post' s2' h1 h2 h3 => absurd (hcond u' s1' post' s2' h1 h2 h3).2 (by simp)
        cases he : err.isErrNoRows <;>
          simpa [CommentService.CreateComment, hu, hlen, hp, he, not_lt.1 hlen] using hno
      | none =>
        cases p with
        | none =>
          have hno : ∀ (u' : Option User) (s1' : σ) (post' : Post) (s2' : σ),
              u = u' → s1 = s1' →
              storage.GetPostByID input.PostID s1' = ((some post', none), s2') →
              post'.IsCommentsAllowed = false :=
            fun u' s1' post' s2' h1 h2 h3 =>
              absurd (hcond u' s1' post' s2' h1 h2 h3).1 (by simp)
          simpa [CommentService.CreateComment, hu, hlen, hp, not_lt.1 hlen] using hno
        | some post =>
          cases hallow : post.IsCommentsAllowed
          · have hno : ∀ (u' : Option User) (s1' : σ) (post' : Post) (s2' : σ),
                u = u' → s1 = s1' →
                storage.GetPostByID input.PostID s1' = ((some post', none), s2') →
                post'.IsCommentsAllowed = false := by
              intro u' s1' post' s2' h1 h2 h3
              have := (hcond u' s1' post' s2' h1 h2 h3).1
              simp only [Option.some.injEq] at this
              rw [← this]
              exact hallow
            simpa [CommentService.CreateComment, hu, hlen, hp, hallow, not_lt.1 hlen] using hno
          · rcases hc : storage.CreateComment input s2 with ⟨⟨c, cerr⟩, s3⟩
            have hyes : ∃ u' s1', (u = u' ∧ s1 = s1') ∧ ∃ x,
                (∃ x', storage.GetPostByID input.PostID s1' = ((some x, none), x')) ∧
                  x.IsCommentsAllowed = true :=
              ⟨u, s1, ⟨rfl, rfl⟩, post, ⟨s2, hp⟩, hallow⟩
            cases cerr with
            | some err =>
              simpa [CommentService.CreateComment, hu, hlen, hp, hallow, hc, not_lt.1 hlen]
                using hyes
            | none =>
              cases c <;>
                simpa [CommentService.CreateComment, hu, hlen, hp, hallow, hc, not_lt.1 hlen]
                  using hyes

/-- C5 witness: for the unknown author 999 the service answers `USER_DOES_NOT_EXIST` after a
single storage call, the author lookup. -/
theorem CreateComment_short_circuit_witness :
    (CommentService.CreateComment sampleStorage 4096 strangerComment ()).result
        = some (none, some (.app (UserDoesNotExistError 999))) ∧
    (CommentService.CreateComment sampleStorage 4096 strangerComment ()).calls
        = [.GetUserByID 999] :=
  (CreateComment_short_circuit sampleStorage 4096 strangerComment ()).1
    none GoError.ErrNoRows () rfl rfl

/-! ## Identifier assignment by the in-memory store -/

theorem wrapInt64_of_inRange (n : Int) (h1 : -2 ^ 63 ≤ n) (h2 : n < 2 ^ 63) :
    wrapInt64 n = n := by
  unfold wrapInt64
  omega

theorem issuedPostIDs_increasing (calls : List CreateCall) :
    ∀ st : InMemoryStorage, -2 ^ 63 ≤ st.nextPostID →
      st.nextPostID + (calls.length : Int) < 2 ^ 63 →
      (∀ id ∈ issuedPostIDs (runCreates st calls), st.nextPostID ≤ id) ∧
      (issuedPostIDs (runCreates st calls)).Pairwise (· < ·) := by
  induction calls with
  | nil => intro st _ _; simp [runCreates, issuedPostIDs]
  | cons c rest ih =>
    intro st h1 h2
    simp only [List.length_cons, Nat.cast_add, Nat.cast_one] at h2
    cases c with
    | comment now input =>
      have := ih (CommentMemoryStorage.CreateComment now input st).2
        (by simpa [CommentMemoryStorage.CreateComment] using h1)
        (by simp only [CommentMemoryStorage.CreateComment]; omega)
      simpa [runCreates, issuedPostIDs, CommentMemoryStorage.CreateComment] using this
    | post now input =>
      have hw : wrapInt64 (st.nextPostID + 1) = st.nextPostID + 1 :=
        wrapInt64_of_inRange _ (by omega) (by omega)
      have hnext : (PostMemoryStorage.CreatePost now input st).2.nextPostID
          = st.nextPostID + 1 := by
        simp only [PostMemoryStorage.CreatePost, hw]
        split <;> rfl
      have hrest := ih (PostMemoryStorage.CreatePost now input st).2
        (by rw [hnext]; omega) (by rw [hnext]; omega)
      rw [hnext] at hrest
      have hid : ∀ p e, (PostMemoryStorage.CreatePost now input st).1 = (some p, e) →
          p.ID = st.nextPostID := by
        intro p e
        simp only [PostMemoryStorage.CreatePost]
        split
        · intro h; simp at h
        · intro h
          simp only [Prod.mk.injEq, Option.some.injEq] at h
          rw [← h.1]
      simp only [runCreates, issuedPostIDs, List.filterMap_cons]
      rcases hr : (PostMemoryStorage.CreatePost now input st).1 with ⟨_ | p, e⟩
      · simp only
        refine ⟨fun id hmem => ?_, hrest.2⟩
        have := hrest.1 id hmem
        omega
      · simp only [List.mem_cons, List.pairwise_cons]
        have hp := hid p e hr
        refine ⟨?_, ?_, hrest.2⟩
        · rintro id (rfl | hmem)
          · omega
          · have := hrest.1 id hmem
            omega
        · intro id hmem
          have := hrest.1 id hmem
          omega

theorem issuedCommentIDs_increasing (calls : List CreateCall) :
    ∀ st : InMemoryStorage, -2 ^ 63 ≤ st.nextCommentID →
      st.nextCommentID + (calls.length : Int) < 2 ^ 63 →
      (∀ id ∈ issuedCommentIDs (runCreates st calls), st.nextCommentID ≤ id) ∧
      (issuedCommentIDs (runCreates st calls)).Pairwise (· < ·) := by
  induction calls with
  | nil => intro st _ _; simp [runCreates, issuedCommentIDs]
  | cons c rest ih =>
    intro st h1 h2
    simp only [List.length_cons, Nat.cast_add, Nat.cast_one] at h2
    cases c with
    | post now input =>
      have hnext : (PostMemoryStorage.CreatePost now input st).2.nextCommentID
          = st.nextCommentID := by
        simp only [PostMemoryStorage.CreatePost]
        split <;> rfl
      have hrest := ih (PostMemoryStorage.CreatePost now input st).2
        (by rw [hnext]; omega) (by rw [hnext]; omega)
      rw [hnext] at hrest
      rcases hr : (PostMemoryStorage.CreatePost now input st).1 with ⟨_ | p, e⟩ <;>
        simpa [runCreates, issuedCommentIDs, hr] using hrest
    | comment now input =>
      have hw : wrapInt64 (st.nextCommentID + 1) = st.nextCommentID + 1 :=
        wrapInt64_of_inRange _ (by omega) (by omega)
      have hrest := ih (CommentMemoryStorage.CreateComment now input st).2
        (by simp only [CommentMemoryStorage.CreateComment, hw]; omega)
        (by simp only [CommentMemoryStorage.CreateComment, hw]; omega)
      simp only [CommentMemoryStorage.CreateComment, hw] at hrest
      simp only [runCreates, issuedCommentIDs, List.filterMap_cons,
        CommentMemoryStorage.CreateComment, hw, List.mem_cons, List.pairwise_cons]
      refine ⟨?_, ?_, hrest.2⟩
      · rintro id (rfl | hmem)
        · omega
        · have := hrest.1 id hmem
          omega
      · intro id hmem
        have := hrest.1 id hmem
        omega

/-- C6: in a run of create calls on one store, as long as the 64-bit id counters do not
wrap (the counter plus the number of calls stays below `2^63`), each id returned by a
successful `CreatePost` is strictly greater than every post id returned earlier in the run,
and likewise for the ids returned by `CreateComment`. -/
theorem create_ids_strictly_increasing (st : InMemoryStorage) (calls : List CreateCall)
    (hp : -2 ^ 63 ≤ st.nextPostID) (hp' : st.nextPostID + (calls.length : Int) < 2 ^ 63)
    (hc : -2 ^ 63 ≤ st.nextCommentID)
    (hc' : st.nextCommentID + (calls.length : Int) < 2 ^ 63) :
    (issuedPostIDs (runCreates st calls)).Pairwise (· < ·) ∧
    (issuedCommentIDs (runCreates st calls)).Pairwise (· < ·) :=
  ⟨(issuedPostIDs_increasing calls st hp hp').2,
   (issuedCommentIDs_increasing calls st hc hc').2⟩

/-- C6 witness: five create calls on a fresh store. -/
theorem create_ids_strictly_increasing_witness :
    (issuedPostIDs (runCreates NewInMemoryStorage sampleCreates)).Pairwise (· < ·) ∧
    (issuedCommentIDs (runCreates NewInMemoryStorage sampleCreates)).Pairwise (· < ·) :=
  create_ids_strictly_increasing NewInMemoryStorage sampleCreates
    (by decide) (by decide) (by decide) (by decide)

/-- C7 (as stated, fails): on a fresh store a `CreatePost` for the unknown author 999 fails
and still advances the id counter, so the first successfully created post gets id 2, not
1. -/
theorem CreatePost_failed_call_consumes_id :
    runCreates NewInMemoryStorage [.post 10 strangerPost, .post 11 alicePost]
      = [.post (none, some (.app (UserDoesNotExistError 999))),
         .post (some { ID := 2, Title := "Hello World", Payload := "Some content",
                       Author := some { ID := 1, Username := "Alice" },
                       IsCommentsAllowed := true, CreatedAt := 11 }, none)] ∧
    issuedPostIDs (runCreates NewInMemoryStorage [.post 10 strangerPost, .post 11 alicePost])
      = [2] := by
  decide

/-! ## Map lemmas -/

theorem GoMap.get?_set_self {V : Type} (m : GoMap V) (k : Int) (v : V) :
    GoMap.get? (GoMap.set m k v) k = some v := by
  induction m with
  | nil => simp [GoMap.set, GoMap.get?]
  | cons e rest ih =>
    obtain ⟨k', v'⟩ := e
    by_cases h : k' = k
    · simp [GoMap.set, GoMap.get?, h]
    · simp [GoMap.set, GoMap.get?, h, ih]

theorem GoMap.get?_set_ne {V : Type} (m : GoMap V) (k k' : Int) (v : V) (hne : k' ≠ k) :
    GoMap.get? (GoMap.set m k v) k' = GoMap.get? m k' := by
  induction m with
  | nil => simp [GoMap.set, GoMap.get?, Ne.symm hne]
  | cons e rest ih =>
    obtain ⟨k₀, v₀⟩ := e
    by_cases h : k₀ = k
    · subst h
      simp [GoMap.set, GoMap.get?, Ne.symm hne]
    · by_cases h' : k₀ = k'
      · subst h'
        simp [GoMap.set, GoMap.get?, h]
      · simp [GoMap.set, GoMap.get?, h, h', ih]

theorem GoMap.get?_delete_self {V : Type} (m : GoMap V) (k : Int) :
    GoMap.get? (GoMap.delete m k) k = none := by
  induction m with
  | nil => simp [GoMap.delete, GoMap.get?]
  | cons e rest ih =>
    obtain ⟨k₀, v₀⟩ := e
    by_cases h : k₀ = k
    · simpa [GoMap.delete, List.filter_cons, h] using ih
    · simpa [GoMap.delete, List.filter_cons, h, GoMap.get?] using ih

theorem GoMap.get?_delete_ne {V : Type} (m : GoMap V) (k k' : Int) (hne : k' ≠ k) :
    GoMap.get? (GoMap.delete m k) k' = GoMap.get? m k' := by
  induction m with
  | nil => simp [GoMap.delete, GoMap.get?]
  | cons e rest ih =>
    obtain ⟨k₀, v₀⟩ := e
    by_cases h : k₀ = k
    · subst h
      simpa [GoMap.delete, List.filter_cons, GoMap.get?, Ne.symm hne] using ih
    · by_cases h' : k₀ = k'
      · subst h'
        simp [GoMap.delete, List.filter_cons, h, GoMap.get?]
      · simpa [GoMap.delete, List.filter_cons, h, GoMap.get?, h'] using ih

/-! ## Swap-with-last removal on lists -/

theorem cons_take_perm_of_last {α : Type} (xs : List α) (last : α)
    (hlast : xs[xs.length - 1]? = some last) :
    (last :: xs.take (xs.length - 1)).Perm xs := by
  have hne : xs ≠ [] := by
    rintro rfl
    simp at hlast
  have hlen : 0 < xs.length := List.length_pos.2 hne
  have hlt : xs.length - 1 < xs.length := by omega
  have hget : xs[xs.length - 1] = last := by
    rw [List.getElem?_eq_getElem hlt] at hlast
    exact Option.some.inj hlast
  have hsplit : xs = xs.take (xs.length - 1) ++ [last] := by
    conv_lhs => rw [← List.take_append_drop (xs.length - 1) xs]
    rw [List.drop_eq_getElem_cons hlt, hget, List.drop_eq_nil_of_le (by omega)]
  conv_rhs => rw [hsplit]
  exact (List.perm_append_singleton last _).symm

theorem swap_remove_perm_erase (l : List Chan) (ch last : Chan) (hmem : ch ∈ l)
    (hlast : l[l.length - 1]? = some last) :
    ((l.set (l.indexOf ch) last).take (l.length - 1)).Perm (l.erase ch) := by
  induction l with
  | nil => simp at hmem
  | cons x xs ih =>
    by_cases hx : x = ch
    · subst hx
      simp only [List.indexOf_cons_self, List.set_cons_zero, List.length_cons,
        Nat.add_sub_cancel, List.erase_cons_head]
      cases xs with
      | nil => simp
      | cons y ys =>
        simp only [List.length_cons, List.take_succ_cons]
        have hl : (y :: ys)[(y :: ys).length - 1]? = some last := by
          simpa using hlast
        simpa using cons_take_perm_of_last (y :: ys) last hl
    · have hmem' : ch ∈ xs := by
        rcases List.mem_cons.1 hmem with h | h
        · exact absurd h.symm hx
        · exact h
      have hne : xs ≠ [] := List.ne_nil_of_mem hmem'
      obtain ⟨y, ys, rfl⟩ := List.exists_cons_of_ne_nil hne
      have hl : (y :: ys)[(y :: ys).length - 1]? = some last := by
        simpa using hlast
      have ih' := ih hmem' hl
      rw [List.indexOf_cons_ne _ (fun h => hx h)]
      simp only [List.set_cons_succ, List.length_cons, Nat.add_sub_cancel,
        List.take_succ_cons]
      rw [List.erase_cons_tail (by simpa using hx)]
      refine List.Perm.cons x ?_
      simpa using ih'

/-! ## The broadcaster's operations, case by case -/

theorem DeleteSubscription_absent (s : SubscriptionService) (postID : Int) (ch : Chan)
    (h : s.commentChannels.get? postID = none) :
    s.DeleteSubscription postID ch = some (none, s) := by
  simp only [SubscriptionService.DeleteSubscription, h]

theorem DeleteSubscription_not_registered (s : SubscriptionService) (postID : Int) (ch : Chan)
    (chans : List Chan) (h : s.commentChannels.get? postID = some chans) (hch : ch ∉ chans) :
    s.DeleteSubscription postID ch = some (none, s) := by
  have hi : ¬ chans.indexOf ch < chans.length := by
    rw [List.indexOf_lt_length]
    exact hch
  simp only [SubscriptionService.DeleteSubscription, h, hi, if_false]

theorem DeleteSubscription_found (s : SubscriptionService) (postID : Int) (ch : Chan)
    (chans : List Chan) (h : s.commentChannels.get? postID = some chans) (hch : ch ∈ chans)
    (hopen : ch ∉ s.closed) :
    ∃ last s', chans[chans.length - 1]? = some last ∧
      s.DeleteSubscription postID ch = some (none, s') ∧
      s'.closed = ch :: s.closed ∧ s'.made = s.made ∧ s'.sent = s.sent ∧
      (∀ p, p ≠ postID → s'.commentChannels.get? p = s.commentChannels.get? p) ∧
      s'.commentChannels.get? postID
        = (if ((chans.set (chans.indexOf ch) last).take (chans.length - 1)).length = 0
            then none
            else some ((chans.set (chans.indexOf ch) last).take (chans.length - 1))) := by
  have hi : chans.indexOf ch < chans.length := List.indexOf_lt_length.2 hch
  have hn : chans.length - 1 < chans.length := by omega
  have hlast : chans[chans.length - 1]? = some chans[chans.length - 1] :=
    List.getElem?_eq_getElem hn
  refine ⟨chans[chans.length - 1], ?_⟩
  simp only [SubscriptionService.DeleteSubscription, h, hi, if_true, hopen, if_false, hlast,
    SubscriptionService.chansOf, GoMap.get?_set_self, Option.getD_some]
  split
  · rename_i hz
    refine ⟨_, trivial, rfl, rfl, rfl, rfl, ?_, ?_⟩
    · intro p hp
      simp only [GoMap.get?_delete_ne _ _ _ hp, GoMap.get?_set_ne _ _ _ _ hp]
    · simp only [GoMap.get?_delete_self]
  · rename_i hz
    refine ⟨_, trivial, rfl, rfl, rfl, rfl, ?_, ?_⟩
    · intro p hp
      simp only [GoMap.get?_set_ne _ _ _ _ hp]
    · simp only [GoMap.get?_set_self]

theorem sendAll_open (comment : Comment) (chans : List Chan) :
    ∀ s : SubscriptionService, (∀ ch ∈ chans, ch ∉ s.closed) →
      SubscriptionService.sendAll comment chans s
        = some { s with sent := s.sent ++ chans.map (fun ch => (ch, comment)) } := by
  induction chans with
  | nil => intro s _; simp [SubscriptionService.sendAll]
  | cons ch rest ih =>
    intro s hopen
    have h1 : ch ∉ s.closed := hopen ch (List.mem_cons_self _ _)
    simp only [SubscriptionService.sendAll, SubscriptionService.send, h1, if_false]
    have hrest := ih { s with sent := s.sent ++ [(ch, comment)] }
      (fun c hc => hopen c (List.mem_cons_of_mem _ hc))
    rw [hrest]
    simp

theorem Notify_absent (s : SubscriptionService) (comment : Comment)
    (h : s.commentChannels.get? comment.PostID = none) :
    s.Notify comment = some (none, s) := by
  simp only [SubscriptionService.Notify, h]

theorem Notify_open (s : SubscriptionService) (comment : Comment) (chans : List Chan)
    (h : s.commentChannels.get? comment.PostID = some chans)
    (hopen : ∀ ch ∈ chans, ch ∉ s.closed) :
    s.Notify comment
      = some (none, { s with sent := s.sent ++ chans.map (fun ch => (ch, comment)) }) := by
  simp only [SubscriptionService.Notify, h, sendAll_open comment chans s hopen]

/-! ## Every reachable registry is well formed -/

theorem mem_chansOf (s : SubscriptionService) (postID : Int) (ch : Chan)
    (h : ch ∈ s.chansOf postID) :
    ∃ chans, s.commentChannels.get? postID = some chans ∧ ch ∈ chans := by
  unfold SubscriptionService.chansOf at h
  cases hg : s.commentChannels.get? postID with
  | none => simp [hg] at h
  | some chans => exact ⟨chans, rfl, by simpa [hg] using h⟩

theorem chansOf_of_get? (s : SubscriptionService) (postID : Int) (chans : List Chan)
    (h : s.commentChannels.get? postID = some chans) : s.chansOf postID = chans := by
  simp [SubscriptionService.chansOf, h]

theorem WellFormed_new : WellFormed NewSubscriptionService := by
  constructor
  · intro p chans h
    simp [NewSubscriptionService, GoMap.get?] at h
  · intro p₁ p₂ c₁ c₂ ch h
    simp [NewSubscriptionService, GoMap.get?] at h
  · intro ch h
    simp [NewSubscriptionService] at h

theorem WellFormed_create (s : SubscriptionService) (postID : Int) (h : WellFormed s) :
    WellFormed (s.CreateSubscription postID).2 := by
  have hold : ∀ ch ∈ s.chansOf postID, ch < s.made ∧ ch ∉ s.closed := by
    intro ch hch
    obtain ⟨chans, hg, hm⟩ := mem_chansOf s postID ch hch
    exact (h.entry postID chans hg).2.2 ch hm
  have hnodup : (s.chansOf postID).Nodup := by
    cases hg : s.commentChannels.get? postID with
    | none => simp [SubscriptionService.chansOf, hg]
    | some chans =>
      rw [chansOf_of_get? s postID chans hg]
      exact (h.entry postID chans hg).2.1
  have hfresh : s.made ∉ s.chansOf postID := fun hm => absurd (hold _ hm).1 (lt_irrefl _)
  have hnotclosed : s.made ∉ s.closed := fun hm => absurd (h.closedMade _ hm) (lt_irrefl _)
  have hget : ∀ p chans,
      (s.CreateSubscription postID).2.commentChannels.get? p = some chans →
      (p = postID ∧ chans = s.chansOf postID ++ [s.made]) ∨
      (p ≠ postID ∧ s.commentChannels.get? p = some chans) := by
    intro p chans hg
    simp only [SubscriptionService.CreateSubscription] at hg
    by_cases hp : p = postID
    · subst hp
      rw [GoMap.get?_set_self] at hg
      exact Or.inl ⟨rfl, (Option.some.inj hg).symm⟩
    · rw [GoMap.get?_set_ne _ _ _ _ hp] at hg
      exact Or.inr ⟨hp, hg⟩
  have hmade : (s.CreateSubscription postID).2.made = s.made + 1 := rfl
  have hclosed : (s.CreateSubscription postID).2.closed = s.closed := rfl
  constructor
  · intro p chans hg
    rcases hget p chans hg with ⟨rfl, rfl⟩ | ⟨_, hg'⟩
    · refine ⟨by simp, ?_, ?_⟩
      · rw [List.nodup_append]
        refine ⟨hnodup, List.nodup_singleton _, ?_⟩
        intro a ha hb
        rw [List.mem_singleton] at hb
        subst hb
        exact hfresh ha
      · intro ch hch
        rw [hmade, hclosed]
        rcases List.mem_append.1 hch with hm | hm
        · exact ⟨Nat.lt_succ_of_lt (hold ch hm).1, (hold ch hm).2⟩
        · rw [List.mem_singleton] at hm
          subst hm
          exact ⟨Nat.lt_succ_self _, hnotclosed⟩
    · obtain ⟨h1, h2, h3⟩ := h.entry p chans hg'
      refine ⟨h1, h2, fun ch hch => ?_⟩
      rw [hmade, hclosed]
      exact ⟨Nat.lt_succ_of_lt (h3 ch hch).1, (h3 ch hch).2⟩
  · intro p₁ p₂ c₁ c₂ ch hg₁ hg₂ hm₁ hm₂
    have key : ∀ p c, (p ≠ postID ∧ s.commentChannels.get? p = some c) → ch ∈ c →
        ch ∈ s.chansOf postID ++ [s.made] → p = postID := by
      intro p c hp hc hnew
      rcases List.mem_append.1 hnew with hm | hm
      · obtain ⟨chans, hg, hmem⟩ := mem_chansOf s postID ch hm
        exact h.disjoint p postID c chans ch hp.2 hg hc hmem
      · rw [List.mem_singleton] at hm
        subst hm
        exact absurd ((h.entry p c hp.2).2.2 _ hc).1 (lt_irrefl _)
    rcases hget p₁ c₁ hg₁ with ⟨rfl, rfl⟩ | hp₁
    · rcases hget p₂ c₂ hg₂ with ⟨rfl, rfl⟩ | hp₂
      · rfl
      · exact (key p₂ c₂ hp₂ hm₂ hm₁).symm
    · rcases hget p₂ c₂ hg₂ with ⟨rfl, rfl⟩ | hp₂
      · exact key p₁ c₁ hp₁ hm₁ hm₂
      · exact h.disjoint p₁ p₂ c₁ c₂ ch hp₁.2 hp₂.2 hm₁ hm₂
  · intro ch hch
    rw [hmade]
    rw [hclosed] at hch
    exact Nat.lt_succ_of_lt (h.closedMade ch hch)

theorem WellFormed_of_fields (s s' : SubscriptionService) (h : WellFormed s)
    (h1 : s'.commentChannels = s.commentChannels) (h2 : s'.made = s.made)
    (h3 : s'.closed = s.closed) : WellFormed s' := by
  constructor
  · intro p chans hg
    rw [h1] at hg
    rw [h2, h3]
    exact h.entry p chans hg
  · intro p₁ p₂ c₁ c₂ ch hg₁ hg₂
    rw [h1] at hg₁ hg₂
    exact h.disjoint p₁ p₂ c₁ c₂ ch hg₁ hg₂
  · intro ch hch
    rw [h3] at hch
    rw [h2]
    exact h.closedMade ch hch

theorem Notify_of_wellFormed (s : SubscriptionService) (comment : Comment)
    (h : WellFormed s) :
    s.Notify comment = some (none,
      { s with sent := s.sent ++ (s.chansOf comment.PostID).map (fun ch => (ch, comment)) }) := by
  cases hg : s.commentChannels.get? comment.PostID with
  | none =>
    rw [Notify_absent s comment hg]
    simp [SubscriptionService.chansOf, hg]
  | some chans =>
    rw [Notify_open s comment chans hg (fun ch hch => ((h.entry _ chans hg).2.2 ch hch).2),
      chansOf_of_get? s _ chans hg]

theorem WellFormed_notify (s s' : SubscriptionService) (comment : Comment)
    (r : Option GoError) (h : WellFormed s) (hn : s.Notify comment = some (r, s')) :
    WellFormed s' := by
  rw [Notify_of_wellFormed s comment h] at hn
  simp only [Option.some.injEq, Prod.mk.injEq] at hn
  obtain ⟨_, rfl⟩ := hn
  exact WellFormed_of_fields s _ h rfl rfl rfl

theorem DeleteSubscription_registered (s : SubscriptionService) (postID : Int) (ch : Chan)
    (chans : List Chan) (h : WellFormed s)
    (hg : s.commentChannels.get? postID = some chans) (hch : ch ∈ chans) :
    ∃ last s', chans[chans.length - 1]? = some last ∧
      s.DeleteSubscription postID ch = some (none, s') ∧
      s'.closed = ch :: s.closed ∧ s'.made = s.made ∧ s'.sent = s.sent ∧
      (∀ p, p ≠ postID → s'.commentChannels.get? p = s.commentChannels.get? p) ∧
      s'.chansOf postID = (chans.set (chans.indexOf ch) last).take (chans.length - 1) ∧
      (∀ c, s'.commentChannels.get? postID = some c → c = s'.chansOf postID ∧ c ≠ []) ∧
      (s'.chansOf postID).Perm (chans.erase ch) := by
  have hopen : ch ∉ s.closed := ((h.entry postID chans hg).2.2 ch hch).2
  obtain ⟨last, s', hlast, hdel, hc, hm, hs, hother, hself⟩ :=
    DeleteSubscription_found s postID ch chans hg hch hopen
  have hchans : s'.chansOf postID
      = (chans.set (chans.indexOf ch) last).take (chans.length - 1) := by
    unfold SubscriptionService.chansOf
    rw [hself]
    split
    · rename_i hz
      simp only [Option.getD_none]
      exact (List.length_eq_zero.1 hz).symm
    · simp only [Option.getD_some]
  refine ⟨last, s', hlast, hdel, hc, hm, hs, hother, hchans, ?_, ?_⟩
  · intro c hcget
    rw [hself] at hcget
    split at hcget
    · exact absurd hcget (by simp)
    · rename_i hz
      have hc' := (Option.some.inj hcget).symm
      rw [hchans]
      refine ⟨hc', ?_⟩
      rw [hc']
      intro hnil
      exact hz (by rw [hnil]; rfl)
  · rw [hchans]
    exact swap_remove_perm_erase chans ch last hch hlast

theorem DeleteSubscription_noop (s : SubscriptionService) (postID : Int) (ch : Chan)
    (hch : ch ∉ s.chansOf postID) : s.DeleteSubscription postID ch = some (none, s) := by
  cases hg : s.commentChannels.get? postID with
  | none => exact DeleteSubscription_absent s postID ch hg
  | some chans =>
    rw [chansOf_of_get? s postID chans hg] at hch
    exact DeleteSubscription_not_registered s postID ch chans hg hch

theorem WellFormed_delete (s s' : SubscriptionService) (postID : Int) (ch : Chan)
    (r : Option GoError) (h : WellFormed s)
    (hd : s.DeleteSubscription postID ch = some (r, s')) : WellFormed s' := by
  by_cases hch : ch ∈ s.chansOf postID
  · obtain ⟨chans, hg, hmem⟩ := mem_chansOf s postID ch hch
    obtain ⟨last, s'', -, hdel, hc, hm, -, hother, -, hself, hperm⟩ :=
      DeleteSubscription_registered s postID ch chans h hg hmem
    rw [hdel] at hd
    simp only [Option.some.injEq, Prod.mk.injEq] at hd
    obtain ⟨-, rfl⟩ := hd
    obtain ⟨hne, hnd, hlt⟩ := h.entry postID chans hg
    have hsub : ∀ x, x ∈ s''.chansOf postID → x ∈ chans ∧ x ≠ ch := by
      intro x hx
      have := (hnd.mem_erase_iff).1 (hperm.subset hx)
      exact ⟨this.2, this.1⟩
    have hold : ∀ p c, s''.commentChannels.get? p = some c →
        ∃ c₀, s.commentChannels.get? p = some c₀ ∧ ∀ x ∈ c, x ∈ c₀ ∧ x ≠ ch := by
      intro p c hgc
      by_cases hp : p = postID
      · subst hp
        obtain ⟨rfl, -⟩ := hself c hgc
        exact ⟨chans, hg, hsub⟩
      · rw [hother p hp] at hgc
        refine ⟨c, hgc, fun x hx => ⟨hx, ?_⟩⟩
        rintro rfl
        exact hp (h.disjoint p postID c chans x hgc hg hx hmem)
    constructor
    · intro p c hgc
      have hmemc : ∀ x ∈ c, x < s''.made ∧ x ∉ s''.closed := by
        intro x hx
        obtain ⟨c₀, hg₀, hc₀⟩ := hold p c hgc
        obtain ⟨hx₀, hxne⟩ := hc₀ x hx
        rw [hm, hc]
        refine ⟨((h.entry p c₀ hg₀).2.2 x hx₀).1, ?_⟩
        rw [List.mem_cons]
        rintro (heq | hcl)
        · exact hxne heq
        · exact ((h.entry p c₀ hg₀).2.2 x hx₀).2 hcl
      by_cases hp : p = postID
      · subst hp
        obtain ⟨rfl, hnil⟩ := hself c hgc
        exact ⟨hnil, hperm.nodup_iff.2 (hnd.erase ch), hmemc⟩
      · have hgc' := hgc
        rw [hother p hp] at hgc'
        exact ⟨(h.entry p c hgc').1, (h.entry p c hgc').2.1, hmemc⟩
    · intro p₁ p₂ c₁ c₂ x hg₁ hg₂ hx₁ hx₂
      obtain ⟨d₁, hd₁, hs₁⟩ := hold p₁ c₁ hg₁
      obtain ⟨d₂, hd₂, hs₂⟩ := hold p₂ c₂ hg₂
      exact h.disjoint p₁ p₂ d₁ d₂ x hd₁ hd₂ (hs₁ x hx₁).1 (hs₂ x hx₂).1
    · intro x hx
      rw [hc] at hx
      rw [hm]
      rcases List.mem_cons.1 hx with rfl | hx'
      · exact (hlt x hmem).1
      · exact h.closedMade x hx'
  · rw [DeleteSubscription_noop s postID ch hch] at hd
    simp only [Option.some.injEq, Prod.mk.injEq] at hd
    obtain ⟨-, rfl⟩ := hd
    exact h

theorem Reachable.wellFormed {s : SubscriptionService} (h : Reachable s) : WellFormed s := by
  induction h with
  | init => exact WellFormed_new
  | create s postID _ ih => exact WellFormed_create s postID ih
  | delete s s' postID ch r _ hd ih => exact WellFormed_delete s s' postID ch r ih hd
  | notify s s' comment r _ hn ih => exact WellFormed_notify s s' comment r ih hn

theorem count_sends (chans : List Chan) (ch : Chan) (comment : Comment) :
    (chans.map (fun c => (c, comment))).count (ch, comment) = chans.count ch := by
  induction chans with
  | nil => rfl
  | cons x xs ih =>
    simp only [List.map_cons, List.count_cons, ih]
    by_cases hx : x = ch
    · subst hx
      simp
    · have hne : ((x, comment) == (ch, comment)) = false := by
        simp [hx]
      simp [hne, hx]

theorem threeSubscribers_reachable : Reachable threeSubscribers :=
  Reachable.create _ 2 (Reachable.create _ 1 (Reachable.create _ 1 Reachable.init))

/-! ## Claims on the subscription broadcaster -/

/-- C8: in every state the service can be in, `Notify(comment)` returns no error, changes
nothing but the send log, and the sends it adds are: the comment, exactly once, to each
channel registered under `comment.PostID`; nothing to a channel registered under another
post id; nothing at all when `comment.PostID` has no entry. -/
theorem Notify_delivers_once_per_subscriber (s : SubscriptionService) (comment : Comment)
    (h : Reachable s) :
    ∃ new, s.Notify comment = some (none, { s with sent := s.sent ++ new }) ∧
      (∀ e ∈ new, e.2 = comment) ∧
      (∀ ch ∈ s.chansOf comment.PostID, new.count (ch, comment) = 1) ∧
      (∀ postID ch, postID ≠ comment.PostID → ch ∈ s.chansOf postID →
        ∀ e ∈ new, e.1 ≠ ch) ∧
      (s.commentChannels.get? comment.PostID = none → new = []) := by
  have wf := h.wellFormed
  refine ⟨(s.chansOf comment.PostID).map (fun ch => (ch, comment)),
    Notify_of_wellFormed s comment wf, ?_, ?_, ?_, ?_⟩
  · intro e he
    obtain ⟨ch, -, rfl⟩ := List.mem_map.1 he
    rfl
  · intro ch hch
    obtain ⟨chans, hg, hm⟩ := mem_chansOf s comment.PostID ch hch
    rw [chansOf_of_get? s _ chans hg]
    rw [count_sends chans ch comment]
    exact List.count_eq_one_of_mem (wf.entry _ chans hg).2.1 hm
  · intro postID ch hne hch e he
    obtain ⟨c, hc, rfl⟩ := List.mem_map.1 he
    rintro rfl
    obtain ⟨c₁, hg₁, hm₁⟩ := mem_chansOf s postID _ hch
    obtain ⟨c₂, hg₂, hm₂⟩ := mem_chansOf s comment.PostID _ hc
    exact hne (wf.disjoint postID comment.PostID c₁ c₂ _ hg₁ hg₂ hm₁ hm₂)
  · intro hnone
    simp [SubscriptionService.chansOf, hnone]

/-- The scenario of the specification evaluated: channels A (0) and B (1) are subscribed to
post 1 and channel 2 to post 2; notifying the comment with id 10 of post 1 sends it once to
A and once to B, in registration order, and to nobody else. -/
theorem Notify_two_subscribers_example :
    threeSubscribers.Notify sampleComment
      = some (none, { threeSubscribers with sent := [(0, sampleComment), (1, sampleComment)] }) := by
  decide

/-- C8 witness: channels A (0) and B (1) subscribed to post 1, channel 2 to post 2;
notifying the comment with id 10 of post 1. -/
theorem Notify_delivers_once_per_subscriber_witness :
    ∃ new, threeSubscribers.Notify sampleComment
        = some (none, { threeSubscribers with sent := threeSubscribers.sent ++ new }) ∧
      (∀ e ∈ new, e.2 = sampleComment) ∧
      (∀ ch ∈ threeSubscribers.chansOf sampleComment.PostID,
        new.count (ch, sampleComment) = 1) ∧
      (∀ postID ch, postID ≠ sampleComment.PostID → ch ∈ threeSubscribers.chansOf postID →
        ∀ e ∈ new, e.1 ≠ ch) ∧
      (threeSubscribers.commentChannels.get? sampleComment.PostID = none → new = []) :=
  Notify_delivers_once_per_subscriber threeSubscribers sampleComment
    threeSubscribers_reachable

/-- C9: in every state reachable from `NewSubscriptionService`, `DeleteSubscription(postID,
ch)` with an unknown post id, or with a channel not registered under that post id, returns
nil and leaves the registry and every channel as they were; and for any `postID` and `ch` a
call returns nil and a second call with the same arguments returns nil again and changes
nothing (so it does not close the channel again). -/
theorem DeleteSubscription_idempotent (s : SubscriptionService) (postID : Int) (ch : Chan)
    (h : Reachable s) :
    ((s.commentChannels.get? postID = none ∨ ch ∉ s.chansOf postID) →
      s.DeleteSubscription postID ch = some (none, s)) ∧
    (∃ s₁, s.DeleteSubscription postID ch = some (none, s₁) ∧
      s₁.DeleteSubscription postID ch = some (none, s₁)) := by
  have wf := h.wellFormed
  constructor
  · rintro (hnone | hch)
    · exact DeleteSubscription_absent s postID ch hnone
    · exact DeleteSubscription_noop s postID ch hch
  · by_cases hch : ch ∈ s.chansOf postID
    · obtain ⟨chans, hg, hmem⟩ := mem_chansOf s postID ch hch
      obtain ⟨last, s', -, hdel, -, -, -, -, -, -, hperm⟩ :=
        DeleteSubscription_registered s postID ch chans wf hg hmem
      refine ⟨s', hdel, DeleteSubscription_noop s' postID ch ?_⟩
      intro hin
      exact (wf.entry postID chans hg).2.1.not_mem_erase (hperm.subset hin)
    · exact ⟨s, DeleteSubscription_noop s postID ch hch,
        DeleteSubscription_noop s postID ch hch⟩

/-- C9 witness: deleting under the unknown post id 999 changes nothing; deleting channel 0
of post 1 twice returns nil both times and the second call changes nothing. -/
theorem DeleteSubscription_idempotent_witness :
    threeSubscribers.DeleteSubscription 999 0 = some (none, threeSubscribers) ∧
    (∃ s₁, threeSubscribers.DeleteSubscription 1 0 = some (none, s₁) ∧
      s₁.DeleteSubscription 1 0 = some (none, s₁)) :=
  ⟨(DeleteSubscription_idempotent threeSubscribers 999 0 threeSubscribers_reachable).1
      (Or.inl (by decide)),
   (DeleteSubscription_idempotent threeSubscribers 1 0 threeSubscribers_reachable).2⟩

/-- C10: in a reachable state where `ch` is registered under `postID` (`chans` being that
topic's list), `DeleteSubscription(postID, ch)` returns nil, closes `ch`, and leaves as the
topic's list the old list with its last element moved into `ch`'s position and the length
reduced by one; `ch` is no longer in it, every other channel of the topic is in it exactly
once and still open, and the lists of all other topics are unchanged. -/
theorem DeleteSubscription_swap_with_last (s : SubscriptionService) (postID : Int) (ch : Chan)
    (chans : List Chan) (h : Reachable s)
    (hg : s.commentChannels.get? postID = some chans) (hch : ch ∈ chans) :
    ∃ last s', chans.getLast? = some last ∧
      s.DeleteSubscription postID ch = some (none, s') ∧
      s'.closed = ch :: s.closed ∧
      s'.chansOf postID = (chans.set (chans.indexOf ch) last).take (chans.length - 1) ∧
      (s'.chansOf postID).length = chans.length - 1 ∧
      ch ∉ s'.chansOf postID ∧
      (∀ other ∈ chans, other ≠ ch →
        (s'.chansOf postID).count other = 1 ∧ other ∉ s'.closed) ∧
      (∀ p, p ≠ postID → s'.commentChannels.get? p = s.commentChannels.get? p) := by
  have wf := h.wellFormed
  obtain ⟨hne, hnd, hlt⟩ := wf.entry postID chans hg
  obtain ⟨last, s', hlast, hdel, hc, -, -, hother, hchans, -, hperm⟩ :=
    DeleteSubscription_registered s postID ch chans wf hg hch
  refine ⟨last, s', ?_, hdel, hc, hchans, ?_, ?_, ?_, hother⟩
  · rw [List.getLast?_eq_getElem?]
    exact hlast
  · rw [hchans, List.length_take, List.length_set]
    omega
  · intro hin
    exact hnd.not_mem_erase (hperm.subset hin)
  · intro other hmem hneq
    constructor
    · rw [hperm.count_eq, List.count_erase_of_ne hneq]
      exact List.count_eq_one_of_mem hnd hmem
    · rw [hc, List.mem_cons]
      rintro (heq | hcl)
      · exact hneq heq
      · exact (hlt other hmem).2 hcl

/-- C10 witness: channels 0 and 1 are subscribed to post 1; deleting channel 0. -/
theorem DeleteSubscription_swap_with_last_witness :
    ∃ last s', [0, 1].getLast? = some last ∧
      threeSubscribers.DeleteSubscription 1 0 = some (none, s') ∧
      s'.closed = 0 :: threeSubscribers.closed ∧
      s'.chansOf 1 = (([0, 1] : List Chan).set (([0, 1] : List Chan).indexOf 0) last).take
        (([0, 1] : List Chan).length - 1) ∧
      (s'.chansOf 1).length = ([0, 1] : List Chan).length - 1 ∧
      0 ∉ s'.chansOf 1 ∧
      (∀ other ∈ ([0, 1] : List Chan), other ≠ 0 →
        (s'.chansOf 1).count other = 1 ∧ other ∉ s'.closed) ∧
      (∀ p, p ≠ 1 → s'.commentChannels.get? p = threeSubscribers.commentChannels.get? p) :=
  DeleteSubscription_swap_with_last threeSubscribers 1 0 [0, 1] threeSubscribers_reachable
    (by decide) (by decide)

/-! ## Claims on pagination inputs -/

/-- C11: `ParseLimitOffset` equals the reference normalisation: the limit result is
`DefaultLimit` when the limit is absent or `≤ 0`, `MaxLimit` when it is (positive and)
above `MaxLimit`, and the given limit otherwise; the offset result is `DefaultOffset` when
the offset is absent and otherwise the given offset unchanged, negative or not. -/
theorem ParseLimitOffset_eq_reference (DefaultLimit MaxLimit DefaultOffset : Int)
    (limit offset : Option Int) :
    ParseLimitOffset DefaultLimit MaxLimit DefaultOffset limit offset
      = (normalisedLimit DefaultLimit MaxLimit limit, normalisedOffset DefaultOffset offset) ∧
    ((limit = none ∨ ∃ l, limit = some l ∧ l ≤ 0) →
      (ParseLimitOffset DefaultLimit MaxLimit DefaultOffset limit offset).1 = DefaultLimit) ∧
    (∀ l, limit = some l → 0 < l → l > MaxLimit →
      (ParseLimitOffset DefaultLimit MaxLimit DefaultOffset limit offset).1 = MaxLimit) ∧
    (∀ l, limit = some l → 0 < l → l ≤ MaxLimit →
      (ParseLimitOffset DefaultLimit MaxLimit DefaultOffset limit offset).1 = l) ∧
    (offset = none →
      (ParseLimitOffset DefaultLimit MaxLimit DefaultOffset limit offset).2 = DefaultOffset) ∧
    (∀ o, offset = some o →
      (ParseLimitOffset DefaultLimit MaxLimit DefaultOffset limit offset).2 = o) := by
  refine ⟨?_, ?_, ?_, ?_, ?_, ?_⟩
  · cases limit with
    | none => cases offset <;> simp [ParseLimitOffset, normalisedLimit, normalisedOffset]
    | some l =>
      by_cases h0 : l ≤ 0
      · cases offset <;> simp [ParseLimitOffset, normalisedLimit, normalisedOffset, h0]
      · by_cases h1 : l > MaxLimit
        · cases offset <;> simp [ParseLimitOffset, normalisedLimit, normalisedOffset, h0, h1]
        · cases offset <;>
            simp [ParseLimitOffset, normalisedLimit, normalisedOffset, h0, h1, not_lt.1 h1]
  · rintro (rfl | ⟨l, rfl, hl⟩)
    · simp [ParseLimitOffset]
    · simp [ParseLimitOffset, hl]
  · rintro l rfl h0 h1
    simp [ParseLimitOffset, not_le.2 h0, h1]
  · rintro l rfl h0 h1
    simp [ParseLimitOffset, not_le.2 h0, not_lt.2 h1]
  · rintro rfl
    simp [ParseLimitOffset]
  · rintro o rfl
    simp [ParseLimitOffset]

/-- C11 witness: with default limit 10, maximum 100 and default offset 0, the limit 500 is
clamped to 100 and the offset -3 is passed through. -/
theorem ParseLimitOffset_eq_reference_witness :
    (ParseLimitOffset 10 100 0 (some 500) (some (-3))).1 = 100 ∧
    (ParseLimitOffset 10 100 0 (some 500) (some (-3))).2 = -3 :=
  ⟨(ParseLimitOffset_eq_reference 10 100 0 (some 500) (some (-3))).2.2.1 500 rfl
      (by decide) (by decide),
   (ParseLimitOffset_eq_reference 10 100 0 (some 500) (some (-3))).2.2.2.2.2 (-3) rfl⟩

/-! ## Claims on the in-memory store's single-record operations -/

/-- C12: when `input.AuthorID` is not a stored user, the store's `CreatePost` returns no post
and the error `UserDoesNotExistError(input.AuthorID)`, and the stored posts are the same as
before. -/
theorem CreatePost_unknown_author_fails (now : Time) (input : NewPost) (st : InMemoryStorage)
    (h : st.users.get? input.AuthorID = none) :
    (PostMemoryStorage.CreatePost now input st).1
      = (none, some (.app (UserDoesNotExistError input.AuthorID))) ∧
    (PostMemoryStorage.CreatePost now input st).2.posts = st.posts := by
  simp only [PostMemoryStorage.CreatePost, h, and_self]

/-- C12 witness: a post by the unknown user 999 on a store holding one post. -/
theorem CreatePost_unknown_author_fails_witness :
    (PostMemoryStorage.CreatePost 20 strangerPost storeWithOnePost).1
      = (none, some (.app (UserDoesNotExistError 999))) ∧
    (PostMemoryStorage.CreatePost 20 strangerPost storeWithOnePost).2.posts
      = storeWithOnePost.posts :=
  CreatePost_unknown_author_fails 20 strangerPost storeWithOnePost (by decide)

/-- C13: when `input.AuthorID` is a stored user, the store's `CreatePost` returns, with no
error, the post whose id is the store's next post id, whose title, payload and
comments-allowed flag are the input's and whose author is the user stored under
`input.AuthorID`; that record is stored under that id and a following `GetPostByID` of the id
returns exactly it. The next post id of a freshly constructed store is 1. -/
theorem CreatePost_known_author_succeeds (now : Time) (input : NewPost) (st : InMemoryStorage)
    (author : User) (h : st.users.get? input.AuthorID = some author) :
    (PostMemoryStorage.CreatePost now input st).1
      = (some { ID := st.nextPostID, Title := input.Title, Payload := input.Payload,
                Author := some author, IsCommentsAllowed := input.IsCommentsAllowed,
                CreatedAt := now }, none) ∧
    (PostMemoryStorage.CreatePost now input st).2.posts.get? st.nextPostID
      = some { ID := st.nextPostID, Title := input.Title, Payload := input.Payload,
               Author := some author, IsCommentsAllowed := input.IsCommentsAllowed,
               CreatedAt := now } ∧
    PostMemoryStorage.GetPostByID st.nextPostID (PostMemoryStorage.CreatePost now input st).2
      = (PostMemoryStorage.CreatePost now input st).1 ∧
    NewInMemoryStorage.nextPostID = 1 := by
  have hposts : (PostMemoryStorage.CreatePost now input st).2.posts.get? st.nextPostID
      = some { ID := st.nextPostID, Title := input.Title, Payload := input.Payload,
               Author := some author, IsCommentsAllowed := input.IsCommentsAllowed,
               CreatedAt := now } := by
    simp only [PostMemoryStorage.CreatePost, h, GoMap.get?_set_self]
  refine ⟨?_, hposts, ?_, rfl⟩
  · simp only [PostMemoryStorage.CreatePost, h]
  · simp only [PostMemoryStorage.GetPostByID, hposts]
    simp only [PostMemoryStorage.CreatePost, h]

/-- C13 witness: the first post created on a fresh store by the stored user 1 gets id 1. -/
theorem CreatePost_known_author_succeeds_witness :
    (PostMemoryStorage.CreatePost 10 alicePost NewInMemoryStorage).1
      = (some { ID := 1, Title := "Hello World", Payload := "Some content",
                Author := some { ID := 1, Username := "Alice" },
                IsCommentsAllowed := true, CreatedAt := 10 }, none) :=
  (CreatePost_known_author_succeeds 10 alicePost NewInMemoryStorage
    { ID := 1, Username := "Alice" } (by decide)).1

theorem PostsKeyedByID_createPost (now : Time) (input : NewPost) (st : InMemoryStorage)
    (h : PostsKeyedByID st) : PostsKeyedByID (PostMemoryStorage.CreatePost now input st).2 := by
  intro k p hk
  simp only [PostMemoryStorage.CreatePost] at hk
  split at hk
  · exact h k p hk
  · by_cases hkey : k = st.nextPostID
    · subst hkey
      simp only [GoMap.get?_set_self, Option.some.injEq] at hk
      rw [← hk]
    · simp only [GoMap.get?_set_ne _ _ _ _ hkey] at hk
      exact h k p hk

theorem StoreReachable_keyed {st : InMemoryStorage} (h : StoreReachable st) :
    PostsKeyedByID st := by
  induction h with
  | init =>
    intro k p hk
    simp [NewInMemoryStorage, GoMap.get?] at hk
  | createPost now input st _ ih => exact PostsKeyedByID_createPost now input st ih
  | createComment now input st _ ih =>
    intro k p hk
    exact ih k p (by simpa [CommentMemoryStorage.CreateComment] using hk)

theorem storeWithOnePost_reachable : StoreReachable storeWithOnePost :=
  StoreReachable.createPost 10 alicePost NewInMemoryStorage StoreReachable.init

/-- C14: the store's `GetPostByID(id)` fails with the sentinel `pgx.ErrNoRows` if and only if
no post is stored under `id`; otherwise it returns, with no error, the post stored under
`id`, and the ID field of that post equals `id` in every store that keeps its posts under
their own ids, which every store reached from `NewInMemoryStorage` through the store's
operations does. The operation only reads the store: it returns no new state. -/
theorem GetPostByID_found_iff_stored (id : Int) (st : InMemoryStorage) :
    ((PostMemoryStorage.GetPostByID id st).2 = some GoError.ErrNoRows
        ↔ st.posts.get? id = none) ∧
    (st.posts.get? id = none →
      PostMemoryStorage.GetPostByID id st = (none, some GoError.ErrNoRows)) ∧
    (∀ p, st.posts.get? id = some p →
      PostMemoryStorage.GetPostByID id st = (some p, none) ∧
      (PostsKeyedByID st → p.ID = id) ∧ (StoreReachable st → p.ID = id)) := by
  refine ⟨?_, ?_, ?_⟩
  · cases hg : st.posts.get? id <;> simp [PostMemoryStorage.GetPostByID, hg]
  · intro hg
    simp only [PostMemoryStorage.GetPostByID, hg]
  · intro p hg
    refine ⟨?_, fun hk => hk id p hg, fun hr => StoreReachable_keyed hr id p hg⟩
    simp only [PostMemoryStorage.GetPostByID, hg]

/-- C14 witness: after one `CreatePost` on a fresh store, id 1 is found and the post
returned carries ID 1, and id 999 reports `pgx.ErrNoRows`. -/
theorem GetPostByID_found_iff_stored_witness :
    PostMemoryStorage.GetPostByID 1 storeWithOnePost = (some firstPost, none) ∧
    firstPost.ID = 1 ∧
    PostMemoryStorage.GetPostByID 999 storeWithOnePost = (none, some GoError.ErrNoRows) :=
  ⟨((GetPostByID_found_iff_stored 1 storeWithOnePost).2.2 firstPost (by decide)).1,
   ((GetPostByID_found_iff_stored 1 storeWithOnePost).2.2 firstPost (by decide)).2.2
      storeWithOnePost_reachable,
   (GetPostByID_found_iff_stored 999 storeWithOnePost).2.1 (by decide)⟩

/-- C17: for every store state and every input (nothing is asked of `input.PostID`), the
store's `CreateComment` returns, with no error, the comment whose id is the store's next
comment id and whose payload, post id and reply-to are the input's, and stores it under that
id; the next comment id is advanced by exactly one, as long as the 64-bit counter does not
wrap (it is below `2^63 - 1`). -/
theorem CreateComment_store_always_succeeds (now : Time) (input : NewComment)
    (st : InMemoryStorage) :
    (CommentMemoryStorage.CreateComment now input st).1
      = (some { ID := st.nextCommentID, Payload := input.Payload, PostID := input.PostID,
                Author := none, ReplyTo := input.ReplyTo, CreatedAt := now }, none) ∧
    (CommentMemoryStorage.CreateComment now input st).2.comments.get? st.nextCommentID
      = some { ID := st.nextCommentID, Payload := input.Payload, PostID := input.PostID,
               Author := none, ReplyTo := input.ReplyTo, CreatedAt := now } ∧
    (-2 ^ 63 ≤ st.nextCommentID → st.nextCommentID < 2 ^ 63 - 1 →
      (CommentMemoryStorage.CreateComment now input st).2.nextCommentID
        = st.nextCommentID + 1) := by
  refine ⟨rfl, ?_, ?_⟩
  · simp only [CommentMemoryStorage.CreateComment, GoMap.get?_set_self]
  · intro h1 h2
    simp only [CommentMemoryStorage.CreateComment]
    exact wrapInt64_of_inRange _ (by omega) (by omega)

/-- C17 witness: a comment for post 42 on a fresh store, which holds no post at all, is
created with id 1 and the next comment id becomes 2. -/
theorem CreateComment_store_always_succeeds_witness :
    (CommentMemoryStorage.CreateComment 30 orphanComment NewInMemoryStorage).1
      = (some { ID := 1, Payload := "Nobody home", PostID := 42, Author := none,
                ReplyTo := none, CreatedAt := 30 }, none) ∧
    (CommentMemoryStorage.CreateComment 30 orphanComment NewInMemoryStorage).2.nextCommentID
      = 1 + 1 :=
  ⟨(CreateComment_store_always_succeeds 30 orphanComment NewInMemoryStorage).1,
   (CreateComment_store_always_succeeds 30 orphanComment NewInMemoryStorage).2.2
      (by decide) (by decide)⟩

/-! ## Claims on the comment list operations -/

theorem page_mem {α : Type} (srt : SliceSorter) (f : α → Time) (items : List α)
    (limit offset : Int) (l : List α) (e : Option GoError)
    (h : page srt f items limit offset = some (l, e)) : ∀ x ∈ l, x ∈ items :=
  fun _ hx =>
    (srt.perm _ items).subset ((page_sublist srt f items limit offset l e h).2.subset hx)

theorem page_whole {α : Type} (srt : SliceSorter) (f : α → Time) (items : List α)
    (limit : Int) (hl : (items.length : Int) ≤ limit) :
    ∃ l, page srt f items limit 0 = some (l, none) ∧ l.Perm items := by
  have h0 : (0 : Int) ≤ limit := le_trans (Int.ofNat_nonneg _) hl
  refine ⟨_, page_of_nonneg srt f items limit 0 h0 (le_refl _), ?_⟩
  have hlen := sort_length srt (fun a b => decide (f a > f b)) items
  have hk : (srt.sort (fun a b => decide (f a > f b)) items).length ≤ limit.toNat := by
    rw [hlen]
    omega
  simp only [Int.toNat_zero, List.drop_zero]
  rw [List.take_of_length_le hk]
  exact srt.perm _ items

theorem mem_topLevelOf (st : InMemoryStorage) (postID : Int) (c : Comment) :
    c ∈ topLevelOf st postID ↔ c ∈ st.comments.values ∧ c.PostID = postID ∧ c.ReplyTo = none := by
  simp only [topLevelOf, List.mem_filter, Bool.and_eq_true, decide_eq_true_eq,
    Option.isNone_iff_eq_none]

theorem mem_repliesTo (st : InMemoryStorage) (commentID : Int) (c : Comment) :
    c ∈ repliesTo st commentID ↔ c ∈ st.comments.values ∧ c.ReplyTo = some commentID := by
  simp only [repliesTo, List.mem_filter]
  cases hr : c.ReplyTo with
  | none => simp
  | some r => simp

/-- C15: for `limit ≥ 0` and `offset ≥ 0`, `GetCommentsByPostID` returns a sequence in which
every comment is a stored comment with `PostID = postID` and no reply-to; with `offset = 0`
and `limit` at least the number of stored top-level comments of the post, the sequence is a
rearrangement of those comments, so each of them is returned exactly once. -/
theorem GetCommentsByPostID_top_level_only (srt : SliceSorter) (st : InMemoryStorage)
    (limit offset postID : Int) (hl : 0 ≤ limit) (ho : 0 ≤ offset) :
    ∃ l, CommentMemoryStorage.GetCommentsByPostID srt st limit offset postID = some (l, none) ∧
      (∀ c ∈ l, c ∈ st.comments.values ∧ c.PostID = postID ∧ c.ReplyTo = none) ∧
      (offset = 0 → ((topLevelOf st postID).length : Int) ≤ limit →
        l.Perm (topLevelOf st postID) ∧
        ∀ c, c ∈ st.comments.values → c.PostID = postID → c.ReplyTo = none →
          l.count c = (topLevelOf st postID).count c ∧ 0 < l.count c) := by
  rw [GetCommentsByPostID_eq_page]
  refine ⟨_, page_of_nonneg srt _ _ limit offset hl ho, ?_, ?_⟩
  · intro c hc
    exact (mem_topLevelOf st postID c).1
      (page_mem srt _ _ limit offset _ none (page_of_nonneg srt _ _ limit offset hl ho) c hc)
  · rintro rfl hlen
    obtain ⟨l, hl', hperm⟩ := page_whole srt Comment.CreatedAt (topLevelOf st postID) limit hlen
    rw [page_of_nonneg srt _ _ limit 0 hl ho] at hl'
    simp only [Option.some.injEq, Prod.mk.injEq, and_true] at hl'
    rw [hl']
    refine ⟨hperm, fun c hc hp hr => ⟨hperm.count_eq c, ?_⟩⟩
    rw [hperm.count_eq c]
    exact List.count_pos_iff.2 ((mem_topLevelOf st postID c).2 ⟨hc, hp, hr⟩)

/-- C15 witness: post 1 has the top-level comments 1 and 3 and the reply 2; with limit 10
and offset 0 exactly the two top-level comments come back. -/
theorem GetCommentsByPostID_top_level_only_witness :
    ∃ l, CommentMemoryStorage.GetCommentsByPostID insertionSorter storeWithComments 10 0 1
        = some (l, none) ∧
      (∀ c ∈ l, c ∈ storeWithComments.comments.values ∧ c.PostID = 1 ∧ c.ReplyTo = none) ∧
      ((0 : Int) = 0 → ((topLevelOf storeWithComments 1).length : Int) ≤ 10 →
        l.Perm (topLevelOf storeWithComments 1) ∧
        ∀ c, c ∈ storeWithComments.comments.values → c.PostID = 1 → c.ReplyTo = none →
          l.count c = (topLevelOf storeWithComments 1).count c ∧ 0 < l.count c) :=
  GetCommentsByPostID_top_level_only insertionSorter storeWithComments 10 0 1
    (by decide) (by decide)

/-- C16: for `limit ≥ 0` and `offset ≥ 0`, `Replies` returns a sequence in which every
comment is a stored comment whose reply-to is set and equals `commentID`; with `offset = 0`
and `limit` at least the number of stored comments replying to `commentID`, the sequence is
a rearrangement of those comments, so each of them is returned exactly once. -/
theorem Replies_only_replies (srt : SliceSorter) (st : InMemoryStorage)
    (commentID limit offset : Int) (hl : 0 ≤ limit) (ho : 0 ≤ offset) :
    ∃ l, CommentMemoryStorage.Replies srt st commentID limit offset = some (l, none) ∧
      (∀ c ∈ l, c ∈ st.comments.values ∧ c.ReplyTo = some commentID) ∧
      (offset = 0 → ((repliesTo st commentID).length : Int) ≤ limit →
        l.Perm (repliesTo st commentID) ∧
        ∀ c, c ∈ st.comments.values → c.ReplyTo = some commentID →
          l.count c = (repliesTo st commentID).count c ∧ 0 < l.count c) := by
  rw [Replies_eq_page]
  refine ⟨_, page_of_nonneg srt _ _ limit offset hl ho, ?_, ?_⟩
  · intro c hc
    exact (mem_repliesTo st commentID c).1
      (page_mem srt _ _ limit offset _ none (page_of_nonneg srt _ _ limit offset hl ho) c hc)
  · rintro rfl hlen
    obtain ⟨l, hl', hperm⟩ := page_whole srt Comment.CreatedAt (repliesTo st commentID) limit hlen
    rw [page_of_nonneg srt _ _ limit 0 hl ho] at hl'
    simp only [Option.some.injEq, Prod.mk.injEq, and_true] at hl'
    rw [hl']
    refine ⟨hperm, fun c hc hr => ⟨hperm.count_eq c, ?_⟩⟩
    rw [hperm.count_eq c]
    exact List.count_pos_iff.2 ((mem_repliesTo st commentID c).2 ⟨hc, hr⟩)

/-- C16 witness: comment 2 is the only stored reply to comment 1. -/
theorem Replies_only_replies_witness :
    ∃ l, CommentMemoryStorage.Replies insertionSorter storeWithComments 1 10 0
        = some (l, none) ∧
      (∀ c ∈ l, c ∈ storeWithComments.comments.values ∧ c.ReplyTo = some 1) ∧
      ((0 : Int) = 0 → ((repliesTo storeWithComments 1).length : Int) ≤ 10 →
        l.Perm (repliesTo storeWithComments 1) ∧
        ∀ c, c ∈ storeWithComments.comments.values → c.ReplyTo = some 1 →
          l.count c = (repliesTo storeWithComments 1).count c ∧ 0 < l.count c) :=
  Replies_only_replies insertionSorter storeWithComments 1 10 0 (by decide) (by decide)

/-- The comment operations evaluated on `storeWithComments`: the top-level comments of post 1
newest first, and the replies to comment 1. -/
theorem comment_lists_example :
    CommentMemoryStorage.GetCommentsByPostID insertionSorter storeWithComments 10 0 1
      = some ([{ ID := 3, Payload := "c", PostID := 1, Author := none, ReplyTo := none,
                 CreatedAt := 12 },
               { ID := 1, Payload := "a", PostID := 1, Author := none, ReplyTo := none,
                 CreatedAt := 10 }], none) ∧
    CommentMemoryStorage.Replies insertionSorter storeWithComments 1 10 0
      = some ([{ ID := 2, Payload := "b", PostID := 1, Author := none, ReplyTo := some 1,
                 CreatedAt := 11 }], none) := by
  decide

/-! ## Claims on `PostService.CreatePost` -/

/-- C18 (as amended): `PostService.CreatePost` validates in order. If the author lookup
fails, it returns `USER_DOES_NOT_EXIST` with details `userID = input.AuthorID` when the
error is the not-found sentinel and `INTERNAL_SERVER_ERROR` for any other error, and never
calls the storage `CreatePost`. When the lookup succeeds and `len(payload) >
MaxPayloadSize`, it returns `COMMENT_TOO_LONG` with details `maxLength`, `currentLength`
and never calls the storage `CreatePost`. Otherwise it calls the storage `CreatePost`
exactly once, with the input, and on success returns that post with `Author` set to the
looked-up user. -/
theorem PostService_CreatePost_validation_order {σ : Type} (storage : Storage σ)
    (MaxPayloadSize : Int) (input : NewPost) (s : σ) :
    (∀ u err s1, storage.GetUserByID input.AuthorID s = ((u, some err), s1) →
      err.isErrNoRows = true →
      (PostService.CreatePost storage MaxPayloadSize input s).result
        = some (none, some (.app
            { Code := "USER_DOES_NOT_EXIST", Message := "User does not exist",
              Extensions := [("userID", input.AuthorID)] })) ∧
      ∀ x, StorageCall.CreatePost x
        ∉ (PostService.CreatePost storage MaxPayloadSize input s).calls) ∧
    (∀ u err s1, storage.GetUserByID input.AuthorID s = ((u, some err), s1) →
      err.isErrNoRows = false →
      (PostService.CreatePost storage MaxPayloadSize input s).result
        = some (none, some (.app
            { Code := "INTERNAL_SERVER_ERROR", Message := "Internal Server Error",
              Extensions := [] })) ∧
      ∀ x, StorageCall.CreatePost x
        ∉ (PostService.CreatePost storage MaxPayloadSize input s).calls) ∧
    (∀ u s1, storage.GetUserByID input.AuthorID s = ((u, none), s1) →
      len input.Payload > MaxPayloadSize →
      (PostService.CreatePost storage MaxPayloadSize input s).result
        = some (none, some (.app
            { Code := "COMMENT_TOO_LONG", Message := "Comment exceeds maximum allowed length",
              Extensions := [("maxLength", MaxPayloadSize),
                             ("currentLength", len input.Payload)] })) ∧
      ∀ x, StorageCall.CreatePost x
        ∉ (PostService.CreatePost storage MaxPayloadSize input s).calls) ∧
    (∀ u s1, storage.GetUserByID input.AuthorID s = ((u, none), s1) →
      len input.Payload ≤ MaxPayloadSize →
      (PostService.CreatePost storage MaxPayloadSize input s).calls.count
          (.CreatePost input) = 1 ∧
      (∀ x, StorageCall.CreatePost x
          ∈ (PostService.CreatePost storage MaxPayloadSize input s).calls → x = input) ∧
      ∀ post s2, storage.CreatePost input s1 = ((some post, none), s2) →
        (PostService.CreatePost storage MaxPayloadSize input s).result
          = some (some { post with Author := u }, none)) := by
  refine ⟨?_, ?_, ?_, ?_⟩
  · intro u err s1 hu he
    simp [PostService.CreatePost, hu, he, UserDoesNotExistError]
  · intro u err s1 hu he
    simp [PostService.CreatePost, hu, he, InternalServerError]
  · intro u s1 hu hlen
    simp [PostService.CreatePost, hu, hlen, CommentTooLongError]
  · intro u s1 hu hlen
    rcases hc : storage.CreatePost input s1 with ⟨⟨p, perr⟩, s2⟩
    cases perr with
    | some err => simp [PostService.CreatePost, hu, not_lt.2 hlen, hc]
    | none =>
      cases p with
      | none => simp [PostService.CreatePost, hu, not_lt.2 hlen, hc]
      | some post => simp [PostService.CreatePost, hu, not_lt.2 hlen, hc]

/-- C18 witness: user 1 exists and the payload is short, so the storage `CreatePost` is
called once and its post is returned with the looked-up author. -/
theorem PostService_CreatePost_validation_order_witness :
    (PostService.CreatePost postingStorage 4096 alicePost ()).calls.count
        (.CreatePost alicePost) = 1 ∧
    (PostService.CreatePost postingStorage 4096 alicePost ()).result
      = some (some { ID := 1, Title := "Hello World", Payload := "Some content",
                     Author := some { ID := 1, Username := "testuser" },
                     IsCommentsAllowed := true, CreatedAt := 50 }, none) :=
  ⟨((PostService_CreatePost_validation_order postingStorage 4096 alicePost ()).2.2.2
      (some { ID := 1, Username := "testuser" }) () rfl (by decide)).1,
   ((PostService_CreatePost_validation_order postingStorage 4096 alicePost ()).2.2.2
      (some { ID := 1, Username := "testuser" }) () rfl (by decide)).2.2
      { ID := 1, Title := "Hello World", Payload := "Some content", Author := none,
        IsCommentsAllowed := true, CreatedAt := 50 } () rfl⟩

/-- C18 counterexample: the author lookup fails with "some db error", which is not the
not-found sentinel, and the payload is within the maximum; the claim then has the storage
`CreatePost` called exactly once, but the service returns `INTERNAL_SERVER_ERROR` after the
lookup and never calls it. -/
theorem PostService_CreatePost_lookup_error_stops :
    (dbErrorStorage.GetUserByID alicePost.AuthorID ()).1.2 = some (.other "some db error") ∧
    (GoError.other "some db error").isErrNoRows = false ∧
    ¬ len alicePost.Payload > 4096 ∧
    (PostService.CreatePost dbErrorStorage 4096 alicePost ()).calls
      = [.GetUserByID 1] ∧
    (PostService.CreatePost dbErrorStorage 4096 alicePost ()).calls.count
        (.CreatePost alicePost) = 0 ∧
    (PostService.CreatePost dbErrorStorage 4096 alicePost ()).result
      = some (none, some (.app InternalServerError)) := by
  decide

/-! ## Claim on `CreateSubscription` -/

/-- C20: in every registry state (every registered channel has been made before),
`CreateSubscription(postID)` returns no error and a channel that was registered under no
topic before; afterwards the channel list of `postID` is the previous list (empty if the
topic was absent) with the new channel appended at the end, and the channel lists of all
other topics are unchanged. -/
theorem CreateSubscription_appends_new_channel (s : SubscriptionService) (postID : Int)
    (hmade : ∀ p chans, s.commentChannels.get? p = some chans → ∀ ch ∈ chans, ch < s.made) :
    (s.CreateSubscription postID).1.2 = none ∧
    (∀ p, (s.CreateSubscription postID).1.1 ∉ s.chansOf p) ∧
    (s.CreateSubscription postID).2.chansOf postID
      = s.chansOf postID ++ [(s.CreateSubscription postID).1.1] ∧
    (s.commentChannels.get? postID = none →
      (s.CreateSubscription postID).2.chansOf postID = [(s.CreateSubscription postID).1.1]) ∧
    (∀ p, p ≠ postID →
      (s.CreateSubscription postID).2.commentChannels.get? p = s.commentChannels.get? p) := by
  refine ⟨rfl, ?_, ?_, ?_, ?_⟩
  · intro p hin
    obtain ⟨chans, hg, hm⟩ := mem_chansOf s p _ hin
    exact absurd (hmade p chans hg _ hm) (lt_irrefl _)
  · simp only [SubscriptionService.CreateSubscription, SubscriptionService.chansOf,
      GoMap.get?_set_self, Option.getD_some]
  · intro hnone
    simp only [SubscriptionService.CreateSubscription, SubscriptionService.chansOf,
      GoMap.get?_set_self, Option.getD_some, hnone, Option.getD_none, List.nil_append]
  · intro p hp
    simp only [SubscriptionService.CreateSubscription, GoMap.get?_set_ne _ _ _ _ hp]

/-- C20 witness: a further subscription to post 1, which already has channels 0 and 1,
returns the new channel 3 and the list becomes 0, 1, 3. -/
theorem CreateSubscription_appends_new_channel_witness :
    (threeSubscribers.CreateSubscription 1).1 = (3, none) ∧
    (threeSubscribers.CreateSubscription 1).2.chansOf 1 = [0, 1] ++ [3] ∧
    (∀ p, (3 : Chan) ∉ threeSubscribers.chansOf p) :=
  ⟨rfl,
   (CreateSubscription_appends_new_channel threeSubscribers 1
      (fun p chans hg ch hch =>
        ((Reachable.wellFormed threeSubscribers_reachable).entry p chans hg).2.2 ch hch
          |>.1)).2.2.1,
   (CreateSubscription_appends_new_channel threeSubscribers 1
      (fun p chans hg ch hch =>
        ((Reachable.wellFormed threeSubscribers_reachable).entry p chans hg).2.2 ch hch
          |>.1)).2.1⟩

/-! ## Claim on the errors the services return -/

theorem isDomainError_user (id : Int) : IsDomainError (.app (UserDoesNotExistError id)) :=
  ⟨_, rfl, by simp [UserDoesNotExistError, domainCodes]⟩

theorem isDomainError_post (id : Int) : IsDomainError (.app (PostDoesNotExistError id)) :=
  ⟨_, rfl, by simp [PostDoesNotExistError, domainCodes]⟩

theorem isDomainError_tooLong (a b : Int) : IsDomainError (.app (CommentTooLongError a b)) :=
  ⟨_, rfl, by simp [CommentTooLongError, domainCodes]⟩

theorem isDomainError_notAllowed (id : Int) : IsDomainError (.app (CommentsNotAllowed id)) :=
  ⟨_, rfl, by simp [CommentsNotAllowed, domainCodes]⟩

theorem isDomainError_internal : IsDomainError (.app InternalServerError) :=
  ⟨_, rfl, by simp [InternalServerError, domainCodes]⟩

theorem PostService_CreatePost_errors {σ : Type} (storage : Storage σ) (MaxPayloadSize : Int)
    (input : NewPost) (s : σ) (r : Option Post) (err : GoError)
    (h : (PostService.CreatePost storage MaxPayloadSize input s).result = some (r, some err)) :
    IsDomainError err := by
  unfold PostService.CreatePost at h
  repeat' split at h
  all_goals simp only [Option.some.injEq, Prod.mk.injEq, reduceCtorEq, and_false,
    false_and] at h
  all_goals obtain ⟨-, rfl⟩ := h
  all_goals first
    | exact isDomainError_user _
    | exact isDomainError_internal
    | exact isDomainError_tooLong _ _

theorem PostService_GetPostByID_errors {σ : Type} (storage : Storage σ) (id : Int) (s : σ)
    (r : Option Post) (err : GoError)
    (h : (PostService.GetPostByID storage id s).result = some (r, some err)) :
    IsDomainError err := by
  unfold PostService.GetPostByID at h
  repeat' split at h
  all_goals simp only [Option.some.injEq, Prod.mk.injEq, reduceCtorEq, and_false,
    false_and] at h
  all_goals obtain ⟨-, rfl⟩ := h
  all_goals first
    | exact isDomainError_post _
    | exact isDomainError_internal

theorem CommentService_CreateComment_errors {σ : Type} (storage : Storage σ)
    (MaxPayloadSize : Int) (input : NewComment) (s : σ) (r : Option Comment) (err : GoError)
    (h : (CommentService.CreateComment storage MaxPayloadSize input s).result
      = some (r, some err)) :
    IsDomainError err := by
  unfold CommentService.CreateComment at h
  repeat' split at h
  all_goals simp only [Option.some.injEq, Prod.mk.injEq, reduceCtorEq, and_false,
    false_and] at h
  all_goals obtain ⟨-, rfl⟩ := h
  all_goals first
    | exact isDomainError_user _
    | exact isDomainError_post _
    | exact isDomainError_internal
    | exact isDomainError_tooLong _ _
    | exact isDomainError_notAllowed _

theorem PostService_GetAllPosts_errors {σ : Type} (storage : Storage σ)
    (DefaultLimit MaxLimit DefaultOffset : Int) (limit offset : Option Int) (s : σ)
    (r : Option (List Post)) (err : GoError)
    (h : (PostService.GetAllPosts storage DefaultLimit MaxLimit DefaultOffset limit offset
      s).result = some (r, some err)) :
    err = .app InternalServerError := by
  rcases hg : storage.GetAllPosts (ParseLimitOffset DefaultLimit MaxLimit DefaultOffset limit offset).1
      (ParseLimitOffset DefaultLimit MaxLimit DefaultOffset limit offset).2 s with ⟨⟨l, _ | e⟩, s1⟩
  · simp [PostService.GetAllPosts, hg] at h
  · simp [PostService.GetAllPosts, hg] at h
    exact h.2.symm

theorem CommentService_GetCommentsByPostID_errors {σ : Type} (storage : Storage σ)
    (DefaultLimit MaxLimit DefaultOffset : Int) (limit offset : Option Int) (postID : Int)
    (s : σ) (r : Option (List Comment)) (err : GoError)
    (h : (CommentService.GetCommentsByPostID storage DefaultLimit MaxLimit DefaultOffset limit
      offset postID s).result = some (r, some err)) :
    err = .app InternalServerError := by
  rcases hg : storage.GetCommentsByPostID
      (ParseLimitOffset DefaultLimit MaxLimit DefaultOffset limit offset).1
      (ParseLimitOffset DefaultLimit MaxLimit DefaultOffset limit offset).2 postID s with ⟨⟨l, _ | e⟩, s1⟩
  · simp [CommentService.GetCommentsByPostID, hg] at h
  · simp [CommentService.GetCommentsByPostID, hg] at h
    exact h.2.symm

theorem CommentService_Replies_errors {σ : Type} (storage : Storage σ)
    (DefaultLimit MaxLimit DefaultOffset : Int) (commentID : Int) (limit offset : Option Int)
    (s : σ) (r : Option (List Comment)) (err : GoError)
    (h : (CommentService.Replies storage DefaultLimit MaxLimit DefaultOffset commentID limit
      offset s).result = some (r, some err)) :
    err = .app InternalServerError := by
  rcases hg : storage.Replies commentID
      (ParseLimitOffset DefaultLimit MaxLimit DefaultOffset limit offset).1
      (ParseLimitOffset DefaultLimit MaxLimit DefaultOffset limit offset).2 s with ⟨⟨l, _ | e⟩, s1⟩
  · simp [CommentService.Replies, hg] at h
  · simp [CommentService.Replies, hg] at h
    exact h.2.symm

/-- C19: for all providers, every error returned by `PostService` (`CreatePost`,
`GetPostByID`, `GetAllPosts`) and `CommentService` (`CreateComment`, `GetCommentsByPostID`,
`Replies`) is an `AppError` whose code is one of `USER_DOES_NOT_EXIST`,
`POST_DOES_NOT_EXIST`, `COMMENT_TOO_LONG`, `COMMENTS_NOT_ALLOWED`, `INTERNAL_SERVER_ERROR`
(the list operations return only the last). An error of a user lookup or post lookup that
is the not-found sentinel is answered by `USER_DOES_NOT_EXIST` / `POST_DOES_NOT_EXIST` built
from the looked-up id; every other storage error, of a lookup, a create or a list call, is
answered by `INTERNAL_SERVER_ERROR`: a list call of the storage that fails makes the list
operation of the service return no list and `INTERNAL_SERVER_ERROR`, one that succeeds makes
it return that list and no error, and a post lookup that succeeds is returned as it is. The
returned error is always built by the service from ids and lengths, never taken from the
storage error. -/
theorem services_return_domain_errors {σ : Type} (storage : Storage σ)
    (MaxPayloadSize DefaultLimit MaxLimit DefaultOffset : Int) (s : σ) :
    ((∀ input r err,
        (PostService.CreatePost storage MaxPayloadSize input s).result = some (r, some err) →
        IsDomainError err) ∧
      (∀ id r err, (PostService.GetPostByID storage id s).result = some (r, some err) →
        IsDomainError err) ∧
      (∀ limit offset r err,
        (PostService.GetAllPosts storage DefaultLimit MaxLimit DefaultOffset limit offset
          s).result = some (r, some err) →
        err = .app InternalServerError ∧ IsDomainError err) ∧
      (∀ input r err,
        (CommentService.CreateComment storage MaxPayloadSize input s).result
          = some (r, some err) →
        IsDomainError err) ∧
      (∀ limit offset postID r err,
        (CommentService.GetCommentsByPostID storage DefaultLimit MaxLimit DefaultOffset limit
          offset postID s).result = some (r, some err) →
        err = .app InternalServerError ∧ IsDomainError err) ∧
      (∀ commentID limit offset r err,
        (CommentService.Replies storage DefaultLimit MaxLimit DefaultOffset commentID limit
          offset s).result = some (r, some err) →
        err = .app InternalServerError ∧ IsDomainError err)) ∧
    ((∀ (input : NewPost) u e s1, storage.GetUserByID input.AuthorID s = ((u, some e), s1) →
        (PostService.CreatePost storage MaxPayloadSize input s).result
          = some (none, some (.app (if e.isErrNoRows
              then { Code := "USER_DOES_NOT_EXIST", Message := "User does not exist",
                     Extensions := [("userID", input.AuthorID)] }
              else InternalServerError)))) ∧
      (∀ (input : NewPost) u s1 p e s2,
        storage.GetUserByID input.AuthorID s = ((u, none), s1) →
        len input.Payload ≤ MaxPayloadSize →
        storage.CreatePost input s1 = ((p, some e), s2) →
        (PostService.CreatePost storage MaxPayloadSize input s).result
          = some (none, some (.app InternalServerError))) ∧
      (∀ id p e s1, storage.GetPostByID id s = ((p, some e), s1) →
        (PostService.GetPostByID storage id s).result
          = some (none, some (.app (if e.isErrNoRows
              then { Code := "POST_DOES_NOT_EXIST", Message := "POST does not exist",
                     Extensions := [("postID", id)] }
              else InternalServerError)))) ∧
      (∀ (input : NewComment) u e s1,
        storage.GetUserByID input.AuthorID s = ((u, some e), s1) →
        (CommentService.CreateComment storage MaxPayloadSize input s).result
          = some (none, some (.app (if e.isErrNoRows
              then { Code := "USER_DOES_NOT_EXIST", Message := "User does not exist",
                     Extensions := [("userID", input.AuthorID)] }
              else InternalServerError)))) ∧
      (∀ (input : NewComment) u s1 p e s2,
        storage.GetUserByID input.AuthorID s = ((u, none), s1) →
        len input.Payload ≤ MaxPayloadSize →
        storage.GetPostByID input.PostID s1 = ((p, some e), s2) →
        (CommentService.CreateComment storage MaxPayloadSize input s).result
          = some (none, some (.app (if e.isErrNoRows
              then { Code := "POST_DOES_NOT_EXIST", Message := "POST does not exist",
                     Extensions := [("postID", input.PostID)] }
              else InternalServerError)))) ∧
      (∀ (input : NewComment) u s1 post s2 c e s3,
        storage.GetUserByID input.AuthorID s = ((u, none), s1) →
        len input.Payload ≤ MaxPayloadSize →
        storage.GetPostByID input.PostID s1 = ((some post, none), s2) →
        post.IsCommentsAllowed = true →
        storage.CreateComment input s2 = ((c, some e), s3) →
        (CommentService.CreateComment storage MaxPayloadSize input s).result
          = some (none, some (.app InternalServerError))) ∧
      (∀ limit offset l e s1,
        storage.GetAllPosts
            (ParseLimitOffset DefaultLimit MaxLimit DefaultOffset limit offset).1
            (ParseLimitOffset DefaultLimit MaxLimit DefaultOffset limit offset).2 s
          = ((l, some e), s1) →
        (PostService.GetAllPosts storage DefaultLimit MaxLimit DefaultOffset limit offset
          s).result = some (none, some (.app InternalServerError))) ∧
      (∀ limit offset postID l e s1,
        storage.GetCommentsByPostID
            (ParseLimitOffset DefaultLimit MaxLimit DefaultOffset limit offset).1
            (ParseLimitOffset DefaultLimit MaxLimit DefaultOffset limit offset).2 postID s
          = ((l, some e), s1) →
        (CommentService.GetCommentsByPostID storage DefaultLimit MaxLimit DefaultOffset limit
          offset postID s).result = some (none, some (.app InternalServerError))) ∧
      (∀ commentID limit offset l e s1,
        storage.Replies commentID
            (ParseLimitOffset DefaultLimit MaxLimit DefaultOffset limit offset).1
            (ParseLimitOffset DefaultLimit MaxLimit DefaultOffset limit offset).2 s
          = ((l, some e), s1) →
        (CommentService.Replies storage DefaultLimit MaxLimit DefaultOffset commentID limit
          offset s).result = some (none, some (.app InternalServerError))) ∧
      (∀ limit offset l s1,
        storage.GetAllPosts
            (ParseLimitOffset DefaultLimit MaxLimit DefaultOffset limit offset).1
            (ParseLimitOffset DefaultLimit MaxLimit DefaultOffset limit offset).2 s
          = ((l, none), s1) →
        (PostService.GetAllPosts storage DefaultLimit MaxLimit DefaultOffset limit offset
          s).result = some (some l, none)) ∧
      (∀ limit offset postID l s1,
        storage.GetCommentsByPostID
            (ParseLimitOffset DefaultLimit MaxLimit DefaultOffset limit offset).1
            (ParseLimitOffset DefaultLimit MaxLimit DefaultOffset limit offset).2 postID s
          = ((l, none), s1) →
        (CommentService.GetCommentsByPostID storage DefaultLimit MaxLimit DefaultOffset limit
          offset postID s).result = some (some l, none)) ∧
      (∀ commentID limit offset l s1,
        storage.Replies commentID
            (ParseLimitOffset DefaultLimit MaxLimit DefaultOffset limit offset).1
            (ParseLimitOffset DefaultLimit MaxLimit DefaultOffset limit offset).2 s
          = ((l, none), s1) →
        (CommentService.Replies storage DefaultLimit MaxLimit DefaultOffset commentID limit
          offset s).result = some (some l, none)) ∧
      (∀ id p s1, storage.GetPostByID id s = ((p, none), s1) →
        (PostService.GetPostByID storage id s).result = some (p, none))) := by
  refine ⟨⟨?_, ?_, ?_, ?_, ?_, ?_⟩, ?_, ?_, ?_, ?_, ?_, ?_, ?_, ?_, ?_, ?_, ?_, ?_, ?_⟩
  · exact fun input r err h => PostService_CreatePost_errors storage _ input s r err h
  · exact fun id r err h => PostService_GetPostByID_errors storage id s r err h
  · intro limit offset r err h
    have := PostService_GetAllPosts_errors storage _ _ _ limit offset s r err h
    exact ⟨this, this ▸ isDomainError_internal⟩
  · exact fun input r err h => CommentService_CreateComment_errors storage _ input s r err h
  · intro limit offset postID r err h
    have := CommentService_GetCommentsByPostID_errors storage _ _ _ limit offset postID s r err h
    exact ⟨this, this ▸ isDomainError_internal⟩
  · intro commentID limit offset r err h
    have := CommentService_Replies_errors storage _ _ _ commentID limit offset s r err h
    exact ⟨this, this ▸ isDomainError_internal⟩
  · intro input u e s1 hu
    cases he : e.isErrNoRows <;> simp [PostService.CreatePost, hu, he, UserDoesNotExistError]
  · intro input u s1 p e s2 hu hlen hc
    simp [PostService.CreatePost, hu, not_lt.2 hlen, hc]
  · intro id p e s1 hp
    cases he : e.isErrNoRows <;> simp [PostService.GetPostByID, hp, he, PostDoesNotExistError]
  · intro input u e s1 hu
    cases he : e.isErrNoRows <;>
      simp [CommentService.CreateComment, hu, he, UserDoesNotExistError]
  · intro input u s1 p e s2 hu hlen hp
    cases he : e.isErrNoRows <;>
      simp [CommentService.CreateComment, hu, not_lt.2 hlen, hp, he, PostDoesNotExistError]
  · intro input u s1 post s2 c e s3 hu hlen hp hallow hc
    simp [CommentService.CreateComment, hu, not_lt.2 hlen, hp, hallow, hc]
  · intro limit offset l e s1 hg
    simp [PostService.GetAllPosts, hg]
  · intro limit offset postID l e s1 hg
    simp [CommentService.GetCommentsByPostID, hg]
  · intro commentID limit offset l e s1 hg
    simp [CommentService.Replies, hg]
  · intro limit offset l s1 hg
    simp [PostService.GetAllPosts, hg]
  · intro limit offset postID l s1 hg
    simp [CommentService.GetCommentsByPostID, hg]
  · intro commentID limit offset l s1 hg
    simp [CommentService.Replies, hg]
  · intro id p s1 hp
    simp [PostService.GetPostByID, hp]

/-- C19 witness: a post lookup that reports the not-found sentinel for id 999 is answered by
`POST_DOES_NOT_EXIST` with `postID = 999`; a lookup failing with "some db error" is answered
by `INTERNAL_SERVER_ERROR`, which is a domain error; a `GetAllPosts` of the storage failing
with "some db error" is answered by no list and `INTERNAL_SERVER_ERROR`. -/
theorem services_return_domain_errors_witness :
    (PostService.GetPostByID sampleStorage 999 ()).result
      = some (none, some (.app
          { Code := "POST_DOES_NOT_EXIST", Message := "POST does not exist",
            Extensions := [("postID", 999)] })) ∧
    (PostService.GetPostByID dbErrorStorage 10 ()).result
      = some (none, some (.app InternalServerError)) ∧
    IsDomainError (.app InternalServerError) ∧
    (PostService.GetAllPosts dbErrorStorage 10 100 0 (some 5) (some 0) ()).result
      = some (none, some (.app InternalServerError)) ∧
    (CommentService.Replies sampleStorage 10 100 0 1 none none ()).result
      = some (some [], none) :=
  ⟨(services_return_domain_errors sampleStorage 4096 10 100 0 ()).2.2.2.1
      999 none GoError.ErrNoRows () rfl,
   (services_return_domain_errors dbErrorStorage 4096 10 100 0 ()).2.2.2.1
      10 none (GoError.other "some db error") () rfl,
   (services_return_domain_errors dbErrorStorage 4096 10 100 0 ()).1.2.1
      10 none (.app InternalServerError) rfl,
   (services_return_domain_errors dbErrorStorage 4096 10 100 0 ()).2.2.2.2.2.2.2.1
      (some 5) (some 0) [] (GoError.other "some db error") () rfl,
   (services_return_domain_errors sampleStorage 4096 10 100 0 ()).2.2.2.2.2.2.2.2.2.2.2.2.1
      1 none none [] () rfl⟩

/-! ## Claims on what `Notify` leaves alone and on reachable registries -/

theorem sendAll_frame (comment : Comment) (chans : List Chan) :
    ∀ s s' : SubscriptionService, SubscriptionService.sendAll comment chans s = some s' →
      s'.commentChannels = s.commentChannels ∧ s'.closed = s.closed ∧ s'.made = s.made := by
  induction chans with
  | nil =>
    intro s s' h
    simp only [SubscriptionService.sendAll, Option.some.injEq] at h
    subst h
    exact ⟨rfl, rfl, rfl⟩
  | cons ch rest ih =>
    intro s s' h
    simp only [SubscriptionService.sendAll, SubscriptionService.send] at h
    split at h
    · exact absurd h (by simp)
    · rename_i s₁ hs
      split at hs
      · exact absurd hs (by simp)
      · simp only [Option.some.injEq] at hs
        subst hs
        exact ih { s with sent := s.sent ++ [(ch, comment)] } s' h

theorem Notify_frame (s : SubscriptionService) (comment : Comment) :
    ∀ r s', s.Notify comment = some (r, s') →
      s'.commentChannels = s.commentChannels ∧ s'.closed = s.closed ∧ s'.made = s.made := by
  intro r s' h
  simp only [SubscriptionService.Notify] at h
  split at h
  · simp only [Option.some.injEq, Prod.mk.injEq] at h
    obtain ⟨-, rfl⟩ := h
    exact ⟨rfl, rfl, rfl⟩
  · rename_i chans hg
    split at h
    · exact absurd h (by simp)
    · rename_i s₁ hs
      simp only [Option.some.injEq, Prod.mk.injEq] at h
      obtain ⟨-, rfl⟩ := h
      exact sendAll_frame comment chans s s₁ hs

/-- C22: `Notify` leaves the subscription registry as it was: whenever it returns, the map
of channel lists is the same (no channel added, removed or reordered in any topic), the set
of closed channels is the same (no channel closed) and no channel was made; and in every
state the service can be in it does return, with no error. -/
theorem Notify_leaves_registry_unchanged (s : SubscriptionService) (comment : Comment) :
    (∀ r s', s.Notify comment = some (r, s') →
      s'.commentChannels = s.commentChannels ∧ s'.closed = s.closed ∧ s'.made = s.made) ∧
    (Reachable s → ∃ s', s.Notify comment = some (none, s') ∧
      s'.commentChannels = s.commentChannels ∧ s'.closed = s.closed ∧ s'.made = s.made) := by
  have hframe := Notify_frame s comment
  refine ⟨hframe, fun hr => ?_⟩
  exact ⟨_, Notify_of_wellFormed s comment hr.wellFormed, rfl, rfl, rfl⟩

/-- C22 witness: notifying the three subscribers leaves the registry and the closed channels
as they were. -/
theorem Notify_leaves_registry_unchanged_witness :
    ∃ s', threeSubscribers.Notify sampleComment = some (none, s') ∧
      s'.commentChannels = threeSubscribers.commentChannels ∧
      s'.closed = threeSubscribers.closed ∧ s'.made = threeSubscribers.made :=
  (Notify_leaves_registry_unchanged threeSubscribers sampleComment).2
    threeSubscribers_reachable

/-! ## Claim on slice bounds -/

theorem page_slices_in_bounds {α : Type} (srt : SliceSorter) (f : α → Time) (items : List α)
    (limit offset : Int) (hl : 0 ≤ limit) (ho : 0 ≤ offset)
    (hlt : offset < (items.length : Int)) : SlicesInBounds srt f items limit offset := by
  have hlen := sort_length srt (fun a b => decide (f a > f b)) items
  refine ⟨(srt.sort (fun a b => decide (f a > f b)) items).drop offset.toNat, ?_⟩
  have hsf : sliceFrom (srt.sort (fun a b => decide (f a > f b)) items) offset
      = some ((srt.sort (fun a b => decide (f a > f b)) items).drop offset.toNat) := by
    simp only [sliceFrom]
    rw [if_pos]
    constructor
    · exact ho
    · rw [hlen]
      omega
  have hdl : ((srt.sort (fun a b => decide (f a > f b)) items).drop offset.toNat).length
      = items.length - offset.toNat := by
    rw [List.length_drop, hlen]
  by_cases hgt : limit >
      (((srt.sort (fun a b => decide (f a > f b)) items).drop offset.toNat).length : Int)
  · refine ⟨(List.drop offset.toNat (srt.sort (fun a b => decide (f a > f b)) items)).take
      (Int.toNat ((List.drop offset.toNat
        (srt.sort (fun a b => decide (f a > f b)) items)).length : Int)), hsf, ?_⟩
    rw [if_pos hgt]
    simp only [sliceTo]
    rw [if_pos]
    constructor <;> omega
  · refine ⟨(List.drop offset.toNat (srt.sort (fun a b => decide (f a > f b)) items)).take
      limit.toNat, hsf, ?_⟩
    rw [if_neg hgt]
    simp only [sliceTo]
    rw [if_pos]
    constructor <;> omega

/-- C29: for `limit ≥ 0` and `offset ≥ 0`, none of `GetAllPosts`, `GetCommentsByPostID` and
`Replies` takes an out-of-range slice: when `offset ≥ total` no slice is taken and the empty
sequence is returned, otherwise both slice expressions are within bounds; in every case the
operation returns a sequence and no error. -/
theorem list_operations_slices_in_bounds (srt : SliceSorter) (st : InMemoryStorage)
    (limit offset postID commentID : Int) (hl : 0 ≤ limit) (ho : 0 ≤ offset) :
    ((∃ l, PostMemoryStorage.GetAllPosts srt st limit offset = some (l, none)) ∧
      (offset < (st.posts.values.length : Int) →
        SlicesInBounds srt Post.CreatedAt st.posts.values limit offset)) ∧
    ((∃ l, CommentMemoryStorage.GetCommentsByPostID srt st limit offset postID
          = some (l, none)) ∧
      (offset < ((topLevelOf st postID).length : Int) →
        SlicesInBounds srt Comment.CreatedAt (topLevelOf st postID) limit offset)) ∧
    ((∃ l, CommentMemoryStorage.Replies srt st commentID limit offset = some (l, none)) ∧
      (offset < ((repliesTo st commentID).length : Int) →
        SlicesInBounds srt Comment.CreatedAt (repliesTo st commentID) limit offset)) := by
  rw [GetAllPosts_eq_page, GetCommentsByPostID_eq_page, Replies_eq_page]
  exact ⟨⟨⟨_, page_of_nonneg srt _ _ limit offset hl ho⟩,
      page_slices_in_bounds srt _ _ limit offset hl ho⟩,
    ⟨⟨_, page_of_nonneg srt _ _ limit offset hl ho⟩,
      page_slices_in_bounds srt _ _ limit offset hl ho⟩,
    ⟨⟨_, page_of_nonneg srt _ _ limit offset hl ho⟩,
      page_slices_in_bounds srt _ _ limit offset hl ho⟩⟩

/-- C29 witness: five posts, limit 2, offset 1: both slices are in bounds and a sequence is
returned. -/
theorem list_operations_slices_in_bounds_witness :
    (∃ l, PostMemoryStorage.GetAllPosts insertionSorter fivePosts 2 1 = some (l, none)) ∧
    SlicesInBounds insertionSorter Post.CreatedAt fivePosts.posts.values 2 1 :=
  ⟨(list_operations_slices_in_bounds insertionSorter fivePosts 2 1 0 0
      (by decide) (by decide)).1.1,
   (list_operations_slices_in_bounds insertionSorter fivePosts 2 1 0 0
      (by decide) (by decide)).1.2 (by decide)⟩

/-! ## Claim on `HandleError` -/

/-- C23: for every error `e`, `HandleError(e)` carries a `"code"` in its extensions. If `e`
is an `AppError` the result has its message, its code and its extensions as `"details"`, and
an error wrapping another is rendered as the wrapped one. For every error in which
`errors.As` finds no `AppError` the result is the fixed message `Unexpected error occurred`
with code `INTERNAL_SERVER_ERROR` and no details, the same for any two such errors. -/
theorem HandleError_structured (e : GoError) :
    (∃ code, ("code", ExtensionValue.text code) ∈ (HandleError (some e)).Extensions) ∧
    (∀ a, e.asAppError = some a →
      HandleError (some e)
        = { Message := a.Message,
            Extensions := [("code", .text a.Code), ("details", .details a.Extensions)] }) ∧
    (∀ a, HandleError (some (.app a))
        = { Message := a.Message,
            Extensions := [("code", .text a.Code), ("details", .details a.Extensions)] }) ∧
    (∀ text, HandleError (some (.wrap text e)) = HandleError (some e)) ∧
    (e.asAppError = none →
      HandleError (some e)
        = { Message := "Unexpected error occurred",
            Extensions := [("code", .text "INTERNAL_SERVER_ERROR")] }) ∧
    (∀ e' : GoError, e.asAppError = none → e'.asAppError = none →
      HandleError (some e) = HandleError (some e')) ∧
    (∀ text, HandleError (some (.other text)) = HandleError (some .ErrNoRows)) := by
  refine ⟨?_, ?_, ?_, ?_, ?_, ?_, ?_⟩
  · cases h : e.asAppError with
    | none => exact ⟨"INTERNAL_SERVER_ERROR", by simp [HandleError, h]⟩
    | some a => exact ⟨a.Code, by simp [HandleError, h]⟩
  · intro a h
    simp [HandleError, h]
  · intro a
    simp [HandleError, GoError.asAppError]
  · intro text
    simp [HandleError, GoError.asAppError]
  · intro h
    simp [HandleError, h]
  · intro e' h h'
    simp [HandleError, h, h']
  · intro text
    simp [HandleError, GoError.asAppError]

/-- C23 witness: a wrapped `COMMENT_TOO_LONG` error keeps its code and details; the raw
error "some error" is rendered as the fixed internal error. -/
theorem HandleError_structured_witness :
    HandleError (some (.wrap "create comment" (.app (CommentTooLongError 4096 5000))))
      = { Message := "Comment exceeds maximum allowed length",
          Extensions := [("code", .text "COMMENT_TOO_LONG"),
                         ("details", .details [("maxLength", 4096),
                                               ("currentLength", 5000)])] } ∧
    HandleError (some (.other "some error"))
      = { Message := "Unexpected error occurred",
          Extensions := [("code", .text "INTERNAL_SERVER_ERROR")] } :=
  ⟨(HandleError_structured
      (.wrap "create comment" (.app (CommentTooLongError 4096 5000)))).2.1
      (CommentTooLongError 4096 5000) rfl,
   (HandleError_structured (.other "some error")).2.2.2.2.1 rfl⟩

/-! ## Claim on the channels of a reachable registry -/

theorem GoMap.mem_keys_set {V : Type} (m : GoMap V) (k : Int) (v : V) (x : Int) :
    x ∈ (GoMap.set m k v).map Prod.fst ↔ x = k ∨ x ∈ m.map Prod.fst := by
  induction m with
  | nil => simp [GoMap.set]
  | cons e rest ih =>
    obtain ⟨k', v'⟩ := e
    by_cases h : k' = k
    · subst h
      simp [GoMap.set]
    · simp only [GoMap.set, h, if_false, List.map_cons, List.mem_cons, ih]
      constructor
      · rintro (h1 | h1 | h1)
        · exact Or.inr (Or.inl h1)
        · exact Or.inl h1
        · exact Or.inr (Or.inr h1)
      · rintro (h1 | h1 | h1)
        · exact Or.inr (Or.inl h1)
        · exact Or.inl h1
        · exact Or.inr (Or.inr h1)

theorem GoMap.KeysNodup_set {V : Type} (m : GoMap V) (k : Int) (v : V)
    (h : GoMap.KeysNodup m) : GoMap.KeysNodup (GoMap.set m k v) := by
  unfold GoMap.KeysNodup at h ⊢
  induction m with
  | nil => simp [GoMap.set]
  | cons e rest ih =>
    obtain ⟨k', v'⟩ := e
    simp only [List.map_cons, List.nodup_cons] at h
    by_cases hk : k' = k
    · subst hk
      simpa [GoMap.set] using h
    · simp only [GoMap.set, hk, if_false, List.map_cons, List.nodup_cons]
      refine ⟨?_, ih h.2⟩
      intro hmem
      rcases (GoMap.mem_keys_set rest k v k').1 hmem with h1 | h1
      · exact hk h1
      · exact h.1 h1

theorem GoMap.KeysNodup_delete {V : Type} (m : GoMap V) (k : Int)
    (h : GoMap.KeysNodup m) : GoMap.KeysNodup (GoMap.delete m k) := by
  unfold GoMap.KeysNodup at h ⊢
  unfold GoMap.delete
  exact h.sublist ((List.filter_sublist m).map Prod.fst)

theorem GoMap.get?_of_mem {V : Type} (m : GoMap V) (k : Int) (v : V)
    (h : GoMap.KeysNodup m) (hmem : (k, v) ∈ m) : GoMap.get? m k = some v := by
  unfold GoMap.KeysNodup at h
  induction m with
  | nil => simp at hmem
  | cons e rest ih =>
    obtain ⟨k', v'⟩ := e
    simp only [List.map_cons, List.nodup_cons] at h
    rcases List.mem_cons.1 hmem with heq | hrest
    · simp only [Prod.mk.injEq] at heq
      obtain ⟨rfl, rfl⟩ := heq
      simp [GoMap.get?]
    · have hne : k' ≠ k := by
        rintro rfl
        exact h.1 (List.mem_map.2 ⟨(k', v), hrest, rfl⟩)
      simp only [GoMap.get?, hne, if_false]
      exact ih h.2 hrest

theorem KeysNodup_DeleteSubscription (s s' : SubscriptionService) (postID : Int) (ch : Chan)
    (r : Option GoError) (h : GoMap.KeysNodup s.commentChannels)
    (hd : s.DeleteSubscription postID ch = some (r, s')) :
    GoMap.KeysNodup s'.commentChannels := by
  unfold SubscriptionService.DeleteSubscription at hd
  split at hd
  · simp only [Option.some.injEq, Prod.mk.injEq] at hd
    obtain ⟨-, rfl⟩ := hd
    exact h
  · simp only at hd
    split at hd
    · split at hd
      · exact absurd hd (by simp)
      · split at hd
        · exact absurd hd (by simp)
        · simp only [Option.some.injEq, Prod.mk.injEq] at hd
          obtain ⟨-, rfl⟩ := hd
          split
          · exact GoMap.KeysNodup_delete _ _
              (GoMap.KeysNodup_set _ _ _ (GoMap.KeysNodup_set _ _ _ h))
          · exact GoMap.KeysNodup_set _ _ _ (GoMap.KeysNodup_set _ _ _ h)
    · simp only [Option.some.injEq, Prod.mk.injEq] at hd
      obtain ⟨-, rfl⟩ := hd
      exact h

theorem Reachable.keysNodup {s : SubscriptionService} (h : Reachable s) :
    GoMap.KeysNodup s.commentChannels := by
  induction h with
  | init => simp [GoMap.KeysNodup, NewSubscriptionService]
  | create s postID _ ih =>
    exact GoMap.KeysNodup_set _ _ _ ih
  | delete s s' postID ch r _ hd ih => exact KeysNodup_DeleteSubscription s s' postID ch r ih hd
  | notify s s' comment r _ hn ih =>
    rw [((Notify_frame s comment) r s' hn).1]
    exact ih

theorem mem_registered (s : SubscriptionService) (h : GoMap.KeysNodup s.commentChannels)
    (ch : Chan) (hch : ch ∈ s.registered) :
    ∃ postID chans, s.commentChannels.get? postID = some chans ∧ ch ∈ chans := by
  simp only [SubscriptionService.registered, GoMap.values, List.mem_flatten, List.mem_map] at hch
  obtain ⟨chans, ⟨⟨k, v⟩, hmem, rfl⟩, hin⟩ := hch
  exact ⟨k, v, GoMap.get?_of_mem _ k v h hmem, hin⟩

theorem registered_nodup (s : SubscriptionService) (wf : WellFormed s)
    (h : GoMap.KeysNodup s.commentChannels) : s.registered.Nodup := by
  unfold SubscriptionService.registered GoMap.values
  rw [List.nodup_flatten]
  constructor
  · intro l hl
    obtain ⟨⟨k, v⟩, hmem, rfl⟩ := List.mem_map.1 hl
    exact (wf.entry k v (GoMap.get?_of_mem _ k v h hmem)).2.1
  · rw [List.pairwise_map]
    have hkeys : List.Pairwise (fun a b : Int × List Chan => a.1 ≠ b.1) s.commentChannels := by
      have := h
      unfold GoMap.KeysNodup List.Nodup at this
      exact List.pairwise_map.1 this
    refine hkeys.imp_of_mem ?_
    intro a b ha hb hne
    obtain ⟨k₁, v₁⟩ := a
    obtain ⟨k₂, v₂⟩ := b
    intro ch h₁ h₂
    exact hne (wf.disjoint k₁ k₂ v₁ v₂ ch (GoMap.get?_of_mem _ k₁ v₁ h ha)
      (GoMap.get?_of_mem _ k₂ v₂ h hb) h₁ h₂)

/-- C30: in every state reached from `NewSubscriptionService` by `CreateSubscription`,
`DeleteSubscription` and `Notify` (nobody else closes a channel), the channels held by the
registry are pairwise distinct across all topics and none of them is closed; hence `Notify`
never sends on a closed channel and `DeleteSubscription` never closes a closed channel: both
return, with no error, for every argument. -/
theorem reachable_channels_distinct_and_open (s : SubscriptionService) (h : Reachable s) :
    s.registered.Nodup ∧
    (∀ ch ∈ s.registered, ch ∉ s.closed) ∧
    (∀ postID chans, s.commentChannels.get? postID = some chans →
      ∀ ch ∈ chans, ch ∈ s.registered) ∧
    (∀ comment, ∃ s', s.Notify comment = some (none, s')) ∧
    (∀ postID ch, ∃ s', s.DeleteSubscription postID ch = some (none, s')) := by
  have wf := h.wellFormed
  have hk := h.keysNodup
  refine ⟨registered_nodup s wf hk, ?_, ?_, ?_, ?_⟩
  · intro ch hch
    obtain ⟨p, chans, hg, hin⟩ := mem_registered s hk ch hch
    exact ((wf.entry p chans hg).2.2 ch hin).2
  · intro p chans hg ch hin
    simp only [SubscriptionService.registered, GoMap.values, List.mem_flatten, List.mem_map]
    have hmem : (p, chans) ∈ s.commentChannels := by
      clear wf hk h
      generalize s.commentChannels = m at hg
      induction m with
      | nil => simp [GoMap.get?] at hg
      | cons e rest ih =>
        obtain ⟨k', v'⟩ := e
        simp only [GoMap.get?] at hg
        split at hg
        · rename_i hkk
          simp only [Option.some.injEq] at hg
          subst hkk hg
          exact List.mem_cons_self _ _
        · exact List.mem_cons_of_mem _ (ih hg)
    exact ⟨chans, ⟨(p, chans), hmem, rfl⟩, hin⟩
  · intro comment
    exact ⟨_, Notify_of_wellFormed s comment wf⟩
  · intro p ch
    by_cases hch : ch ∈ s.chansOf p
    · obtain ⟨chans, hg, hmem⟩ := mem_chansOf s p ch hch
      obtain ⟨last, s', -, hdel, -⟩ := DeleteSubscription_registered s p ch chans wf hg hmem
      exact ⟨s', hdel⟩
    · exact ⟨s, DeleteSubscription_noop s p ch hch⟩

/-- C30 witness: the three registered channels 0, 1 (post 1) and 2 (post 2) are distinct and
open. -/
theorem reachable_channels_distinct_and_open_witness :
    threeSubscribers.registered = [0, 1, 2] ∧ threeSubscribers.registered.Nodup ∧
    (∀ ch ∈ threeSubscribers.registered, ch ∉ threeSubscribers.closed) :=
  ⟨rfl, (reachable_channels_distinct_and_open threeSubscribers threeSubscribers_reachable).1,
   (reachable_channels_distinct_and_open threeSubscribers threeSubscribers_reachable).2.1⟩

/-! ## Claim on the topic entries of a reachable registry -/

theorem ReachableLive.reachable {s : SubscriptionService} {live : Int → List Chan}
    (h : ReachableLive s live) : Reachable s := by
  induction h with
  | init => exact Reachable.init
  | create s live postID _ ih => exact Reachable.create s postID ih
  | delete s s' live postID ch r _ hd ih => exact Reachable.delete s s' postID ch r ih hd
  | notify s s' live comment r _ hn ih => exact Reachable.notify s s' comment r ih hn

theorem Reachable.exists_live {s : SubscriptionService} (h : Reachable s) :
    ∃ live, ReachableLive s live := by
  induction h with
  | init => exact ⟨_, ReachableLive.init⟩
  | create s postID _ ih =>
    obtain ⟨live, hl⟩ := ih
    exact ⟨_, ReachableLive.create s live postID hl⟩
  | delete s s' postID ch r _ hd ih =>
    obtain ⟨live, hl⟩ := ih
    exact ⟨_, ReachableLive.delete s s' live postID ch r hl hd⟩
  | notify s s' comment r _ hn ih =>
    obtain ⟨live, hl⟩ := ih
    exact ⟨_, ReachableLive.notify s s' live comment r hl hn⟩

theorem chansOf_congr (s s' : SubscriptionService) (postID : Int)
    (h : s'.commentChannels.get? postID = s.commentChannels.get? postID) :
    s'.chansOf postID = s.chansOf postID := by
  simp only [SubscriptionService.chansOf, h]

theorem ReachableLive.chansOf_perm {s : SubscriptionService} {live : Int → List Chan}
    (h : ReachableLive s live) : ∀ postID, (s.chansOf postID).Perm (live postID) := by
  induction h with
  | init =>
    intro p
    simp [SubscriptionService.chansOf, NewSubscriptionService, GoMap.get?]
  | create s live p₀ _ ih =>
    intro p
    by_cases hp : p = p₀
    · subst hp
      rw [Function.update_same]
      have : (s.CreateSubscription p).2.chansOf p = s.chansOf p ++ [s.made] := by
        simp only [SubscriptionService.CreateSubscription, SubscriptionService.chansOf,
          GoMap.get?_set_self, Option.getD_some]
      rw [this]
      exact (ih p).append_right _
    · rw [Function.update_noteq hp]
      have : (s.CreateSubscription p₀).2.chansOf p = s.chansOf p :=
        chansOf_congr _ _ p (by
          simp only [SubscriptionService.CreateSubscription, GoMap.get?_set_ne _ _ _ _ hp])
      rw [this]
      exact ih p
  | delete s s' live p₀ ch r hs hd ih =>
    intro p
    have wf := hs.reachable.wellFormed
    by_cases hch : ch ∈ s.chansOf p₀
    · obtain ⟨chans, hg, hmem⟩ := mem_chansOf s p₀ ch hch
      obtain ⟨last, s'', -, hdel, -, -, -, hother, -, -, hperm⟩ :=
        DeleteSubscription_registered s p₀ ch chans wf hg hmem
      rw [hdel] at hd
      simp only [Option.some.injEq, Prod.mk.injEq] at hd
      obtain ⟨-, rfl⟩ := hd
      by_cases hp : p = p₀
      · subst hp
        rw [Function.update_same]
        have h1 := ih p
        rw [chansOf_of_get? s p chans hg] at h1
        exact hperm.trans (h1.erase ch)
      · rw [Function.update_noteq hp, chansOf_congr s s'' p (hother p hp)]
        exact ih p
    · rw [DeleteSubscription_noop s p₀ ch hch] at hd
      simp only [Option.some.injEq, Prod.mk.injEq] at hd
      obtain ⟨-, rfl⟩ := hd
      have hnot : ch ∉ live p₀ := fun hin => hch ((ih p₀).symm.subset hin)
      rw [List.erase_of_not_mem hnot, Function.update_eq_self]
      exact ih p
  | notify s s' live comment r _ hn ih =>
    intro p
    rw [chansOf_congr s s' p (by rw [(Notify_frame s comment r s' hn).1])]
    exact ih p

/-- C21: in every state reached from `NewSubscriptionService` by `CreateSubscription`,
`DeleteSubscription` and `Notify`, `live` being the subscriptions created and not yet
deleted, no topic entry holds an empty channel list; a post id has an entry if and only if
at least one subscription created for it has not yet been deleted (the entry's list is a
rearrangement of those subscriptions); and deleting the only channel left in a topic removes
the topic entry. -/
theorem topic_entry_iff_live_subscription (s : SubscriptionService) (live : Int → List Chan)
    (h : ReachableLive s live) (postID : Int) :
    (∀ chans, s.commentChannels.get? postID = some chans → chans ≠ []) ∧
    ((∃ chans, s.commentChannels.get? postID = some chans) ↔ live postID ≠ []) ∧
    (s.chansOf postID).Perm (live postID) ∧
    (∀ ch, s.commentChannels.get? postID = some [ch] →
      ∃ s', s.DeleteSubscription postID ch = some (none, s') ∧
        s'.commentChannels.get? postID = none) := by
  have wf := h.reachable.wellFormed
  have hperm := h.chansOf_perm postID
  refine ⟨fun chans hg => (wf.entry postID chans hg).1, ?_, hperm, ?_⟩
  · constructor
    · rintro ⟨chans, hg⟩ hnil
      rw [chansOf_of_get? s postID chans hg, hnil] at hperm
      exact (wf.entry postID chans hg).1 (List.Perm.eq_nil hperm)
    · intro hne
      cases hg : s.commentChannels.get? postID with
      | some chans => exact ⟨chans, rfl⟩
      | none =>
        exfalso
        apply hne
        have : s.chansOf postID = [] := by simp [SubscriptionService.chansOf, hg]
        rw [this] at hperm
        exact List.Perm.eq_nil hperm.symm
  · intro ch hg
    obtain ⟨last, s', -, hdel, -, -, -, -, -, hself, hp⟩ :=
      DeleteSubscription_registered s postID ch [ch] wf hg (List.mem_singleton.2 rfl)
    refine ⟨s', hdel, ?_⟩
    cases hg' : s'.commentChannels.get? postID with
    | none => rfl
    | some c =>
      exfalso
      obtain ⟨hc, hne⟩ := hself c hg'
      apply hne
      rw [hc]
      have : ([ch] : List Chan).erase ch = [] := by simp
      rw [this] at hp
      exact List.Perm.eq_nil hp

theorem threeSubscribers_live :
    ∃ live, ReachableLive threeSubscribers live :=
  ⟨_, ReachableLive.create _ _ 2
    (ReachableLive.create _ _ 1 (ReachableLive.create _ _ 1 ReachableLive.init))⟩

/-- C21 witness: post 2 has the single subscription 2; deleting it removes the entry of
post 2. -/
theorem topic_entry_iff_live_subscription_witness :
    ∃ live, ReachableLive threeSubscribers live ∧
      ((∃ chans, threeSubscribers.commentChannels.get? 2 = some chans) ↔ live 2 ≠ []) ∧
      ∃ s', threeSubscribers.DeleteSubscription 2 2 = some (none, s') ∧
        s'.commentChannels.get? 2 = none :=
  threeSubscribers_live.elim fun live hl =>
    ⟨live, hl, (topic_entry_iff_live_subscription threeSubscribers live hl 2).2.1,
      (topic_entry_iff_live_subscription threeSubscribers live hl 2).2.2.2 2 (by decide)⟩

/-! ## The services over the in-memory store, case by case -/

theorem memoryCreatePost_cases (srt : SliceSorter) (MaxPayloadSize : Int) (now : Time)
    (input : NewPost) (st : InMemoryStorage) :
    (st.users.get? input.AuthorID = none ∧
      (memoryCreatePost srt MaxPayloadSize now input st).state = st ∧
      (memoryCreatePost srt MaxPayloadSize now input st).result
        = some (none, some (.app (UserDoesNotExistError input.AuthorID)))) ∨
    ((∃ author, st.users.get? input.AuthorID = some author) ∧
      len input.Payload > MaxPayloadSize ∧
      (memoryCreatePost srt MaxPayloadSize now input st).state = st ∧
      (memoryCreatePost srt MaxPayloadSize now input st).result
        = some (none, some (.app (CommentTooLongError MaxPayloadSize (len input.Payload))))) ∨
    (∃ author, st.users.get? input.AuthorID = some author ∧
      len input.Payload ≤ MaxPayloadSize ∧
      (memoryCreatePost srt MaxPayloadSize now input st).result
        = some (some { ID := st.nextPostID, Title := input.Title, Payload := input.Payload,
                       Author := some author, IsCommentsAllowed := input.IsCommentsAllowed,
                       CreatedAt := now }, none) ∧
      (memoryCreatePost srt MaxPayloadSize now input st).state
        = { st with
            nextPostID := wrapInt64 (st.nextPostID + 1)
            posts := (st.posts.set st.nextPostID
                { ID := st.nextPostID, Title := input.Title, Payload := input.Payload,
                  Author := some author, IsCommentsAllowed := input.IsCommentsAllowed,
                  CreatedAt := now }).set st.nextPostID
                { ID := st.nextPostID, Title := input.Title, Payload := input.Payload,
                  Author := some author, IsCommentsAllowed := input.IsCommentsAllowed,
                  CreatedAt := now } }) := by
  cases hu : st.users.get? input.AuthorID with
  | none =>
    left
    simp [memoryCreatePost, PostService.CreatePost, memoryStorage,
      UserMemoryStorage.GetUserByID, hu, GoError.isErrNoRows]
  | some author =>
    right
    by_cases hlen : len input.Payload > MaxPayloadSize
    · left
      simp [memoryCreatePost, PostService.CreatePost, memoryStorage,
        UserMemoryStorage.GetUserByID, hu, hlen]
    · right
      refine ⟨author, rfl, not_lt.1 hlen, ?_, ?_⟩ <;>
        simp [memoryCreatePost, PostService.CreatePost, memoryStorage,
          UserMemoryStorage.GetUserByID, PostMemoryStorage.CreatePost, hu, hlen]

theorem memoryCreateComment_state (srt : SliceSorter) (MaxPayloadSize : Int) (now : Time)
    (input : NewComment) (st : InMemoryStorage) :
    (memoryCreateComment srt MaxPayloadSize now input st).state = st ∨
    ∃ author post, st.users.get? input.AuthorID = some author ∧
      st.posts.get? input.PostID = some post ∧ post.IsCommentsAllowed = true ∧
      (memoryCreateComment srt MaxPayloadSize now input st).state
        = { st with
            nextCommentID := wrapInt64 (st.nextCommentID + 1)
            comments := (st.comments.set st.nextCommentID
                { ID := st.nextCommentID, Payload := input.Payload, PostID := input.PostID,
                  Author := none, ReplyTo := input.ReplyTo, CreatedAt := now }).set
                st.nextCommentID
                { ID := st.nextCommentID, Payload := input.Payload, PostID := input.PostID,
                  Author := some author, ReplyTo := input.ReplyTo, CreatedAt := now } } := by
  cases hu : st.users.get? input.AuthorID with
  | none =>
    left
    simp [memoryCreateComment, CommentService.CreateComment, memoryStorage,
      UserMemoryStorage.GetUserByID, hu, GoError.isErrNoRows]
  | some author =>
    by_cases hlen : len input.Payload > MaxPayloadSize
    · left
      simp [memoryCreateComment, CommentService.CreateComment, memoryStorage,
        UserMemoryStorage.GetUserByID, hu, hlen]
    · cases hp : st.posts.get? input.PostID with
      | none =>
        left
        simp [memoryCreateComment, CommentService.CreateComment, memoryStorage,
          UserMemoryStorage.GetUserByID, PostMemoryStorage.GetPostByID, hu, hlen, hp,
          GoError.isErrNoRows]
      | some post =>
        cases ha : post.IsCommentsAllowed with
        | false =>
          left
          simp [memoryCreateComment, CommentService.CreateComment, memoryStorage,
            UserMemoryStorage.GetUserByID, PostMemoryStorage.GetPostByID, hu, hlen, hp, ha]
        | true =>
          right
          refine ⟨author, post, rfl, rfl, ha, ?_⟩
          simp [memoryCreateComment, CommentService.CreateComment, memoryStorage,
            UserMemoryStorage.GetUserByID, PostMemoryStorage.GetPostByID,
            CommentMemoryStorage.CreateComment, hu, hlen, hp, ha]

theorem IdsIssued_init : IdsIssued NewInMemoryStorage := by
  refine ⟨by decide, by decide, ?_, ?_⟩ <;> intro k x hk <;>
    simp [NewInMemoryStorage, GoMap.get?] at hk

theorem IdsIssued_memoryCreatePost (srt : SliceSorter) (MaxPayloadSize : Int) (now : Time)
    (input : NewPost) (st : InMemoryStorage) (h : IdsIssued st)
    (hw : st.nextPostID < 2 ^ 63 - 1) :
    IdsIssued (memoryCreatePost srt MaxPayloadSize now input st).state := by
  rcases memoryCreatePost_cases srt MaxPayloadSize now input st with
    ⟨_, hs, _⟩ | ⟨_, _, hs, _⟩ | ⟨author, _, _, _, hs⟩
  · rw [hs]; exact h
  · rw [hs]; exact h
  · rw [hs]
    have hn := h.nextPost
    have hwrap : wrapInt64 (st.nextPostID + 1) = st.nextPostID + 1 :=
      wrapInt64_of_inRange _ (by omega) (by omega)
    refine ⟨?_, h.nextComment, ?_, h.comments⟩
    · show 1 ≤ wrapInt64 (st.nextPostID + 1)
      rw [hwrap]; omega
    · intro k p hk
      show k < wrapInt64 (st.nextPostID + 1) ∧ p.ID = k
      rw [hwrap]
      dsimp only at hk
      by_cases hkey : k = st.nextPostID
      · subst hkey
        rw [GoMap.get?_set_self] at hk
        injection hk with hk
        subst hk
        exact ⟨by omega, rfl⟩
      · rw [GoMap.get?_set_ne _ _ _ _ hkey, GoMap.get?_set_ne _ _ _ _ hkey] at hk
        have hlt := h.posts k p hk
        exact ⟨by omega, hlt.2⟩

theorem IdsIssued_memoryCreateComment (srt : SliceSorter) (MaxPayloadSize : Int) (now : Time)
    (input : NewComment) (st : InMemoryStorage) (h : IdsIssued st)
    (hw : st.nextCommentID < 2 ^ 63 - 1) :
    IdsIssued (memoryCreateComment srt MaxPayloadSize now input st).state := by
  rcases memoryCreateComment_state srt MaxPayloadSize now input st with
    hs | ⟨author, post, _, _, _, hs⟩
  · rw [hs]; exact h
  · rw [hs]
    have hn := h.nextComment
    have hwrap : wrapInt64 (st.nextCommentID + 1) = st.nextCommentID + 1 :=
      wrapInt64_of_inRange _ (by omega) (by omega)
    refine ⟨h.nextPost, ?_, h.posts, ?_⟩
    · show 1 ≤ wrapInt64 (st.nextCommentID + 1)
      rw [hwrap]; omega
    · intro k c hk
      show k < wrapInt64 (st.nextCommentID + 1) ∧ c.ID = k
      rw [hwrap]
      dsimp only at hk
      by_cases hkey : k = st.nextCommentID
      · subst hkey
        rw [GoMap.get?_set_self] at hk
        injection hk with hk
        subst hk
        exact ⟨by omega, rfl⟩
      · rw [GoMap.get?_set_ne _ _ _ _ hkey, GoMap.get?_set_ne _ _ _ _ hkey] at hk
        have hlt := h.comments k c hk
        exact ⟨by omega, hlt.2⟩

theorem ServiceReachable.idsIssued {srt : SliceSorter} {MaxPayloadSize : Int}
    {admits : InMemoryStorage → NewComment → Prop} {st : InMemoryStorage}
    (h : ServiceReachable srt MaxPayloadSize admits st) : IdsIssued st := by
  induction h with
  | init => exact IdsIssued_init
  | createPost now input st _ hw ih =>
    exact IdsIssued_memoryCreatePost srt MaxPayloadSize now input st ih hw
  | createComment now input st _ hw _ ih =>
    exact IdsIssued_memoryCreateComment srt MaxPayloadSize now input st ih hw

/-! ## Claims on the services over the in-memory store -/

/-- C26: over the in-memory store, whenever the author lookup of `PostService.CreatePost`
succeeds the store's `CreatePost` succeeds in the same state, the service calls the store's
`CreatePost` only in such a state, and it returns success, USER_DOES_NOT_EXIST or
COMMENT_TOO_LONG, never INTERNAL_SERVER_ERROR. -/
theorem PostService_CreatePost_over_memory_store (srt : SliceSorter) (MaxPayloadSize : Int)
    (now : Time) (input : NewPost) (st : InMemoryStorage) :
    (∀ author, UserMemoryStorage.GetUserByID input.AuthorID st = (some author, none) →
      ∃ post, (PostMemoryStorage.CreatePost now input st).1 = (some post, none)) ∧
    (StorageCall.CreatePost input
        ∈ (PostService.CreatePost (memoryStorage srt now) MaxPayloadSize input st).calls →
      ∃ post, (PostMemoryStorage.CreatePost now input st).1 = (some post, none)) ∧
    ((∃ post, (PostService.CreatePost (memoryStorage srt now) MaxPayloadSize input st).result
        = some (some post, none)) ∨
     (PostService.CreatePost (memoryStorage srt now) MaxPayloadSize input st).result
        = some (none, some (.app (UserDoesNotExistError input.AuthorID))) ∨
     (PostService.CreatePost (memoryStorage srt now) MaxPayloadSize input st).result
        = some (none, some (.app (CommentTooLongError MaxPayloadSize (len input.Payload))))) ∧
    (∀ r e, (PostService.CreatePost (memoryStorage srt now) MaxPayloadSize input st).result
        = some (r, some (.app e)) → e.Code ≠ "INTERNAL_SERVER_ERROR") := by
  cases hu : st.users.get? input.AuthorID with
  | none =>
    refine ⟨?_, ?_, ?_, ?_⟩
    · intro author h
      simp [UserMemoryStorage.GetUserByID, hu] at h
    · intro h
      simp [PostService.CreatePost, memoryStorage, UserMemoryStorage.GetUserByID, hu,
        GoError.isErrNoRows] at h
    · right; left
      simp [PostService.CreatePost, memoryStorage, UserMemoryStorage.GetUserByID, hu,
        GoError.isErrNoRows]
    · intro r e h
      simp [PostService.CreatePost, memoryStorage, UserMemoryStorage.GetUserByID, hu,
        GoError.isErrNoRows] at h
      rw [← h.2]
      simp [UserDoesNotExistError]
  | some author =>
    have hstore : ∃ post, (PostMemoryStorage.CreatePost now input st).1 = (some post, none) := by
      simp [PostMemoryStorage.CreatePost, hu]
    refine ⟨fun _ _ => hstore, fun _ => hstore, ?_, ?_⟩
    · by_cases hlen : len input.Payload > MaxPayloadSize
      · right; right
        simp [PostService.CreatePost, memoryStorage, UserMemoryStorage.GetUserByID, hu, hlen]
      · left
        simp [PostService.CreatePost, memoryStorage, UserMemoryStorage.GetUserByID,
          PostMemoryStorage.CreatePost, hu, hlen]
    · intro r e h
      by_cases hlen : len input.Payload > MaxPayloadSize
      · simp [PostService.CreatePost, memoryStorage, UserMemoryStorage.GetUserByID, hu,
          hlen] at h
        rw [← h.2]
        simp [CommentTooLongError]
      · simp [PostService.CreatePost, memoryStorage, UserMemoryStorage.GetUserByID,
          PostMemoryStorage.CreatePost, hu, hlen] at h

/-- C26 witness: on a fresh store the lookup of user 1 succeeds, so the store's `CreatePost`
succeeds and the service returns the created post. -/
theorem PostService_CreatePost_over_memory_store_witness :
    (∃ post, (PostMemoryStorage.CreatePost 10 alicePost NewInMemoryStorage).1
      = (some post, none)) ∧
    (PostService.CreatePost (memoryStorage insertionSorter 10) 2000 alicePost
      NewInMemoryStorage).result = some (some firstPost, none) :=
  ⟨(PostService_CreatePost_over_memory_store insertionSorter 2000 10 alicePost
      NewInMemoryStorage).1 { ID := 1, Username := "Alice" } (by decide),
   by decide⟩

/-- C24: in every store state reached from `NewInMemoryStorage` by `PostService.CreatePost`
and `CommentService.CreateComment` (whatever the inputs, id counters not wrapped), every
stored comment's `PostID` names a stored post whose `IsCommentsAllowed` is true. -/
theorem stored_comments_name_open_posts (srt : SliceSorter) (MaxPayloadSize : Int)
    (admits : InMemoryStorage → NewComment → Prop) (st : InMemoryStorage)
    (h : ServiceReachable srt MaxPayloadSize admits st) :
    ∀ k c, st.comments.get? k = some c →
      ∃ p, st.posts.get? c.PostID = some p ∧ p.IsCommentsAllowed = true := by
  induction h with
  | init =>
    intro k c hk
    simp [NewInMemoryStorage, GoMap.get?] at hk
  | createPost now input st hst hw ih =>
    have ids := hst.idsIssued
    rcases memoryCreatePost_cases srt MaxPayloadSize now input st with
      ⟨_, hs, _⟩ | ⟨_, _, hs, _⟩ | ⟨author, _, _, _, hs⟩
    · rw [hs]; exact ih
    · rw [hs]; exact ih
    · rw [hs]
      intro k c hk
      obtain ⟨p, hp, ha⟩ := ih k c hk
      have hne : c.PostID ≠ st.nextPostID := by
        have := (ids.posts _ _ hp).1
        omega
      refine ⟨p, ?_, ha⟩
      show GoMap.get? (GoMap.set (GoMap.set st.posts st.nextPostID _) st.nextPostID _)
        c.PostID = some p
      rw [GoMap.get?_set_ne _ _ _ _ hne, GoMap.get?_set_ne _ _ _ _ hne]
      exact hp
  | createComment now input st hst hw _ ih =>
    rcases memoryCreateComment_state srt MaxPayloadSize now input st with
      hs | ⟨author, post, _, hpost, hallowed, hs⟩
    · rw [hs]; exact ih
    · rw [hs]
      intro k c hk
      dsimp only at hk ⊢
      by_cases hkey : k = st.nextCommentID
      · subst hkey
        rw [GoMap.get?_set_self] at hk
        injection hk with hk
        subst hk
        exact ⟨post, hpost, hallowed⟩
      · rw [GoMap.get?_set_ne _ _ _ _ hkey, GoMap.get?_set_ne _ _ _ _ hkey] at hk
        exact ih k c hk

/-- C24 witness: the store after one post and two comments made through the services. -/
theorem stored_comments_name_open_posts_witness :
    ServiceReachable insertionSorter 2000 (fun _ _ => True) storeWithReply ∧
    (∃ c, storeWithReply.comments.get? 2 = some c) ∧
    ∀ k c, storeWithReply.comments.get? k = some c →
      ∃ p, storeWithReply.posts.get? c.PostID = some p ∧ p.IsCommentsAllowed = true :=
  have hr : ServiceReachable insertionSorter 2000 (fun _ _ => True) storeWithReply :=
    ServiceReachable.createComment 30 replyToFirst _
      (ServiceReachable.createComment 20 topComment _
        (ServiceReachable.createPost 10 alicePost _ ServiceReachable.init (by decide))
        (by decide) trivial)
      (by decide) trivial
  ⟨hr, Option.isSome_iff_exists.1 (by decide),
   stored_comments_name_open_posts insertionSorter 2000 (fun _ _ => True) storeWithReply hr⟩

theorem StoreReachableNoWrap.postsBelow {st : InMemoryStorage} (h : StoreReachableNoWrap st) :
    1 ≤ st.nextPostID ∧ ∀ k p, st.posts.get? k = some p → k < st.nextPostID := by
  induction h with
  | init =>
    refine ⟨by decide, ?_⟩
    intro k p hk
    simp [NewInMemoryStorage, GoMap.get?] at hk
  | createPost now input st _ hw ih =>
    obtain ⟨hn, hb⟩ := ih
    have hwrap : wrapInt64 (st.nextPostID + 1) = st.nextPostID + 1 :=
      wrapInt64_of_inRange _ (by omega) (by omega)
    cases hu : st.users.get? input.AuthorID with
    | none =>
      simp only [PostMemoryStorage.CreatePost, hu, hwrap]
      refine ⟨by omega, ?_⟩
      intro k p hk
      have := hb k p hk
      omega
    | some author =>
      simp only [PostMemoryStorage.CreatePost, hu, hwrap]
      refine ⟨by omega, ?_⟩
      intro k p hk
      by_cases hkey : k = st.nextPostID
      · omega
      · rw [GoMap.get?_set_ne _ _ _ _ hkey] at hk
        have := hb k p hk
        omega
  | createComment now input st _ ih => exact ih

/-- C27: in every store state reached from `NewInMemoryStorage` by the store's `CreatePost`
and `CreateComment` (post id counter not wrapped), a post stored under an id is still stored
under that id, unchanged, after `CreatePost` (whose new id was free), `CreateComment`,
`GetPostByID`, `GetAllPosts`, `GetCommentsByPostID` and `Replies`. -/
theorem stored_posts_append_only (srt : SliceSorter) (st : InMemoryStorage)
    (h : StoreReachableNoWrap st) (k : Int) (p : Post) (hk : st.posts.get? k = some p) :
    st.posts.get? st.nextPostID = none ∧
    (∀ now input, (PostMemoryStorage.CreatePost now input st).2.posts.get? k = some p) ∧
    (∀ now input, (CommentMemoryStorage.CreateComment now input st).2.posts.get? k = some p) ∧
    (∀ now id, ((memoryStorage srt now).GetPostByID id st).2.posts.get? k = some p) ∧
    (∀ now limit offset,
      ((memoryStorage srt now).GetAllPosts limit offset st).2.posts.get? k = some p) ∧
    (∀ now limit offset postID,
      ((memoryStorage srt now).GetCommentsByPostID limit offset postID st).2.posts.get? k
        = some p) ∧
    (∀ now commentID limit offset,
      ((memoryStorage srt now).Replies commentID limit offset st).2.posts.get? k = some p) := by
  obtain ⟨_, hb⟩ := h.postsBelow
  refine ⟨?_, ?_, fun _ _ => hk, fun _ _ => hk, fun _ _ _ => hk, fun _ _ _ _ => hk,
    fun _ _ _ _ => hk⟩
  · cases hn : st.posts.get? st.nextPostID with
    | none => rfl
    | some q =>
      have := hb _ _ hn
      omega
  · intro now input
    have hne : k ≠ st.nextPostID := by
      have := hb k p hk
      omega
    cases hu : st.users.get? input.AuthorID with
    | none =>
      simp only [PostMemoryStorage.CreatePost, hu]
      exact hk
    | some author =>
      simp only [PostMemoryStorage.CreatePost, hu]
      rw [GoMap.get?_set_ne _ _ _ _ hne]
      exact hk

/-- C27 witness: the post stored in `storeWithOnePost` survives every operation. -/
theorem stored_posts_append_only_witness :
    StoreReachableNoWrap storeWithOnePost ∧ storeWithOnePost.posts.get? 1 = some firstPost ∧
    (PostMemoryStorage.CreatePost 11 alicePost storeWithOnePost).2.posts.get? 1
      = some firstPost ∧
    (CommentMemoryStorage.CreateComment 12 topComment storeWithOnePost).2.posts.get? 1
      = some firstPost :=
  have hr : StoreReachableNoWrap storeWithOnePost :=
    StoreReachableNoWrap.createPost 10 alicePost _ StoreReachableNoWrap.init (by decide)
  have hw := stored_posts_append_only insertionSorter storeWithOnePost hr 1 firstPost
    (by decide)
  ⟨hr, by decide, hw.2.1 11 alicePost, hw.2.2.1 12 topComment⟩

/-- C28 (as stated, fails): after `PostService.CreatePost` of `alicePost` and
`CommentService.CreateComment` of `danglingReply` on a fresh store, comment 1 is stored with
reply-to 999 although no comment 999 is stored; no step of the service or of the store looks
at the reply-to of a new comment. -/
theorem reply_to_is_not_validated :
    ServiceReachable insertionSorter 2000 (fun _ _ => True) storeWithDanglingReply ∧
    (∃ c, storeWithDanglingReply.comments.get? 1 = some c ∧ c.ReplyTo = some 999) ∧
    storeWithDanglingReply.comments.get? 999 = none ∧
    (∀ c ∈ storeWithDanglingReply.comments.values, c.ID ≠ 999) :=
  ⟨ServiceReachable.createComment 20 danglingReply _
      (ServiceReachable.createPost 10 alicePost _ ServiceReachable.init (by decide))
      (by decide) trivial,
   by decide, by decide, by decide⟩

/-- C28 (amended): when every `CommentService.CreateComment` call carries a reply-to that is
absent or names a comment stored at that moment, then in every store state reached from
`NewInMemoryStorage` by `PostService.CreatePost` and `CommentService.CreateComment` (id
counters not wrapped) the reply-to of a stored comment names another stored comment. -/
theorem replies_name_stored_comments (srt : SliceSorter) (MaxPayloadSize : Int)
    (st : InMemoryStorage) (h : ServiceReachable srt MaxPayloadSize ReplyToStored st) :
    ∀ k c r, st.comments.get? k = some c → c.ReplyTo = some r →
      r ≠ c.ID ∧ ∃ c', st.comments.get? r = some c' ∧ c'.ID = r := by
  induction h with
  | init =>
    intro k c r hk
    simp [NewInMemoryStorage, GoMap.get?] at hk
  | createPost now input st hst hw ih =>
    rcases memoryCreatePost_cases srt MaxPayloadSize now input st with
      ⟨_, hs, _⟩ | ⟨_, _, hs, _⟩ | ⟨author, _, _, _, hs⟩
    · rw [hs]; exact ih
    · rw [hs]; exact ih
    · rw [hs]; exact ih
  | createComment now input st hst hw hadm ih =>
    have ids := hst.idsIssued
    rcases memoryCreateComment_state srt MaxPayloadSize now input st with
      hs | ⟨author, post, _, _, _, hs⟩
    · rw [hs]; exact ih
    · rw [hs]
      intro k c r hk hr
      dsimp only at hk ⊢
      have hold : ∀ c', st.comments.get? r = some c' →
          ∃ c'', GoMap.get? (GoMap.set (GoMap.set st.comments st.nextCommentID
              { ID := st.nextCommentID, Payload := input.Payload, PostID := input.PostID,
                Author := none, ReplyTo := input.ReplyTo, CreatedAt := now })
              st.nextCommentID
              { ID := st.nextCommentID, Payload := input.Payload, PostID := input.PostID,
                Author := some author, ReplyTo := input.ReplyTo, CreatedAt := now }) r
            = some c'' ∧ c''.ID = r := by
        intro c' hc'
        have hlt := ids.comments r c' hc'
        have hne : r ≠ st.nextCommentID := by omega
        rw [GoMap.get?_set_ne _ _ _ _ hne, GoMap.get?_set_ne _ _ _ _ hne]
        exact ⟨c', hc', hlt.2⟩
      by_cases hkey : k = st.nextCommentID
      · subst hkey
        rw [GoMap.get?_set_self] at hk
        injection hk with hk
        subst hk
        obtain ⟨c', hc'⟩ := hadm r hr
        have hlt := ids.comments r c' hc'
        exact ⟨by show r ≠ st.nextCommentID; omega, hold c' hc'⟩
      · rw [GoMap.get?_set_ne _ _ _ _ hkey, GoMap.get?_set_ne _ _ _ _ hkey] at hk
        obtain ⟨hne, c', hc', _⟩ := ih k c r hk hr
        exact ⟨hne, hold c' hc'⟩

/-- C28 (amended) witness: in `storeWithReply` comment 2 replies to the stored comment 1. -/
theorem replies_name_stored_comments_witness :
    ServiceReachable insertionSorter 2000 ReplyToStored storeWithReply ∧
    (∃ c, storeWithReply.comments.get? 2 = some c ∧ c.ReplyTo = some 1) ∧
    ∀ k c r, storeWithReply.comments.get? k = some c → c.ReplyTo = some r →
      r ≠ c.ID ∧ ∃ c', storeWithReply.comments.get? r = some c' ∧ c'.ID = r :=
  have hr : ServiceReachable insertionSorter 2000 ReplyToStored storeWithReply :=
    ServiceReachable.createComment 30 replyToFirst _
      (ServiceReachable.createComment 20 topComment _
        (ServiceReachable.createPost 10 alicePost _ ServiceReachable.init (by decide))
        (by decide) (fun r hr => by simp [topComment] at hr))
      (by decide)
      (fun r hr => by
        have h1 : r = 1 := by simp [replyToFirst] at hr; exact hr.symm
        subst h1
        exact Option.isSome_iff_exists.1 (by decide))
  ⟨hr, by decide, replies_name_stored_comments insertionSorter 2000 storeWithReply hr⟩

/-! ## Claim on gap-free post identifiers -/

theorem CreatePost_counter (now : Time) (input : NewPost) (st : InMemoryStorage)
    (h1 : -2 ^ 63 ≤ st.nextPostID) (h2 : st.nextPostID + 1 < 2 ^ 63) :
    (PostMemoryStorage.CreatePost now input st).2.nextPostID = st.nextPostID + 1 ∧
    (PostMemoryStorage.CreatePost now input st).2.users = st.users ∧
    (∀ p e, (PostMemoryStorage.CreatePost now input st).1 = (some p, e) →
      p.ID = st.nextPostID) ∧
    (∀ u, st.users.get? input.AuthorID = some u →
      ∃ p, (PostMemoryStorage.CreatePost now input st).1 = (some p, none) ∧
        p.ID = st.nextPostID) := by
  have hw : wrapInt64 (st.nextPostID + 1) = st.nextPostID + 1 :=
    wrapInt64_of_inRange _ (by omega) (by omega)
  cases hu : st.users.get? input.AuthorID with
  | none => simp [PostMemoryStorage.CreatePost, hu, hw]
  | some author => simp [PostMemoryStorage.CreatePost, hu, hw]

theorem range_map_shift (a : Int) (n : Nat) :
    (List.range (n + 1)).map (fun i : Nat => a + (i : Int))
      = a :: (List.range n).map (fun i : Nat => a + 1 + (i : Int)) := by
  rw [List.range_succ_eq_map, List.map_cons, List.map_map]
  simp only [Nat.cast_zero, add_zero, List.cons.injEq, true_and]
  apply List.map_congr_left
  intro i _
  simp only [Function.comp, Nat.succ_eq_add_one, Nat.cast_add, Nat.cast_one]
  omega

theorem runCreates_post_position (pre : List CreateCall) :
    ∀ (st : InMemoryStorage) (now : Time) (input : NewPost) (rest : List CreateCall)
      (p : Post) (e : Option GoError),
      -2 ^ 63 ≤ st.nextPostID → st.nextPostID + (pre.length : Int) + 1 < 2 ^ 63 →
      (runCreates st (pre ++ .post now input :: rest))[pre.length]?
        = some (.post (some p, e)) →
      p.ID = st.nextPostID + (postCalls pre : Int) := by
  induction pre with
  | nil =>
    intro st now input rest p e h1 h2 h
    simp only [List.nil_append, runCreates, List.length_nil, List.getElem?_cons_zero,
      Option.some.injEq, CreateReply.post.injEq] at h
    simp only [List.length_nil, Nat.cast_zero, add_zero] at h2
    have := (CreatePost_counter now input st h1 h2).2.2.1 p e h
    simp [postCalls, this]
  | cons c pre ih =>
    intro st now input rest p e h1 h2 h
    simp only [List.length_cons, Nat.cast_add, Nat.cast_one] at h2
    cases c with
    | post now' input' =>
      simp only [List.cons_append, runCreates, List.length_cons,
        List.getElem?_cons_succ] at h
      obtain ⟨hn, -, -, -⟩ := CreatePost_counter now' input' st h1 (by omega)
      have := ih _ now input rest p e (by rw [hn]; omega) (by rw [hn]; omega) h
      rw [hn] at this
      simp only [postCalls, List.countP_cons, if_true, Nat.cast_add, Nat.cast_one] at this ⊢
      omega
    | comment now' input' =>
      simp only [List.cons_append, runCreates, List.length_cons,
        List.getElem?_cons_succ] at h
      have := ih _ now input rest p e
        (by simpa [CommentMemoryStorage.CreateComment] using h1)
        (by simp only [CommentMemoryStorage.CreateComment]; omega) h
      simp only [CommentMemoryStorage.CreateComment] at this
      simp only [postCalls, List.countP_cons] at this ⊢
      simpa using this

theorem issuedPostIDs_gap_free (calls : List CreateCall) :
    ∀ st : InMemoryStorage, -2 ^ 63 ≤ st.nextPostID →
      st.nextPostID + (calls.length : Int) < 2 ^ 63 →
      (∀ now input, CreateCall.post now input ∈ calls →
        ∃ u, st.users.get? input.AuthorID = some u) →
      issuedPostIDs (runCreates st calls)
        = (List.range (postCalls calls)).map (fun i : Nat => st.nextPostID + (i : Int)) := by
  induction calls with
  | nil => intro st _ _ _; simp [runCreates, issuedPostIDs, postCalls]
  | cons c rest ih =>
    intro st h1 h2 hau
    simp only [List.length_cons, Nat.cast_add, Nat.cast_one] at h2
    cases c with
    | post now input =>
      obtain ⟨u, hu⟩ := hau now input (List.mem_cons_self _ _)
      obtain ⟨hn, hus, -, hok⟩ := CreatePost_counter now input st h1 (by omega)
      obtain ⟨p, hp, hid⟩ := hok u hu
      have hrest := ih (PostMemoryStorage.CreatePost now input st).2
        (by rw [hn]; omega) (by rw [hn]; omega)
        (by
          intro now' input' hmem
          rw [hus]
          exact hau now' input' (List.mem_cons_of_mem _ hmem))
      rw [hn] at hrest
      have hcount : postCalls (CreateCall.post now input :: rest) = postCalls rest + 1 := by
        simp [postCalls]
      rw [hcount, range_map_shift, ← hrest]
      simp only [runCreates, issuedPostIDs, List.filterMap_cons, hp, hid]
    | comment now input =>
      have hrest := ih (CommentMemoryStorage.CreateComment now input st).2
        (by simpa [CommentMemoryStorage.CreateComment] using h1)
        (by simp only [CommentMemoryStorage.CreateComment]; omega)
        (by
          intro now' input' hmem
          simpa [CommentMemoryStorage.CreateComment] using
            hau now' input' (List.mem_cons_of_mem _ hmem))
      have hcount : postCalls (CreateCall.comment now input :: rest) = postCalls rest := by
        simp [postCalls]
      rw [hcount]
      simpa [runCreates, issuedPostIDs, CommentMemoryStorage.CreateComment] using hrest

theorem servicePostIDs_gap_free (srt : SliceSorter) (MaxPayloadSize : Int)
    (calls : List CreateCall) :
    ∀ st : InMemoryStorage, -2 ^ 63 ≤ st.nextPostID →
      st.nextPostID + (calls.length : Int) < 2 ^ 63 →
      servicePostIDs srt MaxPayloadSize st calls
        = (List.range (calls.countP (CreateCall.passesPostChecks MaxPayloadSize st.users))).map
            (fun i : Nat => st.nextPostID + (i : Int)) := by
  induction calls with
  | nil => intro st _ _; simp [servicePostIDs]
  | cons c rest ih =>
    intro st h1 h2
    simp only [List.length_cons, Nat.cast_add, Nat.cast_one] at h2
    cases c with
    | post now input =>
      rcases memoryCreatePost_cases srt MaxPayloadSize now input st with
        ⟨hu, hs, hres⟩ | ⟨⟨author, hu⟩, hlen, hs, hres⟩ | ⟨author, hu, hlen, hres, hs⟩
      · have hrest := ih st h1 (by omega)
        have hpass : CreateCall.passesPostChecks MaxPayloadSize st.users
            (CreateCall.post now input) = false := by
          simp [CreateCall.passesPostChecks, hu]
        simp only [servicePostIDs, hres, hs, List.countP_cons, hpass]
        simpa using hrest
      · have hrest := ih st h1 (by omega)
        have hpass : CreateCall.passesPostChecks MaxPayloadSize st.users
            (CreateCall.post now input) = false := by
          simp [CreateCall.passesPostChecks, hu, hlen]
        simp only [servicePostIDs, hres, hs, List.countP_cons, hpass]
        simpa using hrest
      · have hw : wrapInt64 (st.nextPostID + 1) = st.nextPostID + 1 :=
          wrapInt64_of_inRange _ (by omega) (by omega)
        have hn : (memoryCreatePost srt MaxPayloadSize now input st).state.nextPostID
            = st.nextPostID + 1 := by rw [hs]; exact hw
        have hus : (memoryCreatePost srt MaxPayloadSize now input st).state.users
            = st.users := by rw [hs]
        have hrest := ih (memoryCreatePost srt MaxPayloadSize now input st).state
          (by rw [hn]; omega) (by rw [hn]; omega)
        rw [hn, hus] at hrest
        have hpass : CreateCall.passesPostChecks MaxPayloadSize st.users
            (CreateCall.post now input) = true := by
          simp [CreateCall.passesPostChecks, hu, hlen]
        simp only [servicePostIDs, hres, List.countP_cons, hpass, if_true]
        rw [range_map_shift, ← hrest]
    | comment now input =>
      have hn : (memoryCreateComment srt MaxPayloadSize now input st).state.nextPostID
          = st.nextPostID := by
        rcases memoryCreateComment_state srt MaxPayloadSize now input st with
          hs | ⟨_, _, _, _, _, hs⟩ <;> rw [hs]
      have hus : (memoryCreateComment srt MaxPayloadSize now input st).state.users
          = st.users := by
        rcases memoryCreateComment_state srt MaxPayloadSize now input st with
          hs | ⟨_, _, _, _, _, hs⟩ <;> rw [hs]
      have hrest := ih (memoryCreateComment srt MaxPayloadSize now input st).state
        (by rw [hn]; omega) (by rw [hn]; omega)
      rw [hn, hus] at hrest
      simp only [servicePostIDs, List.countP_cons, CreateCall.passesPostChecks]
      simpa using hrest

/-- C7 (amended): on a store created by `NewInMemoryStorage`, in a run of `CreatePost` and
`CreateComment` calls short enough for the id counter not to wrap, a successful `CreatePost`
returns the id 1 + the number of `CreatePost` calls, failed ones included, made before it;
so when every `CreatePost` call names a stored author the ids returned are 1, 2, 3, … in
call order. When the calls go through `PostService.CreatePost` and
`CommentService.CreateComment`, the posts created are those of the calls that pass the
service's checks and their ids are 1, 2, 3, … in call order, whatever calls failed in
between. -/
theorem post_ids_gap_free_over_calls (srt : SliceSorter) (MaxPayloadSize : Int)
    (calls : List CreateCall) (hlen : (calls.length : Int) < 2 ^ 63 - 1) :
    (∀ pre now input rest p e, calls = pre ++ CreateCall.post now input :: rest →
      (runCreates NewInMemoryStorage calls)[pre.length]? = some (.post (some p, e)) →
      p.ID = 1 + (postCalls pre : Int)) ∧
    ((∀ now input, CreateCall.post now input ∈ calls →
        ∃ u, NewInMemoryStorage.users.get? input.AuthorID = some u) →
      issuedPostIDs (runCreates NewInMemoryStorage calls)
        = (List.range (postCalls calls)).map (fun i : Nat => 1 + (i : Int))) ∧
    servicePostIDs srt MaxPayloadSize NewInMemoryStorage calls
      = (List.range (calls.countP
          (CreateCall.passesPostChecks MaxPayloadSize NewInMemoryStorage.users))).map
          (fun i : Nat => 1 + (i : Int)) := by
  have h1 : NewInMemoryStorage.nextPostID = 1 := rfl
  refine ⟨?_, ?_, ?_⟩
  · intro pre now input rest p e hcalls h
    subst hcalls
    simp only [List.length_append, List.length_cons, Nat.cast_add, Nat.cast_one] at hlen
    have := runCreates_post_position pre NewInMemoryStorage now input rest p e
      (by rw [h1]; omega) (by rw [h1]; omega) h
    rw [h1] at this
    exact this
  · intro hau
    have := issuedPostIDs_gap_free calls NewInMemoryStorage (by rw [h1]; omega)
      (by rw [h1]; omega) hau
    rw [h1] at this
    exact this
  · have := servicePostIDs_gap_free srt MaxPayloadSize calls NewInMemoryStorage
      (by rw [h1]; omega) (by rw [h1]; omega)
    rw [h1] at this
    exact this

/-- C7 (amended) witness: of two posts by user 1 with a post by the unknown user 999 and a
comment in between, the store's third `CreatePost` returns id 3 = 1 + 2, and through the
services the two created posts have ids 1 and 2. -/
theorem post_ids_gap_free_over_calls_witness :
    (postsWithFailure.length : Int) < 2 ^ 63 - 1 ∧
    issuedPostIDs (runCreates NewInMemoryStorage postsWithFailure) = [1, 3] ∧
    (3 : Int) = 1 + (postCalls (postsWithFailure.take 3) : Int) ∧
    servicePostIDs insertionSorter 2000 NewInMemoryStorage postsWithFailure = [1, 2] ∧
    servicePostIDs insertionSorter 2000 NewInMemoryStorage postsWithFailure
      = (List.range (postsWithFailure.countP
          (CreateCall.passesPostChecks 2000 NewInMemoryStorage.users))).map
          (fun i : Nat => 1 + (i : Int)) :=
  ⟨by decide, by decide,
   (post_ids_gap_free_over_calls insertionSorter 2000 postsWithFailure (by decide)).1
      (postsWithFailure.take 3) 13 alicePost []
      { ID := 3, Title := "Hello World", Payload := "Some content",
        Author := some { ID := 1, Username := "Alice" }, IsCommentsAllowed := true,
        CreatedAt := 13 }
      none (by decide) (by decide),
   by decide,
   (post_ids_gap_free_over_calls insertionSorter 2000 postsWithFailure (by decide)).2.2⟩

end PostCommentService
